import Mathlib

/-! # The enqueue engine of go-workers (`enqueue.go`)

A shallow embedding of the enqueue entry points and of the collaborators they
drive, followed by the properties established about them.

Conventions of the embedding:

* A `float64` is a NaN, an infinity or a finite value, held as the rational it equals;
  arithmetic rounds to the nearest binary64 value, ties to even, and overflows to an
  infinity. The sign of zero is not kept.
* `time.Time` is the instant's `UnixNano()` reading, a signed 64-bit integer.
* A Go `string` is a Lean `String`: names and identifiers are taken to be valid UTF-8
  text, which `encoding/json` writes and reads back unchanged.
* A Go `error` is an `Option String`; `none` is `nil`.
* A Go function returning several values returns a tuple.
* Serialised bytes are either the empty byte string or a JSON text, and a JSON
  text is identified with the document it denotes.
* The store connection is explicit state: the data held by the store, the
  commands issued so far, and the commands the store will answer with an error.
* The clock reading and the bytes offered by the randomness source are
  arguments of the function that samples them.
-/

namespace Workers

/-! ## JSON documents -/

/-- A JSON value. Objects keep their members in order. -/
inductive Json where
  | null
  | bool (b : Bool)
  | num (n : ℚ)
  | str (s : String)
  | arr (xs : List Json)
  | obj (kvs : List (String × Json))

mutual
/-- Decision procedure for equality of JSON values. -/
def Json.decEq : (a b : Json) → Decidable (a = b)
  | .null, .null => isTrue rfl
  | .bool a, .bool b =>
    if h : a = b then isTrue (h ▸ rfl) else isFalse (fun e => h (Json.bool.inj e))
  | .num a, .num b =>
    if h : a = b then isTrue (h ▸ rfl) else isFalse (fun e => h (Json.num.inj e))
  | .str a, .str b =>
    if h : a = b then isTrue (h ▸ rfl) else isFalse (fun e => h (Json.str.inj e))
  | .arr a, .arr b =>
    match Json.decEqList a b with
    | isTrue h => isTrue (h ▸ rfl)
    | isFalse h => isFalse (fun e => h (Json.arr.inj e))
  | .obj a, .obj b =>
    match Json.decEqMembers a b with
    | isTrue h => isTrue (h ▸ rfl)
    | isFalse h => isFalse (fun e => h (Json.obj.inj e))
  | .null, .bool _ => isFalse (fun h => Json.noConfusion h)
  | .null, .num _ => isFalse (fun h => Json.noConfusion h)
  | .null, .str _ => isFalse (fun h => Json.noConfusion h)
  | .null, .arr _ => isFalse (fun h => Json.noConfusion h)
  | .null, .obj _ => isFalse (fun h => Json.noConfusion h)
  | .bool _, .null => isFalse (fun h => Json.noConfusion h)
  | .bool _, .num _ => isFalse (fun h => Json.noConfusion h)
  | .bool _, .str _ => isFalse (fun h => Json.noConfusion h)
  | .bool _, .arr _ => isFalse (fun h => Json.noConfusion h)
  | .bool _, .obj _ => isFalse (fun h => Json.noConfusion h)
  | .num _, .null => isFalse (fun h => Json.noConfusion h)
  | .num _, .bool _ => isFalse (fun h => Json.noConfusion h)
  | .num _, .str _ => isFalse (fun h => Json.noConfusion h)
  | .num _, .arr _ => isFalse (fun h => Json.noConfusion h)
  | .num _, .obj _ => isFalse (fun h => Json.noConfusion h)
  | .str _, .null => isFalse (fun h => Json.noConfusion h)
  | .str _, .bool _ => isFalse (fun h => Json.noConfusion h)
  | .str _, .num _ => isFalse (fun h => Json.noConfusion h)
  | .str _, .arr _ => isFalse (fun h => Json.noConfusion h)
  | .str _, .obj _ => isFalse (fun h => Json.noConfusion h)
  | .arr _, .null => isFalse (fun h => Json.noConfusion h)
  | .arr _, .bool _ => isFalse (fun h => Json.noConfusion h)
  | .arr _, .num _ => isFalse (fun h => Json.noConfusion h)
  | .arr _, .str _ => isFalse (fun h => Json.noConfusion h)
  | .arr _, .obj _ => isFalse (fun h => Json.noConfusion h)
  | .obj _, .null => isFalse (fun h => Json.noConfusion h)
  | .obj _, .bool _ => isFalse (fun h => Json.noConfusion h)
  | .obj _, .num _ => isFalse (fun h => Json.noConfusion h)
  | .obj _, .str _ => isFalse (fun h => Json.noConfusion h)
  | .obj _, .arr _ => isFalse (fun h => Json.noConfusion h)
/-- Decision procedure for equality of JSON arrays. -/
def Json.decEqList : (xs ys : List Json) → Decidable (xs = ys)
  | [], [] => isTrue rfl
  | [], _ :: _ => isFalse (fun h => List.noConfusion h)
  | _ :: _, [] => isFalse (fun h => List.noConfusion h)
  | x :: xs, y :: ys =>
    match Json.decEq x y, Json.decEqList xs ys with
    | isTrue h₁, isTrue h₂ => isTrue (h₁ ▸ h₂ ▸ rfl)
    | isFalse h, _ => isFalse (fun e => h (List.cons.inj e).1)
    | _, isFalse h => isFalse (fun e => h (List.cons.inj e).2)
/-- Decision procedure for equality of the member lists of JSON objects. -/
def Json.decEqMembers : (xs ys : List (String × Json)) → Decidable (xs = ys)
  | [], [] => isTrue rfl
  | [], _ :: _ => isFalse (fun h => List.noConfusion h)
  | _ :: _, [] => isFalse (fun h => List.noConfusion h)
  | (k, x) :: xs, (l, y) :: ys =>
    if hk : k = l then
      match Json.decEq x y, Json.decEqMembers xs ys with
      | isTrue h₁, isTrue h₂ => isTrue (hk ▸ h₁ ▸ h₂ ▸ rfl)
      | isFalse h, _ => isFalse (fun e => h (Prod.mk.inj (List.cons.inj e).1).2)
      | _, isFalse h => isFalse (fun e => h (List.cons.inj e).2)
    else isFalse (fun e => hk (Prod.mk.inj (List.cons.inj e).1).1)
end

instance : DecidableEq Json := Json.decEq

/-- The value of the first member named `key`, if there is one. -/
def lookupField (key : String) : List (String × Json) → Option Json
  | [] => none
  | (k, v) :: rest => if k = key then some v else lookupField key rest

/-- Give `key` the value `v`: in place when the key is there, at the end otherwise. -/
def setField (key : String) (v : Json) : List (String × Json) → List (String × Json)
  | [] => [(key, v)]
  | (k, x) :: rest => if k = key then (key, v) :: rest else (k, x) :: setField key v rest

/-- Serialised bytes (`[]byte`): the empty byte string, or the JSON text of a document. -/
inductive Bytes where
  | empty
  | text (doc : Json)
  deriving DecidableEq

/-- The value of the member `key` of the JSON object a payload holds. -/
def Bytes.field (b : Bytes) (key : String) : Option Json :=
  match b with
  | .text (.obj kvs) => lookupField key kvs
  | _ => none

/-! ## `float64` -/

/-- A `float64`: NaN, the two infinities, or a finite value, held as the rational number
it equals. The type has a finite value for every rational, the binary64 ones among them:
what is proved for every `Float64` holds for every `float64`. Rounding, and with it
addition, division and the conversion of an integer, returns binary64 values only. -/
inductive Float64 where
  | nan
  | posInf
  | negInf
  | fin (q : ℚ)
  deriving DecidableEq

/-- The integer nearest to a non-negative rational, a tie going to the even one. -/
def roundHalfEven (x : ℚ) : ℕ :=
  let f := ⌊x⌋₊
  let d := x - f
  if d < 1 / 2 then f
  else if 1 / 2 < d then f + 1
  else if f % 2 = 0 then f else f + 1

/-- The multiple of the binary64 unit in the last place of `a` that is nearest to the
non-negative rational `a`: 53 significant bits, exponents no lower than -1022, ties to
even. -/
def Float64.nearest (a : ℚ) : ℚ :=
  let exp : ℤ := max (Int.log 2 a) (-1022)
  let ulp : ℚ := (2 : ℚ) ^ (exp - 52)
  (roundHalfEven (a / ulp) : ℚ) * ulp

/-- Rounding of a non-negative rational to binary64: the nearest value, or `+Inf` when
that is `2^1024` or more. -/
def Float64.roundNonneg (a : ℚ) : Float64 :=
  if (2 : ℚ) ^ (1024 : ℤ) ≤ Float64.nearest a then Float64.posInf
  else Float64.fin (Float64.nearest a)

/-- Negation. -/
def Float64.neg : Float64 → Float64
  | .nan => .nan
  | .posInf => .negInf
  | .negInf => .posInf
  | .fin q => .fin (-q)

/-- Rounding of a rational to binary64, to nearest, ties to even. -/
def Float64.round (q : ℚ) : Float64 :=
  if q < 0 then (Float64.roundNonneg (-q)).neg else Float64.roundNonneg q

/-- Neither NaN nor an infinity. -/
def Float64.isFinite : Float64 → Bool
  | .fin _ => true
  | _ => false

/-- Go `x < y` on `float64`: false whenever an operand is NaN. -/
def Float64.lt : Float64 → Float64 → Bool
  | .nan, _ => false
  | _, .nan => false
  | .fin a, .fin b => decide (a < b)
  | .fin _, .posInf => true
  | .fin _, .negInf => false
  | .posInf, _ => false
  | .negInf, .negInf => false
  | .negInf, _ => true

/-- Go `x <= y` on `float64`: false whenever an operand is NaN. -/
def Float64.le : Float64 → Float64 → Bool
  | .nan, _ => false
  | _, .nan => false
  | .fin a, .fin b => decide (a ≤ b)
  | .fin _, .posInf => true
  | .fin _, .negInf => false
  | .posInf, .posInf => true
  | .posInf, _ => false
  | .negInf, _ => true

instance : LT Float64 := ⟨fun a b => Float64.lt a b = true⟩

instance : LE Float64 := ⟨fun a b => Float64.le a b = true⟩

instance (a b : Float64) : Decidable (a < b) :=
  inferInstanceAs (Decidable (Float64.lt a b = true))

instance (a b : Float64) : Decidable (a ≤ b) :=
  inferInstanceAs (Decidable (Float64.le a b = true))

/-- Go `x + y` on `float64`. -/
def Float64.add : Float64 → Float64 → Float64
  | .nan, _ => .nan
  | _, .nan => .nan
  | .posInf, .negInf => .nan
  | .negInf, .posInf => .nan
  | .posInf, _ => .posInf
  | .negInf, _ => .negInf
  | .fin _, .posInf => .posInf
  | .fin _, .negInf => .negInf
  | .fin a, .fin b => Float64.round (a + b)

/-- Go `x / y` on `float64`. -/
def Float64.div : Float64 → Float64 → Float64
  | .nan, _ => .nan
  | _, .nan => .nan
  | .fin _, .posInf => .fin 0
  | .fin _, .negInf => .fin 0
  | .fin a, .fin b =>
    if b = 0 then (if a = 0 then .nan else if 0 < a then .posInf else .negInf)
    else Float64.round (a / b)
  | .posInf, .fin b => if b < 0 then .negInf else .posInf
  | .negInf, .fin b => if b < 0 then .posInf else .negInf
  | .posInf, _ => .nan
  | .negInf, _ => .nan

instance : Add Float64 := ⟨Float64.add⟩

instance : Div Float64 := ⟨Float64.div⟩

/-- Go `float64(n)` for an `int64`. -/
def Float64.ofInt (n : Int) : Float64 := Float64.round n

/-- The JSON value of a `float64` put into a record. NaN and the infinities have no JSON
number; the enqueue engine puts clock samples only, which are finite. -/
def Float64.toJson : Float64 → Json
  | .fin q => Json.num q
  | _ => Json.null

/-- The finite value rounding gives when it does not overflow, sign included. -/
def Float64.nearestSigned (q : ℚ) : ℚ :=
  if q < 0 then -Float64.nearest (-q) else Float64.nearest q

/-! ## Time Precision Utility -/

/-- An instant (`time.Time`), as its `UnixNano()` reading: a signed 64-bit integer. -/
structure Time where
  nanos : Int
  inRange : -9223372036854775808 ≤ nanos ∧ nanos ≤ 9223372036854775807

instance : LE Time := ⟨fun a b => a.nanos ≤ b.nanos⟩

/-- The Unix epoch. -/
def Time.epoch : Time := ⟨0, by decide⟩

/-- The constant `NanoSecondPrecision`. -/
def NanoSecondPrecision : Float64 := Float64.fin 1000000000

/-- Go: `float64(t.UnixNano()) / NanoSecondPrecision`. -/
def timeToSecondsWithNanoPrecision (t : Time) : Float64 :=
  Float64.ofInt t.nanos / NanoSecondPrecision

/-- Go: `timeToSecondsWithNanoPrecision(time.Now())`; `clock` is what `time.Now()` reads. -/
def NowToSecondsWithNanoPrecision (clock : Time) : Float64 :=
  timeToSecondsWithNanoPrecision clock

/-! ## Identifier Generator -/

/-- One byte. -/
abbrev Byte := Fin 256

/-- `io.ReadFull(src, b)` for a buffer of `n` bytes: the first `n` bytes the source offers,
or a failure when it offers fewer. -/
def ReadFull (src : List Byte) (n : Nat) : Option (List Byte) :=
  if n ≤ src.length then some (src.take n) else none

/-- The lowercase hexadecimal digit of a value below 16. -/
def hexDigit (d : Nat) : Char :=
  if d < 10 then Char.ofNat (48 + d) else Char.ofNat (87 + d)

/-- `fmt.Sprintf("%x", b)` on a byte slice: two lowercase hexadecimal digits per byte. -/
def sprintfHex (b : List Byte) : String :=
  String.mk (b.flatMap fun x => [hexDigit (x.val / 16), hexDigit (x.val % 16)])

/-- Go `generateJid`; `rand` is what `rand.Reader` offers. -/
def generateJid (rand : List Byte) : String :=
  match ReadFull rand 12 with
  | none => ""
  | some b => sprintfHex b

/-! ## Job Descriptor -/

/-- Go struct `EnqueueOptions`. -/
structure EnqueueOptions where
  MaxAttempts : Int := 0
  RetryCount : Int := 0
  Retry : Bool := false
  At : Float64 := Float64.fin 0
  deriving DecidableEq

/-- Go struct `EnqueueData`; `EnqueueOptions` is embedded. `Args` is an `interface{}`:
`some j` is a value that encodes as the JSON value `j`, `none` a value that
`encoding/json` cannot encode. -/
structure EnqueueData extends EnqueueOptions where
  Queue : String
  Class : String
  Args : Option Json
  Jid : String
  EnqueuedAt : Float64

/-- A struct field tagged `omitempty`: left out when it holds its zero value. -/
def omitempty (key : String) (isZero : Bool) (v : Json) : List (String × Json) :=
  if isZero then [] else [(key, v)]

/-- The error of `encoding/json` for a `float64` that has no JSON number. -/
def json.UnsupportedValueError : Float64 → String
  | .nan => "json: unsupported value: NaN"
  | .posInf => "json: unsupported value: +Inf"
  | .negInf => "json: unsupported value: -Inf"
  | .fin _ => "json: unsupported value"

/-- `json.Marshal` on an `EnqueueData`, following its struct tags: members in field order,
the promoted fields of the embedded options last, `omitempty` fields left out when zero.
The encoding fails, with no bytes, at the first field that cannot be encoded: `Args` when
its value cannot be, then a `float64` field that is NaN or an infinity. -/
def json.Marshal (d : EnqueueData) : Bytes × Option String :=
  match d.Args with
  | none => (Bytes.empty, some "json: unsupported type")
  | some a =>
    match d.EnqueuedAt with
    | Float64.fin enqueuedAt =>
      match d.At with
      | Float64.fin at_ =>
        (Bytes.text (Json.obj (
          omitempty "queue" (d.Queue == "") (Json.str d.Queue) ++
          [("class", Json.str d.Class), ("args", a), ("jid", Json.str d.Jid),
           ("enqueued_at", Json.num enqueuedAt)] ++
          omitempty "max_attempts" (d.MaxAttempts == 0) (Json.num d.MaxAttempts) ++
          omitempty "retry_count" (d.RetryCount == 0) (Json.num d.RetryCount) ++
          omitempty "retry" (!d.Retry) (Json.bool d.Retry) ++
          omitempty "at" (at_ == 0) (Json.num at_))), none)
      | v => (Bytes.empty, some (json.UnsupportedValueError v))
    | v => (Bytes.empty, some (json.UnsupportedValueError v))

/-! ## Document Model (Job Record) -/

/-- Modelled from the spec: the Job Record, type `Msg` of the repository, whose declaration
is not part of the sources at hand. Section 3 makes it an ordered mapping from string keys
to JSON values. -/
structure Msg where
  fields : List (String × Json)
  deriving DecidableEq

/-- Modelled from the spec: what `Get(key)` hands to the typed accessors (section 4.3), the
value under the key or nothing when the key is missing. -/
abbrev Accessor := Option Json

/-- Modelled from the spec: the two distinguishable failures of a typed access. -/
inductive AccessError where
  | keyNotFound
  | typeMismatch
  deriving DecidableEq

/-- The text of an access failure. -/
def AccessError.message : AccessError → String
  | .keyNotFound => "key not found"
  | .typeMismatch => "type mismatch"

/-- Modelled from the spec: `Construct(raw bytes)` of section 4.3, `NewMsg` in the source;
a decode error unless the bytes are a JSON object. -/
def NewMsg (content : Bytes) : Option Msg × Option String :=
  match content with
  | .text (.obj kvs) => (some ⟨kvs⟩, none)
  | _ => (none, some "decode error")

/-- Modelled from the spec: `Get(key)` of section 4.3. -/
def Msg.Get (m : Msg) (key : String) : Accessor :=
  lookupField key m.fields

/-- Modelled from the spec: `CheckPresence(key)` of section 4.3, `CheckGet` in the source:
the value and whether the key is there, whatever its type. -/
def Msg.CheckGet (m : Msg) (key : String) : Accessor × Bool :=
  (lookupField key m.fields, (lookupField key m.fields).isSome)

/-- Modelled from the spec: `Set(key, value)` of section 4.3, leaving the other keys and
their order alone. -/
def Msg.Set (m : Msg) (key : String) (v : Json) : Msg :=
  ⟨setField key v m.fields⟩

/-- Modelled from the spec: `Encode()` of section 4.3, the JSON bytes of the current state. -/
def Msg.Encode (m : Msg) : Bytes × Option String :=
  (Bytes.text (Json.obj m.fields), none)

/-- Modelled from the spec: typed access as a string (section 4.3): the value, or the zero
value and the failure. -/
def Accessor.String (a : Accessor) : String × Option AccessError :=
  match a with
  | some (.str s) => (s, none)
  | some _ => ("", some AccessError.typeMismatch)
  | none => ("", some AccessError.keyNotFound)

/-- Modelled from the spec: typed access as a number (section 4.3): the value, or the zero
value and the failure. -/
def Accessor.Float64 (a : Accessor) : Float64 × Option AccessError :=
  match a with
  | some (.num n) => (Float64.fin n, none)
  | some _ => (Float64.fin 0, some AccessError.typeMismatch)
  | none => (Float64.fin 0, some AccessError.keyNotFound)

/-! ## The store -/

/-- Modelled from the spec: the constant `SCHEDULED_JOBS_KEY`, declared outside the sources
at hand; section 6 gives the key of the scheduled set as the namespace followed by
`schedule`. -/
def SCHEDULED_JOBS_KEY : String := "schedule"

/-- The part of the process-wide `Config` the enqueue engine reads. -/
structure Config where
  Namespace : String

/-- The store commands the enqueue engine issues through `conn.Do`. -/
inductive Command where
  | sadd (key : String) (member : String)
  | rpush (key : String) (value : Bytes)
  | zadd (key : String) (score : Float64) (member : Bytes)
  deriving DecidableEq

/-- The data the store holds: sets of strings, lists of payloads, and sorted sets of
payloads with their scores, each by key. -/
structure Store where
  sets : String → List String
  lists : String → List Bytes
  zsets : String → List (Float64 × Bytes)

/-- The store with nothing in it. -/
def Store.empty : Store :=
  ⟨fun _ => [], fun _ => [], fun _ => []⟩

/-- The effect of a command the store accepts: `sadd` adds a member unless it is there,
`rpush` appends at the tail, `zadd` gives the member its score, adding it when new. -/
def Store.apply (s : Store) : Command → Store
  | .sadd key member =>
    { s with sets := fun k =>
        if k = key then
          (if member ∈ s.sets k then s.sets k else s.sets k ++ [member])
        else s.sets k }
  | .rpush key value =>
    { s with lists := fun k => if k = key then s.lists k ++ [value] else s.lists k }
  | .zadd key score member =>
    { s with zsets := fun k =>
        if k = key then (s.zsets k).filter (fun e => e.2 ≠ member) ++ [(score, member)]
        else s.zsets k }

/-- A connection taken from `Config.Pool`: the store behind it, the commands issued so
far, and the commands the store answers with an error. -/
structure Conn where
  store : Store
  issued : List Command
  failing : Command → Bool

/-- Go `conn.Do`: the command is issued; it takes effect unless the store answers with an
error. -/
def Conn.Do (c : Conn) (cmd : Command) : Conn × Option String :=
  if c.failing cmd then
    ({ c with issued := c.issued ++ [cmd] }, some "store error")
  else
    ({ c with store := c.store.apply cmd, issued := c.issued ++ [cmd] }, none)

/-- A connection to a store that accepts every command. -/
def Conn.healthy (s : Store) : Conn :=
  ⟨s, [], fun _ => false⟩

/-! ## Enqueue Engine -/

/-- Go `enqueueAt`: one `zadd` into the scheduled set. -/
def enqueueAt (cfg : Config) (conn : Conn) (at_ : Float64) (bytes : Bytes) : Conn × Option String :=
  let r := conn.Do (Command.zadd (cfg.Namespace ++ SCHEDULED_JOBS_KEY) at_ bytes)
  if r.2.isSome then (r.1, r.2) else (r.1, none)

/-- Go `EnqueueWithOptions`. Returns the connection after the call, the identifier and the
error. -/
def EnqueueWithOptions (cfg : Config) (clock : Time) (rand : List Byte) (conn : Conn)
    (queue class_ : String) (args : Option Json) (opts : EnqueueOptions) :
    Conn × String × Option String :=
  let now := NowToSecondsWithNanoPrecision clock
  let data : EnqueueData :=
    { toEnqueueOptions := opts, Queue := queue, Class := class_, Args := args,
      Jid := generateJid rand, EnqueuedAt := now }
  let m := json.Marshal data
  if m.2.isSome then (conn, "", m.2)
  else
    let bytes := m.1
    if now < opts.At then
      let r := enqueueAt cfg conn data.At bytes
      (r.1, data.Jid, r.2)
    else
      let r₁ := conn.Do (Command.sadd (cfg.Namespace ++ "queues") queue)
      if r₁.2.isSome then (r₁.1, "", r₁.2)
      else
        let queue := cfg.Namespace ++ "queue:" ++ queue
        let r₂ := r₁.1.Do (Command.rpush queue bytes)
        if r₂.2.isSome then (r₂.1, "", r₂.2)
        else (r₂.1, data.Jid, none)

/-- Go `Enqueue`; `clock₁` is the reading it takes for `At`, `clock₂` the one taken inside
`EnqueueWithOptions`. -/
def Enqueue (cfg : Config) (clock₁ clock₂ : Time) (rand : List Byte) (conn : Conn)
    (queue class_ : String) (args : Option Json) : Conn × String × Option String :=
  EnqueueWithOptions cfg clock₂ rand conn queue class_ args
    { At := NowToSecondsWithNanoPrecision clock₁ }

/-- Go `EnqueueIn`; `clock₁` is the reading it takes for `At`, `clock₂` the one taken inside
`EnqueueWithOptions`. -/
def EnqueueIn (cfg : Config) (clock₁ clock₂ : Time) (rand : List Byte) (conn : Conn)
    (queue class_ : String) (in_ : Float64) (args : Option Json) :
    Conn × String × Option String :=
  EnqueueWithOptions cfg clock₂ rand conn queue class_ args
    { At := NowToSecondsWithNanoPrecision clock₁ + in_ }

/-- Go `EnqueueAt`. -/
def EnqueueAt (cfg : Config) (clock : Time) (rand : List Byte) (conn : Conn)
    (queue class_ : String) (at_ : Time) (args : Option Json) : Conn × String × Option String :=
  EnqueueWithOptions cfg clock rand conn queue class_ args
    { At := timeToSecondsWithNanoPrecision at_ }

/-- Go `PrepareEnqueuMsg`; `none` is the nil record. -/
def PrepareEnqueuMsg (clock : Time) (rand : List Byte) (queue class_ : String)
    (args : Option Json) (opts : EnqueueOptions) : Option Msg :=
  let now := NowToSecondsWithNanoPrecision clock
  let opts := if opts.At ≤ Float64.fin 0 then { opts with At := now } else opts
  let data : EnqueueData :=
    { toEnqueueOptions := opts, Queue := queue, Class := class_, Args := args,
      Jid := generateJid rand, EnqueuedAt := now }
  let bytes := (json.Marshal data).1
  let msg := (NewMsg bytes).1
  msg

/-- The record of `EnqueueMsg` after the `jid` step (source lines 118-124), or the error
the step returns. -/
def EnqueueMsg.jidStep (rand : List Byte) (msg : Msg) : Except String Msg :=
  match ((msg.Get "jid").String).2 with
  | some err =>
    if (msg.CheckGet "jid").2 then Except.error ("Bad JID value: " ++ err.message)
    else Except.ok (msg.Set "jid" (Json.str (generateJid rand)))
  | none => Except.ok msg

/-- The record of `EnqueueMsg` after the `at` step (source lines 126-132), or the error the
step returns. -/
def EnqueueMsg.atStep (now : Float64) (msg : Msg) : Except String Msg :=
  match ((msg.Get "at").Float64).2 with
  | some err =>
    if (msg.CheckGet "at").2 then Except.error ("Bad at value: " ++ err.message)
    else Except.ok (msg.Set "at" now.toJson)
  | none => Except.ok msg

/-- Go `EnqueueMsg`. The record is mutated in place in the source: the result carries the
connection after the call, the caller's record after the call, and the error. -/
def EnqueueMsg (cfg : Config) (clock : Time) (rand : List Byte) (conn : Conn) (msg : Msg) :
    Conn × Msg × Option String :=
  match ((msg.Get "queue").String).2 with
  | some err => (conn, msg, some ("Bad queue value: " ++ err.message))
  | none =>
    let now := NowToSecondsWithNanoPrecision clock
    match EnqueueMsg.jidStep rand msg with
    | Except.error e => (conn, msg, some e)
    | Except.ok msg₁ =>
      match EnqueueMsg.atStep now msg₁ with
      | Except.error e => (conn, msg₁, some e)
      | Except.ok msg₂ =>
        let msg₃ := msg₂.Set "enqueued_at" now.toJson
        let bytes := msg₃.Encode.1
        let queue := ((msg₃.Get "queue").String).1
        let at_ := ((msg₃.Get "at").Float64).1
        if now < at_ then
          let r := enqueueAt cfg conn at_ bytes
          (r.1, msg₃, r.2)
        else
          let r₁ := conn.Do (Command.sadd (cfg.Namespace ++ "queues") queue)
          if r₁.2.isSome then (r₁.1, msg₃, r₁.2)
          else
            let queue := cfg.Namespace ++ "queue:" ++ queue
            let r₂ := r₁.1.Do (Command.rpush queue bytes)
            if r₂.2.isSome then (r₂.1, msg₃, r₂.2)
            else (r₂.1, msg₃, none)

/-- The record `EnqueueWithOptions` builds (source lines 55-62). -/
def EnqueueWithOptions.data (clock : Time) (rand : List Byte) (queue class_ : String)
    (args : Option Json) (opts : EnqueueOptions) : EnqueueData :=
  { toEnqueueOptions := opts, Queue := queue, Class := class_, Args := args,
    Jid := generateJid rand, EnqueuedAt := NowToSecondsWithNanoPrecision clock }

/-- The payload a command carries to the store, if it carries one. -/
def Command.payload : Command → Option Bytes
  | .sadd _ _ => none
  | .rpush _ value => some value
  | .zadd _ _ member => some member

/-- The commands issued on `after` since the connection was in the state `before`. -/
def Conn.issuedSince (after before : Conn) : List Command :=
  after.issued.drop before.issued.length

/-- The payloads carried by the commands issued on `after` since `before`, in order. -/
def Conn.payloadsSince (after before : Conn) : List Bytes :=
  (after.issuedSince before).filterMap Command.payload

/-- The record a call of `EnqueueMsg` leaves when the three checks pass, written out: the
input with `jid` and `at` filled in when they were absent and `enqueued_at` set. The lemma
`EnqueueMsg_accepted` shows that `EnqueueMsg` computes it. -/
def EnqueueMsg.completed (now : Float64) (rand : List Byte) (msg : Msg) : Msg :=
  let m₁ := if msg.Get "jid" = none then msg.Set "jid" (Json.str (generateJid rand)) else msg
  let m₂ := if msg.Get "at" = none then m₁.Set "at" now.toJson else m₁
  m₂.Set "enqueued_at" now.toJson

/-- A command without its payload: its name, its key, and the set member or the score. -/
inductive Shape where
  | sadd (key : String) (member : String)
  | rpush (key : String)
  | zadd (key : String) (score : Float64)
  deriving DecidableEq

/-- The shape of a command. -/
def Command.shape : Command → Shape
  | .sadd key member => Shape.sadd key member
  | .rpush key _ => Shape.rpush key
  | .zadd key score _ => Shape.zadd key score

/-- The `Queue` of the `EnqueueData` that `json.Unmarshal(bytes, &data)` fills from a
payload, as the test suite reads it: the string under `queue`, or the zero value when the
document has none. -/
def decodedQueue (b : Bytes) : String :=
  match b.field "queue" with
  | some (.str s) => s
  | _ => ""

/-- The record `PrepareEnqueuMsg` builds (source lines 93-104), `at` already defaulted. -/
def PrepareEnqueuMsg.data (clock : Time) (rand : List Byte) (queue class_ : String)
    (args : Option Json) (opts : EnqueueOptions) : EnqueueData :=
  { toEnqueueOptions :=
      if opts.At ≤ Float64.fin 0 then
        { opts with At := NowToSecondsWithNanoPrecision clock }
      else opts,
    Queue := queue, Class := class_, Args := args,
    Jid := generateJid rand, EnqueuedAt := NowToSecondsWithNanoPrecision clock }

/-- The sixteen lowercase hexadecimal digits, in order of value. -/
def lowerHexDigits : List Char := "0123456789abcdef".toList

/-- The identifier shape of the Job Descriptor: exactly 24 lowercase hexadecimal
characters. -/
def isJid (s : String) : Bool :=
  s.length == 24 && s.toList.all (fun c => lowerHexDigits.contains c)


/-! ## Basic facts about `float64` -/

theorem floor_le_roundHalfEven (x : ℚ) : ⌊x⌋₊ ≤ roundHalfEven x := by
  unfold roundHalfEven
  simp only []
  split
  · exact le_refl _
  · split
    · exact Nat.le_succ _
    · split
      · exact le_refl _
      · exact Nat.le_succ _

theorem roundHalfEven_le_floor_succ (x : ℚ) : roundHalfEven x ≤ ⌊x⌋₊ + 1 := by
  unfold roundHalfEven
  simp only []
  split
  · exact Nat.le_succ _
  · split
    · exact le_refl _
    · split
      · exact Nat.le_succ _
      · exact le_refl _

theorem le_roundHalfEven (N : ℕ) (x : ℚ) (h : (N : ℚ) ≤ x) : N ≤ roundHalfEven x :=
  le_trans (Nat.le_floor h) (floor_le_roundHalfEven x)

theorem roundHalfEven_le (N : ℕ) (x : ℚ) (h0 : 0 ≤ x) (h : x < (N : ℚ)) : roundHalfEven x ≤ N := by
  have : ⌊x⌋₊ < N := (Nat.floor_lt h0).mpr h
  exact le_trans (roundHalfEven_le_floor_succ x) this

theorem roundHalfEven_mono (x y : ℚ) (h : x ≤ y) :
    roundHalfEven x ≤ roundHalfEven y := by
  rcases Nat.lt_or_ge ⌊x⌋₊ ⌊y⌋₊ with hlt | hge
  · exact le_trans (roundHalfEven_le_floor_succ x) (le_trans hlt (floor_le_roundHalfEven y))
  · have heq : ⌊x⌋₊ = ⌊y⌋₊ := le_antisymm (Nat.floor_mono h) hge
    have hd : x - (⌊x⌋₊ : ℚ) ≤ y - (⌊y⌋₊ : ℚ) := by rw [heq]; linarith
    unfold roundHalfEven
    simp only []
    rw [← heq] at hd ⊢
    by_cases h1 : x - (⌊x⌋₊ : ℚ) < 1 / 2
    · rw [if_pos h1]
      split
      · exact le_refl _
      · split
        · exact Nat.le_succ _
        · split
          · exact le_refl _
          · exact Nat.le_succ _
    · rw [if_neg h1]
      have h1' : ¬ y - (⌊x⌋₊ : ℚ) < 1 / 2 := fun hc => h1 (lt_of_le_of_lt hd hc)
      rw [if_neg h1']
      by_cases h2 : 1 / 2 < x - (⌊x⌋₊ : ℚ)
      · rw [if_pos h2, if_pos (lt_of_lt_of_le h2 hd)]
      · rw [if_neg h2]
        by_cases h3 : 1 / 2 < y - (⌊x⌋₊ : ℚ)
        · rw [if_pos h3]
          split
          · exact Nat.le_succ _
          · exact le_refl _
        · rw [if_neg h3]

theorem Float64.nearest_zero : Float64.nearest 0 = 0 := by
  simp [Float64.nearest, roundHalfEven]

theorem Float64.nearest_nonneg (a : ℚ) : 0 ≤ Float64.nearest a := by
  unfold Float64.nearest
  simp only []
  positivity

theorem Float64.two_zpow_53 (E : ℤ) : (2 : ℚ) ^ (E + 1) = ((2 ^ 53 : ℕ) : ℚ) * 2 ^ (E - 52) := by
  have h : (E + 1 : ℤ) = 53 + (E - 52) := by ring
  rw [h, zpow_add₀ (by norm_num : (2 : ℚ) ≠ 0)]
  norm_num

theorem Float64.two_zpow_52 (E : ℤ) : (2 : ℚ) ^ E = ((2 ^ 52 : ℕ) : ℚ) * 2 ^ (E - 52) := by
  have h : (E : ℤ) = 52 + (E - 52) := by ring
  nth_rewrite 1 [h]
  rw [zpow_add₀ (by norm_num : (2 : ℚ) ≠ 0)]
  norm_num

theorem Float64.nearest_le_zpow (a : ℚ) (h0 : 0 ≤ a) :
    Float64.nearest a ≤ 2 ^ (max (Int.log 2 a) (-1022) + 1) := by
  unfold Float64.nearest
  simp only []
  set E : ℤ := max (Int.log 2 a) (-1022) with hE
  have hulp : (0 : ℚ) < 2 ^ (E - 52) := by positivity
  have ha : a < 2 ^ (E + 1) := by
    calc a < 2 ^ (Int.log 2 a + 1) := by
          have := Int.lt_zpow_succ_log_self (b := 2) (by norm_num) a
          simpa using this
      _ ≤ 2 ^ (E + 1) := by
          apply zpow_le_zpow_right₀ (by norm_num)
          have : Int.log 2 a ≤ E := le_max_left _ _
          omega
  have hdiv : a / 2 ^ (E - 52) < ((2 ^ 53 : ℕ) : ℚ) := by
    rw [div_lt_iff₀ hulp, ← Float64.two_zpow_53]
    exact ha
  have hr := roundHalfEven_le (2 ^ 53) _ (div_nonneg h0 hulp.le) hdiv
  rw [Float64.two_zpow_53]
  exact mul_le_mul_of_nonneg_right (by exact_mod_cast hr) hulp.le

theorem Float64.zpow_le_nearest (a : ℚ) (h : (2 : ℚ) ^ (-1022 : ℤ) ≤ a) :
    2 ^ (max (Int.log 2 a) (-1022)) ≤ Float64.nearest a := by
  have h0 : 0 < a := lt_of_lt_of_le (by positivity) h
  unfold Float64.nearest
  simp only []
  set E : ℤ := max (Int.log 2 a) (-1022) with hE
  have hulp : (0 : ℚ) < 2 ^ (E - 52) := by positivity
  have ha : (2 : ℚ) ^ E ≤ a := by
    rcases le_total (Int.log 2 a) (-1022) with hl | hl
    · rw [hE, max_eq_right hl]; exact h
    · rw [hE, max_eq_left hl]
      have := Int.zpow_log_le_self (b := 2) (by norm_num) h0
      simpa using this
  have hdiv : ((2 ^ 52 : ℕ) : ℚ) ≤ a / 2 ^ (E - 52) := by
    rw [le_div_iff₀ hulp, ← Float64.two_zpow_52]
    exact ha
  have hr := le_roundHalfEven (2 ^ 52) _ hdiv
  rw [Float64.two_zpow_52 E]
  exact mul_le_mul_of_nonneg_right (by exact_mod_cast hr) hulp.le

theorem Float64.nearest_mono (a b : ℚ) (h0 : 0 ≤ a) (h : a ≤ b) :
    Float64.nearest a ≤ Float64.nearest b := by
  rcases eq_or_lt_of_le h0 with hz | hpos
  · rw [← hz, Float64.nearest_zero]; exact Float64.nearest_nonneg b
  · have hlog : Int.log 2 a ≤ Int.log 2 b := Int.log_mono_right hpos h
    have hE : max (Int.log 2 a) (-1022) ≤ max (Int.log 2 b) (-1022) :=
      max_le_max hlog (le_refl _)
    rcases eq_or_lt_of_le hE with heq | hlt
    · unfold Float64.nearest
      simp only []
      rw [heq]
      have hulp : (0 : ℚ) < 2 ^ (max (Int.log 2 b) (-1022) - 52) := by positivity
      have hdiv : a / 2 ^ (max (Int.log 2 b) (-1022) - 52) ≤
          b / 2 ^ (max (Int.log 2 b) (-1022) - 52) := div_le_div_of_nonneg_right h hulp.le
      have := roundHalfEven_mono _ _ hdiv
      exact mul_le_mul_of_nonneg_right (by exact_mod_cast this) hulp.le
    · have hbig : -1022 < max (Int.log 2 b) (-1022) :=
        lt_of_le_of_lt (le_max_right _ _) hlt
      have hb : (2 : ℚ) ^ (-1022 : ℤ) ≤ b := by
        have hlb : -1022 < Int.log 2 b := by
          rcases le_total (Int.log 2 b) (-1022) with hl | hl
          · rw [max_eq_right hl] at hbig; exact absurd hbig (lt_irrefl _)
          · rw [max_eq_left hl] at hbig; exact hbig
        have h1 : (2 : ℚ) ^ (Int.log 2 b) ≤ b := by
          have := Int.zpow_log_le_self (b := 2) (by norm_num) (lt_of_lt_of_le hpos h)
          simpa using this
        exact le_trans (zpow_le_zpow_right₀ (by norm_num) hlb.le) h1
      calc Float64.nearest a ≤ 2 ^ (max (Int.log 2 a) (-1022) + 1) :=
            Float64.nearest_le_zpow a h0
        _ ≤ 2 ^ (max (Int.log 2 b) (-1022)) := zpow_le_zpow_right₀ (by norm_num) (by omega)
        _ ≤ Float64.nearest b := Float64.zpow_le_nearest b hb

theorem Float64.fin_lt_fin (a b : ℚ) : (Float64.fin a < Float64.fin b) ↔ a < b := by
  show Float64.lt (Float64.fin a) (Float64.fin b) = true ↔ a < b
  simp [Float64.lt]

theorem Float64.fin_le_fin (a b : ℚ) : (Float64.fin a ≤ Float64.fin b) ↔ a ≤ b := by
  show Float64.le (Float64.fin a) (Float64.fin b) = true ↔ a ≤ b
  simp [Float64.le]

theorem Float64.lt_irrefl (x : Float64) : ¬ x < x := by
  show ¬ Float64.lt x x = true
  cases x <;> simp [Float64.lt]

theorem Float64.nearestSigned_mono (p q : ℚ) (h : p ≤ q) :
    Float64.nearestSigned p ≤ Float64.nearestSigned q := by
  unfold Float64.nearestSigned
  by_cases hp : p < 0
  · by_cases hq : q < 0
    · rw [if_pos hp, if_pos hq]
      exact neg_le_neg (Float64.nearest_mono (-q) (-p) (by linarith) (by linarith))
    · rw [if_pos hp, if_neg hq]
      have h₁ := Float64.nearest_nonneg (-p)
      have h₂ := Float64.nearest_nonneg q
      linarith
  · have hq : ¬ q < 0 := by
      intro hq; exact hp (lt_of_le_of_lt h hq)
    rw [if_neg hp, if_neg hq]
    exact Float64.nearest_mono p q (not_lt.mp hp) h

theorem Float64.nearest_le_of_lt (a : ℚ) (k : ℤ) (hk : -1022 ≤ k) (h0 : 0 ≤ a)
    (h : a < 2 ^ (k + 1)) : Float64.nearest a ≤ 2 ^ (k + 1) := by
  rcases eq_or_lt_of_le h0 with hz | hpos
  · rw [← hz, Float64.nearest_zero]; positivity
  · have hlog : Int.log 2 a < k + 1 := by
      have := (Int.lt_zpow_iff_log_lt (b := 2) (by norm_num) hpos (x := k + 1)).mp
        (by simpa using h)
      exact this
    have hE : max (Int.log 2 a) (-1022) ≤ k := max_le (by omega) hk
    exact le_trans (Float64.nearest_le_zpow a h0)
      (zpow_le_zpow_right₀ (by norm_num) (by omega))

theorem Float64.roundNonneg_of_lt (a : ℚ) (k : ℤ) (hk : -1022 ≤ k) (hk' : k ≤ 1022)
    (h0 : 0 ≤ a) (h : a < 2 ^ (k + 1)) :
    Float64.roundNonneg a = Float64.fin (Float64.nearest a) := by
  have hb := Float64.nearest_le_of_lt a k hk h0 h
  have : ¬ (2 : ℚ) ^ (1024 : ℤ) ≤ Float64.nearest a := by
    intro hc
    have h₁ : (2 : ℚ) ^ (k + 1) ≤ 2 ^ (1023 : ℤ) :=
      zpow_le_zpow_right₀ (by norm_num) (by omega)
    have h₂ : (2 : ℚ) ^ (1023 : ℤ) < 2 ^ (1024 : ℤ) :=
      zpow_lt_zpow_right₀ (by norm_num) (by norm_num)
    linarith
  simp [Float64.roundNonneg, this]

theorem Float64.round_of_abs_lt (q : ℚ) (k : ℤ) (hk : -1022 ≤ k) (hk' : k ≤ 1022)
    (h : |q| < 2 ^ (k + 1)) :
    Float64.round q = Float64.fin (Float64.nearestSigned q) ∧
      |Float64.nearestSigned q| ≤ 2 ^ (k + 1) := by
  unfold Float64.round Float64.nearestSigned
  by_cases hq : q < 0
  · have h0 : 0 ≤ -q := by linarith
    have hlt : -q < 2 ^ (k + 1) := by rwa [abs_of_neg hq] at h
    rw [if_pos hq, if_pos hq, Float64.roundNonneg_of_lt (-q) k hk hk' h0 hlt]
    refine ⟨rfl, ?_⟩
    rw [abs_neg, abs_of_nonneg (Float64.nearest_nonneg _)]
    exact Float64.nearest_le_of_lt (-q) k hk h0 hlt
  · have h0 : 0 ≤ q := not_lt.mp hq
    have hlt : q < 2 ^ (k + 1) := by rwa [abs_of_nonneg h0] at h
    rw [if_neg hq, if_neg hq, Float64.roundNonneg_of_lt q k hk hk' h0 hlt]
    refine ⟨rfl, ?_⟩
    rw [abs_of_nonneg (Float64.nearest_nonneg _)]
    exact Float64.nearest_le_of_lt q k hk h0 hlt

theorem timeToSecondsWithNanoPrecision_eq (t : Time) :
    timeToSecondsWithNanoPrecision t =
      Float64.fin (Float64.nearestSigned (Float64.nearestSigned t.nanos / 1000000000)) := by
  have hn : |(t.nanos : ℚ)| < 2 ^ ((63 : ℤ) + 1) := by
    have h₁ : (-9223372036854775808 : ℚ) ≤ (t.nanos : ℚ) := by exact_mod_cast t.inRange.1
    have h₂ : (t.nanos : ℚ) ≤ 9223372036854775807 := by exact_mod_cast t.inRange.2
    rw [abs_lt]
    constructor <;> norm_num <;> linarith
  obtain ⟨e₁, b₁⟩ := Float64.round_of_abs_lt (t.nanos : ℚ) 63 (by norm_num) (by norm_num) hn
  have hv : |Float64.nearestSigned (t.nanos : ℚ) / 1000000000| < 2 ^ ((63 : ℤ) + 1) := by
    rw [abs_div]
    have : |(1000000000 : ℚ)| = 1000000000 := abs_of_pos (by norm_num)
    rw [this]
    have hpos : (0 : ℚ) < 2 ^ ((63 : ℤ) + 1) := by positivity
    calc |Float64.nearestSigned (t.nanos : ℚ)| / 1000000000
        ≤ 2 ^ ((63 : ℤ) + 1) / 1000000000 := div_le_div_of_nonneg_right b₁ (by norm_num)
      _ < 2 ^ ((63 : ℤ) + 1) := by
          rw [div_lt_iff₀ (by norm_num)]
          linarith
  obtain ⟨e₂, -⟩ := Float64.round_of_abs_lt _ 63 (by norm_num) (by norm_num) hv
  show Float64.div (Float64.ofInt t.nanos) NanoSecondPrecision = _
  unfold Float64.ofInt NanoSecondPrecision
  rw [e₁]
  simp only [Float64.div]
  rw [if_neg (by norm_num), e₂]

theorem NowToSecondsWithNanoPrecision_eq (clock : Time) :
    NowToSecondsWithNanoPrecision clock =
      Float64.fin (Float64.nearestSigned (Float64.nearestSigned clock.nanos / 1000000000)) :=
  timeToSecondsWithNanoPrecision_eq clock

theorem NowToSecondsWithNanoPrecision_finite (clock : Time) :
    ∃ q, NowToSecondsWithNanoPrecision clock = Float64.fin q :=
  ⟨_, NowToSecondsWithNanoPrecision_eq clock⟩

theorem NowToSecondsWithNanoPrecision_mono (clock₁ clock₂ : Time) (h : clock₁ ≤ clock₂) :
    NowToSecondsWithNanoPrecision clock₁ ≤ NowToSecondsWithNanoPrecision clock₂ ∧
    ¬ NowToSecondsWithNanoPrecision clock₂ < NowToSecondsWithNanoPrecision clock₁ := by
  rw [NowToSecondsWithNanoPrecision_eq, NowToSecondsWithNanoPrecision_eq,
    Float64.fin_le_fin, Float64.fin_lt_fin]
  have hc : (clock₁.nanos : ℚ) ≤ (clock₂.nanos : ℚ) := by exact_mod_cast h
  have h₁ := Float64.nearestSigned_mono _ _ hc
  have h₂ := Float64.nearestSigned_mono _ _
    (div_le_div_of_nonneg_right h₁ (by norm_num : (0 : ℚ) ≤ 1000000000))
  exact ⟨h₂, not_lt.mpr h₂⟩

theorem NowToSecondsWithNanoPrecision_epoch :
    NowToSecondsWithNanoPrecision Time.epoch = Float64.fin 0 := by
  rw [NowToSecondsWithNanoPrecision_eq]
  simp [Time.epoch, Float64.nearestSigned, Float64.nearest_zero]

theorem NowToSecondsWithNanoPrecision_pos (clock : Time) (h : 0 < clock.nanos) :
    ∃ q, NowToSecondsWithNanoPrecision clock = Float64.fin q ∧ 0 < q := by
  refine ⟨_, NowToSecondsWithNanoPrecision_eq clock, ?_⟩
  have hc : (1 : ℚ) ≤ (clock.nanos : ℚ) := by exact_mod_cast h
  have hsmall : (2 : ℚ) ^ (-1022 : ℤ) ≤ 1 := zpow_le_one_of_nonpos₀ (by norm_num) (by norm_num)
  have h₁ : (1 : ℚ) ≤ Float64.nearestSigned (clock.nanos : ℚ) := by
    unfold Float64.nearestSigned
    rw [if_neg (by linarith)]
    have hlog : 0 ≤ Int.log 2 (clock.nanos : ℚ) := by
      rw [Int.log_of_one_le_right 2 hc]
      exact Int.natCast_nonneg _
    calc (1 : ℚ) = 2 ^ (0 : ℤ) := by norm_num
      _ ≤ 2 ^ (max (Int.log 2 (clock.nanos : ℚ)) (-1022)) :=
          zpow_le_zpow_right₀ (by norm_num) (le_trans hlog (le_max_left _ _))
      _ ≤ Float64.nearest (clock.nanos : ℚ) :=
          Float64.zpow_le_nearest _ (le_trans hsmall hc)
  have h₂ : (2 : ℚ) ^ (-1022 : ℤ) ≤ Float64.nearestSigned (clock.nanos : ℚ) / 1000000000 := by
    have hs : (2 : ℚ) ^ (-1022 : ℤ) ≤ 1 / 1000000000 := by
      rw [show (-1022 : ℤ) = -30 + -992 by norm_num, zpow_add₀ (by norm_num : (2 : ℚ) ≠ 0)]
      have hA : (2 : ℚ) ^ (-30 : ℤ) ≤ 1 / 1000000000 := by norm_num
      have hB : (2 : ℚ) ^ (-992 : ℤ) ≤ 1 := zpow_le_one_of_nonpos₀ (by norm_num) (by norm_num)
      have hA0 : (0 : ℚ) ≤ 2 ^ (-30 : ℤ) := by positivity
      calc (2 : ℚ) ^ (-30 : ℤ) * 2 ^ (-992 : ℤ) ≤ 2 ^ (-30 : ℤ) * 1 :=
            mul_le_mul_of_nonneg_left hB hA0
        _ ≤ 1 / 1000000000 := by rw [mul_one]; exact hA
    exact le_trans hs (div_le_div_of_nonneg_right h₁ (by norm_num))
  have hpos : (0 : ℚ) < Float64.nearestSigned (clock.nanos : ℚ) / 1000000000 :=
    lt_of_lt_of_le (by positivity) h₂
  generalize Float64.nearestSigned (clock.nanos : ℚ) / 1000000000 = w at h₂ hpos
  have hw : Float64.nearestSigned w = Float64.nearest w := by
    unfold Float64.nearestSigned
    rw [if_neg (not_lt.mpr hpos.le)]
  rw [hw]
  exact lt_of_lt_of_le (by positivity) (Float64.zpow_le_nearest _ h₂)

/-! ## Rounding at a present-day clock reading -/

theorem roundHalfEven_of_lt_half (N : ℕ) (x : ℚ) (h₁ : (N : ℚ) ≤ x) (h₂ : x < N + 1 / 2) :
    roundHalfEven x = N := by
  have h0 : (0 : ℚ) ≤ x := le_trans (Nat.cast_nonneg N) h₁
  have hf : ⌊x⌋₊ = N := (Nat.floor_eq_iff h0).mpr ⟨h₁, by linarith⟩
  unfold roundHalfEven
  simp only []
  rw [hf, if_pos (by linarith)]

theorem roundHalfEven_of_gt_half (N : ℕ) (x : ℚ) (h₁ : (N : ℚ) + 1 / 2 < x) (h₂ : x < N + 1) :
    roundHalfEven x = N + 1 := by
  have h0 : (0 : ℚ) ≤ x := by linarith [(Nat.cast_nonneg N : (0 : ℚ) ≤ N)]
  have hf : ⌊x⌋₊ = N := (Nat.floor_eq_iff h0).mpr ⟨by linarith, h₂⟩
  unfold roundHalfEven
  simp only []
  rw [hf, if_neg (by linarith), if_pos (by linarith)]

theorem Float64.nearest_of_binade (a : ℚ) (E : ℕ) (h₁ : (2 : ℚ) ^ E ≤ a) (h₂ : a < 2 ^ (E + 1)) :
    Float64.nearest a =
      (roundHalfEven (a / 2 ^ ((E : ℤ) - 52)) : ℚ) * 2 ^ ((E : ℤ) - 52) := by
  have hpos : 0 < a := lt_of_lt_of_le (by positivity) h₁
  have hlog : Int.log 2 a = E := by
    apply le_antisymm
    · have : Int.log 2 a < (E : ℤ) + 1 :=
        (Int.lt_zpow_iff_log_lt (by norm_num) hpos).mp (by exact_mod_cast h₂)
      omega
    · exact (Int.zpow_le_iff_le_log (by norm_num) hpos).mp (by exact_mod_cast h₁)
  unfold Float64.nearest
  simp only []
  rw [hlog, max_eq_left (by omega)]

/-- The conversion rounds: a reading 100 ns before 1257894000 s is converted to
1257894000 s itself. -/
theorem timeToSecondsWithNanoPrecision_rounds :
    timeToSecondsWithNanoPrecision ⟨1257893999999999900, by decide⟩
      = Float64.fin 1257894000 := by
  have h₁ : Float64.nearest 1257893999999999900 = 1257894000000000000 := by
    rw [Float64.nearest_of_binade _ 60 (by norm_num) (by norm_num),
      roundHalfEven_of_gt_half 4913648437499999 _ (by norm_num) (by norm_num)]
    norm_num
  have h₂ : Float64.nearest 1257894000 = 1257894000 := by
    rw [Float64.nearest_of_binade _ 30 (by norm_num) (by norm_num),
      roundHalfEven_of_lt_half 5275989835776000 _ (by norm_num) (by norm_num)]
    norm_num
  rw [timeToSecondsWithNanoPrecision_eq]
  simp only [Float64.nearestSigned]
  norm_num [h₁, h₂]

/-- Addition rounds: at 1257894000 s a delay of one nanosecond is absorbed. -/
theorem Float64.add_absorbs :
    Float64.fin 1257894000 + Float64.fin (1 / 1000000000) = Float64.fin 1257894000 := by
  have h : Float64.nearest (1257894000 + 1 / 1000000000) = 1257894000 := by
    rw [Float64.nearest_of_binade _ 30 (by norm_num) (by norm_num),
      roundHalfEven_of_lt_half 5275989835776000 _ (by norm_num) (by norm_num)]
    norm_num
  show Float64.round (1257894000 + 1 / 1000000000) = _
  have hb : ¬ (2 : ℚ) ^ (1024 : ℤ) ≤ 1257894000 := by
    have : (1257894000 : ℚ) < 2 ^ (1024 : ℤ) := by
      calc (1257894000 : ℚ) < 2 ^ (31 : ℤ) := by norm_num
        _ ≤ 2 ^ (1024 : ℤ) := zpow_le_zpow_right₀ (by norm_num) (by norm_num)
    exact not_le.mpr this
  unfold Float64.round Float64.roundNonneg
  rw [if_neg (by norm_num), h, if_neg hb]

theorem timeToSecondsWithNanoPrecision_exact :
    timeToSecondsWithNanoPrecision ⟨1257894000000000000, by decide⟩
      = Float64.fin 1257894000 := by
  have h₁ : Float64.nearest 1257894000000000000 = 1257894000000000000 := by
    rw [Float64.nearest_of_binade _ 60 (by norm_num) (by norm_num),
      roundHalfEven_of_lt_half 4913648437500000 _ (by norm_num) (by norm_num)]
    norm_num
  have h₂ : Float64.nearest 1257894000 = 1257894000 := by
    rw [Float64.nearest_of_binade _ 30 (by norm_num) (by norm_num),
      roundHalfEven_of_lt_half 5275989835776000 _ (by norm_num) (by norm_num)]
    norm_num
  rw [timeToSecondsWithNanoPrecision_eq]
  simp only [Float64.nearestSigned]
  norm_num [h₁, h₂]

/-! ## Basic facts about the collaborators -/

theorem lookupField_setField (key key' : String) (v : Json) (kvs : List (String × Json)) :
    lookupField key' (setField key v kvs) =
      if key' = key then some v else lookupField key' kvs := by
  induction kvs with
  | nil =>
    by_cases h : key' = key
    · simp [setField, lookupField, h]
    · have h' : ¬ key = key' := fun e => h e.symm
      simp [setField, lookupField, h, h']
  | cons p rest ih =>
    obtain ⟨k, x⟩ := p
    by_cases hk : k = key
    · by_cases h : key' = key
      · simp [setField, lookupField, hk, h]
      · have h' : ¬ key = key' := fun e => h e.symm
        simp [setField, lookupField, hk, h, h']
    · by_cases hk' : k = key'
      · have h : ¬ key' = key := fun e => hk (hk'.trans e)
        simp [setField, lookupField, hk, hk', h]
      · simp [setField, lookupField, hk, hk', ih]

theorem Conn.Do_of_accepts (c : Conn) (cmd : Command) (h : c.failing cmd = false) :
    c.Do cmd = ({ c with store := c.store.apply cmd, issued := c.issued ++ [cmd] }, none) := by
  simp [Conn.Do, h]

theorem Conn.Do_of_fails (c : Conn) (cmd : Command) (h : c.failing cmd = true) :
    c.Do cmd = ({ c with issued := c.issued ++ [cmd] }, some "store error") := by
  simp [Conn.Do, h]

theorem Conn.Do_issued (c : Conn) (cmd : Command) :
    (c.Do cmd).1.issued = c.issued ++ [cmd] := by
  unfold Conn.Do; split <;> rfl

theorem Conn.Do_failing (c : Conn) (cmd : Command) :
    (c.Do cmd).1.failing = c.failing := by
  unfold Conn.Do; split <;> rfl

theorem Float64.isFinite_iff (x : Float64) : x.isFinite = true ↔ ∃ q, x = Float64.fin q := by
  cases x <;> simp [Float64.isFinite]

theorem json.Marshal_ok (d : EnqueueData) (a : Json) (e t : ℚ) (h : d.Args = some a)
    (he : d.EnqueuedAt = Float64.fin e) (ht : d.At = Float64.fin t) :
    (json.Marshal d).2 = none ∧ ∃ kvs, (json.Marshal d).1 = Bytes.text (Json.obj kvs) := by
  simp [json.Marshal, h, he, ht]

theorem json.Marshal_fails (d : EnqueueData)
    (h : d.Args = none ∨ d.At.isFinite = false ∨ d.EnqueuedAt.isFinite = false) :
    ∃ e, json.Marshal d = (Bytes.empty, some e) := by
  unfold json.Marshal
  cases hA : d.Args with
  | none => exact ⟨_, rfl⟩
  | some a =>
    rcases h with h | h | h
    · rw [hA] at h; exact absurd h (by simp)
    · cases hE : d.EnqueuedAt <;> cases hT : d.At <;>
        simp_all [Float64.isFinite]
    · cases hE : d.EnqueuedAt <;> cases hT : d.At <;>
        simp_all [Float64.isFinite]

theorem EnqueueWithOptions.data_ok (clock : Time) (rand : List Byte) (queue class_ : String)
    (a : Json) (opts : EnqueueOptions) (hfin : opts.At.isFinite = true) :
    (json.Marshal (EnqueueWithOptions.data clock rand queue class_ (some a) opts)).2 = none ∧
    ∃ kvs, (json.Marshal (EnqueueWithOptions.data clock rand queue class_ (some a) opts)).1 =
      Bytes.text (Json.obj kvs) := by
  obtain ⟨e, he⟩ := NowToSecondsWithNanoPrecision_finite clock
  obtain ⟨t, ht⟩ := (Float64.isFinite_iff _).mp hfin
  exact json.Marshal_ok _ a e t rfl he ht

/-! ## The outcomes of `EnqueueWithOptions` -/

theorem EnqueueWithOptions_eq (cfg : Config) (clock : Time) (rand : List Byte)
    (conn : Conn) (queue class_ : String) (args : Option Json) (opts : EnqueueOptions) :
    EnqueueWithOptions cfg clock rand conn queue class_ args opts =
      let m := json.Marshal (EnqueueWithOptions.data clock rand queue class_ args opts)
      if m.2.isSome then (conn, "", m.2)
      else if NowToSecondsWithNanoPrecision clock < opts.At then
        let r := enqueueAt cfg conn opts.At m.1
        (r.1, generateJid rand, r.2)
      else
        let r₁ := conn.Do (Command.sadd (cfg.Namespace ++ "queues") queue)
        if r₁.2.isSome then (r₁.1, "", r₁.2)
        else
          let r₂ := r₁.1.Do (Command.rpush (cfg.Namespace ++ "queue:" ++ queue) m.1)
          if r₂.2.isSome then (r₂.1, "", r₂.2) else (r₂.1, generateJid rand, none) :=
  rfl

theorem EnqueueWithOptions_rejected (cfg : Config) (clock : Time) (rand : List Byte)
    (conn : Conn) (queue class_ : String) (args : Option Json) (opts : EnqueueOptions)
    (h : args = none ∨ opts.At.isFinite = false) :
    ∃ e, EnqueueWithOptions cfg clock rand conn queue class_ args opts = (conn, "", some e) := by
  obtain ⟨e, he⟩ := json.Marshal_fails
    (EnqueueWithOptions.data clock rand queue class_ args opts)
    (h.elim Or.inl (fun h' => Or.inr (Or.inl h')))
  refine ⟨e, ?_⟩
  rw [EnqueueWithOptions_eq]
  simp [he]

theorem EnqueueWithOptions_scheduled (cfg : Config) (clock : Time) (rand : List Byte)
    (conn : Conn) (queue class_ : String) (a : Json) (opts : EnqueueOptions)
    (hfin : opts.At.isFinite = true)
    (h : NowToSecondsWithNanoPrecision clock < opts.At) :
    EnqueueWithOptions cfg clock rand conn queue class_ (some a) opts =
      let bytes := (json.Marshal (EnqueueWithOptions.data clock rand queue class_ (some a) opts)).1
      let r := conn.Do (Command.zadd (cfg.Namespace ++ SCHEDULED_JOBS_KEY) opts.At bytes)
      (r.1, generateJid rand, r.2) := by
  have hm := (EnqueueWithOptions.data_ok clock rand queue class_ a opts hfin).1
  rw [EnqueueWithOptions_eq]
  simp only [hm, h, enqueueAt]
  simp
  split <;> simp_all

theorem EnqueueWithOptions_immediate (cfg : Config) (clock : Time) (rand : List Byte)
    (conn : Conn) (queue class_ : String) (a : Json) (opts : EnqueueOptions)
    (hfin : opts.At.isFinite = true)
    (h : ¬ NowToSecondsWithNanoPrecision clock < opts.At) :
    EnqueueWithOptions cfg clock rand conn queue class_ (some a) opts =
      let bytes := (json.Marshal (EnqueueWithOptions.data clock rand queue class_ (some a) opts)).1
      let r₁ := conn.Do (Command.sadd (cfg.Namespace ++ "queues") queue)
      if r₁.2.isSome then (r₁.1, "", r₁.2)
      else
        let r₂ := r₁.1.Do (Command.rpush (cfg.Namespace ++ "queue:" ++ queue) bytes)
        if r₂.2.isSome then (r₂.1, "", r₂.2) else (r₂.1, generateJid rand, none) := by
  have hm := (EnqueueWithOptions.data_ok clock rand queue class_ a opts hfin).1
  rw [EnqueueWithOptions_eq]
  simp only [hm, h]
  simp


/-! ## The outcomes of `EnqueueMsg` -/

theorem Msg.Get_Set (m : Msg) (key key' : String) (v : Json) :
    (m.Set key v).Get key' = if key' = key then some v else m.Get key' :=
  lookupField_setField key key' v m.fields

theorem EnqueueMsg.jidStep_of_string (rand : List Byte) (msg : Msg) (s : String)
    (h : msg.Get "jid" = some (Json.str s)) : EnqueueMsg.jidStep rand msg = Except.ok msg := by
  simp [EnqueueMsg.jidStep, h, Accessor.String]

theorem EnqueueMsg.jidStep_of_absent (rand : List Byte) (msg : Msg)
    (h : msg.Get "jid" = none) :
    EnqueueMsg.jidStep rand msg = Except.ok (msg.Set "jid" (Json.str (generateJid rand))) := by
  have h' : lookupField "jid" msg.fields = none := h
  simp [EnqueueMsg.jidStep, h, Accessor.String, Msg.CheckGet, h']

theorem EnqueueMsg.jidStep_of_malformed (rand : List Byte) (msg : Msg) (v : Json)
    (h : msg.Get "jid" = some v) (hv : ∀ s, v ≠ Json.str s) :
    ∃ e, EnqueueMsg.jidStep rand msg = Except.error e := by
  have h' : lookupField "jid" msg.fields = some v := h
  cases v with
  | str s => exact absurd rfl (hv s)
  | _ => simp [EnqueueMsg.jidStep, h, Accessor.String, Msg.CheckGet, h']

theorem EnqueueMsg.jidStep_validated (rand : List Byte) (msg : Msg)
    (hj : msg.Get "jid" = none ∨ ∃ s, msg.Get "jid" = some (Json.str s)) :
    EnqueueMsg.jidStep rand msg = Except.ok
      (if msg.Get "jid" = none then msg.Set "jid" (Json.str (generateJid rand)) else msg) := by
  rcases hj with h | ⟨s, h⟩
  · rw [EnqueueMsg.jidStep_of_absent rand msg h, if_pos h]
  · rw [EnqueueMsg.jidStep_of_string rand msg s h, if_neg (by simp [h])]

theorem EnqueueMsg.atStep_of_number (now : Float64) (msg : Msg) (n : ℚ)
    (h : msg.Get "at" = some (Json.num n)) : EnqueueMsg.atStep now msg = Except.ok msg := by
  simp [EnqueueMsg.atStep, h, Accessor.Float64]

theorem EnqueueMsg.atStep_of_absent (now : Float64) (msg : Msg) (h : msg.Get "at" = none) :
    EnqueueMsg.atStep now msg = Except.ok (msg.Set "at" now.toJson) := by
  have h' : lookupField "at" msg.fields = none := h
  simp [EnqueueMsg.atStep, h, Accessor.Float64, Msg.CheckGet, h']

theorem EnqueueMsg.atStep_of_malformed (now : Float64) (msg : Msg) (v : Json)
    (h : msg.Get "at" = some v) (hv : ∀ n, v ≠ Json.num n) :
    ∃ e, EnqueueMsg.atStep now msg = Except.error e := by
  have h' : lookupField "at" msg.fields = some v := h
  cases v with
  | num n => exact absurd rfl (hv n)
  | _ => simp [EnqueueMsg.atStep, h, Accessor.Float64, Msg.CheckGet, h']

theorem EnqueueMsg_bad_queue (cfg : Config) (clock : Time) (rand : List Byte) (conn : Conn)
    (msg : Msg) (hq : ∀ s, msg.Get "queue" ≠ some (Json.str s)) :
    ∃ e, EnqueueMsg cfg clock rand conn msg = (conn, msg, some e) := by
  unfold EnqueueMsg
  cases hg : msg.Get "queue" with
  | none => simp [Accessor.String]
  | some v =>
    cases v with
    | str s => exact absurd hg (hq s)
    | _ => simp [Accessor.String]

theorem EnqueueMsg_bad_jid (cfg : Config) (clock : Time) (rand : List Byte) (conn : Conn)
    (msg : Msg) (q : String) (hq : msg.Get "queue" = some (Json.str q)) (e : String)
    (hj : EnqueueMsg.jidStep rand msg = Except.error e) :
    EnqueueMsg cfg clock rand conn msg = (conn, msg, some e) := by
  simp [EnqueueMsg, hq, Accessor.String, hj]

theorem EnqueueMsg_bad_at (cfg : Config) (clock : Time) (rand : List Byte) (conn : Conn)
    (msg m₁ : Msg) (q : String) (hq : msg.Get "queue" = some (Json.str q))
    (hj : EnqueueMsg.jidStep rand msg = Except.ok m₁) (e : String)
    (ha : EnqueueMsg.atStep (NowToSecondsWithNanoPrecision clock) m₁ = Except.error e) :
    EnqueueMsg cfg clock rand conn msg = (conn, m₁, some e) := by
  simp [EnqueueMsg, hq, Accessor.String, hj, ha]

theorem EnqueueMsg_valid (cfg : Config) (clock : Time) (rand : List Byte) (conn : Conn)
    (msg m₁ m₂ : Msg) (q : String) (hq : msg.Get "queue" = some (Json.str q))
    (hj : EnqueueMsg.jidStep rand msg = Except.ok m₁)
    (ha : EnqueueMsg.atStep (NowToSecondsWithNanoPrecision clock) m₁ = Except.ok m₂)
    (hq₂ : m₂.Get "queue" = some (Json.str q)) :
    EnqueueMsg cfg clock rand conn msg =
      let now := NowToSecondsWithNanoPrecision clock
      let m₃ := m₂.Set "enqueued_at" now.toJson
      let bytes := Bytes.text (Json.obj m₃.fields)
      let at_ := ((m₃.Get "at").Float64).1
      if now < at_ then
        let r := conn.Do (Command.zadd (cfg.Namespace ++ SCHEDULED_JOBS_KEY) at_ bytes)
        (r.1, m₃, r.2)
      else
        let r₁ := conn.Do (Command.sadd (cfg.Namespace ++ "queues") q)
        if r₁.2.isSome then (r₁.1, m₃, r₁.2)
        else
          let r₂ := r₁.1.Do (Command.rpush (cfg.Namespace ++ "queue:" ++ q) bytes)
          if r₂.2.isSome then (r₂.1, m₃, r₂.2) else (r₂.1, m₃, none) := by
  have hq₃ : (m₂.Set "enqueued_at" (NowToSecondsWithNanoPrecision clock).toJson).Get "queue"
      = some (Json.str q) := by
    rw [Msg.Get_Set, if_neg (by decide), hq₂]
  simp only [EnqueueMsg, hq, Accessor.String, hj, ha, hq₃, Msg.Encode, enqueueAt]
  split
  · split <;> simp_all
  · rfl

theorem Conn.issuedSince_append (after before : Conn) (cmds : List Command)
    (h : after.issued = before.issued ++ cmds) : after.issuedSince before = cmds := by
  simp [Conn.issuedSince, h]

theorem EnqueueMsg.validated (now : Float64) (rand : List Byte) (msg : Msg)
    (hj : msg.Get "jid" = none ∨ ∃ s, msg.Get "jid" = some (Json.str s))
    (ha : msg.Get "at" = none ∨ ∃ n, msg.Get "at" = some (Json.num n)) :
    ∃ m₁ m₂, EnqueueMsg.jidStep rand msg = Except.ok m₁ ∧
      EnqueueMsg.atStep now m₁ = Except.ok m₂ ∧
      m₁ = (if msg.Get "jid" = none then msg.Set "jid" (Json.str (generateJid rand)) else msg) ∧
      m₂ = (if msg.Get "at" = none then m₁.Set "at" now.toJson else m₁) := by
  have hat : ∀ m₁ : Msg, m₁.Get "at" = msg.Get "at" →
      ∃ m₂, EnqueueMsg.atStep now m₁ = Except.ok m₂ ∧
        m₂ = (if msg.Get "at" = none then m₁.Set "at" now.toJson else m₁) := by
    intro m₁ hm
    rcases ha with h | ⟨n, h⟩
    · exact ⟨_, EnqueueMsg.atStep_of_absent now m₁ (hm.trans h), by simp [h]⟩
    · exact ⟨_, EnqueueMsg.atStep_of_number now m₁ n (hm.trans h), by simp [h]⟩
  rcases hj with h | ⟨s, h⟩
  · obtain ⟨m₂, h₂, e₂⟩ := hat (msg.Set "jid" (Json.str (generateJid rand)))
      (by rw [Msg.Get_Set, if_neg (by decide)])
    exact ⟨_, m₂, EnqueueMsg.jidStep_of_absent rand msg h, h₂, by simp [h], by simpa [h] using e₂⟩
  · obtain ⟨m₂, h₂, e₂⟩ := hat msg rfl
    exact ⟨_, m₂, EnqueueMsg.jidStep_of_string rand msg s h, h₂, by simp [h], by simpa [h] using e₂⟩

theorem EnqueueMsg_outcome (cfg : Config) (clock : Time) (rand : List Byte) (conn : Conn)
    (msg m₁ m₂ : Msg) (q : String) (hq : msg.Get "queue" = some (Json.str q))
    (hj : EnqueueMsg.jidStep rand msg = Except.ok m₁)
    (ha : EnqueueMsg.atStep (NowToSecondsWithNanoPrecision clock) m₁ = Except.ok m₂)
    (hq₂ : m₂.Get "queue" = some (Json.str q)) :
    let now := NowToSecondsWithNanoPrecision clock
    let m₃ := m₂.Set "enqueued_at" now.toJson
    let bytes := Bytes.text (Json.obj m₃.fields)
    let at_ := ((m₃.Get "at").Float64).1
    let zadd := Command.zadd (cfg.Namespace ++ SCHEDULED_JOBS_KEY) at_ bytes
    let sadd := Command.sadd (cfg.Namespace ++ "queues") q
    let rpush := Command.rpush (cfg.Namespace ++ "queue:" ++ q) bytes
    let r := EnqueueMsg cfg clock rand conn msg
    r.2.1 = m₃ ∧
    (now < at_ → r.1.issuedSince conn = [zadd] ∧
      ((∀ c, conn.failing c = false) → r.2.2 = none ∧ r.1.store = conn.store.apply zadd)) ∧
    (¬ now < at_ →
      (r.1.issuedSince conn = [sadd] ∨ r.1.issuedSince conn = [sadd, rpush]) ∧
      ((∀ c, conn.failing c = false) → r.1.issuedSince conn = [sadd, rpush] ∧ r.2.2 = none ∧
        r.1.store = (conn.store.apply sadd).apply rpush)) := by
  intro now m₃ bytes at_ zadd sadd rpush r
  have e : r = _ := EnqueueMsg_valid cfg clock rand conn msg m₁ m₂ q hq hj ha hq₂
  refine ⟨?_, fun h => ?_, fun h => ?_⟩
  · rw [e]
    simp only []
    split
    · rfl
    · split
      · rfl
      · split <;> rfl
  · have e' : r = ((conn.Do zadd).1, m₃, (conn.Do zadd).2) := by
      rw [e]; simp only []; rw [if_pos h]
    refine ⟨?_, fun hs => ?_⟩
    · rw [e']
      exact Conn.issuedSince_append _ _ _ (Conn.Do_issued conn zadd)
    · rw [e', Conn.Do_of_accepts conn zadd (hs zadd)]
      exact ⟨rfl, rfl⟩
  · have e' : r = (if (conn.Do sadd).2.isSome then ((conn.Do sadd).1, m₃, (conn.Do sadd).2)
        else if ((conn.Do sadd).1.Do rpush).2.isSome then
          (((conn.Do sadd).1.Do rpush).1, m₃, ((conn.Do sadd).1.Do rpush).2)
        else (((conn.Do sadd).1.Do rpush).1, m₃, none)) := by
      rw [e]; simp only []; rw [if_neg h]
    have i₁ : (conn.Do sadd).1.issuedSince conn = [sadd] :=
      Conn.issuedSince_append _ _ _ (Conn.Do_issued conn sadd)
    have i₂ : ((conn.Do sadd).1.Do rpush).1.issuedSince conn = [sadd, rpush] :=
      Conn.issuedSince_append _ _ _ (by rw [Conn.Do_issued, Conn.Do_issued]; simp)
    refine ⟨?_, fun hs => ?_⟩
    · rw [e']
      split
      · exact Or.inl i₁
      · split <;> exact Or.inr i₂
    · have h₂ : (conn.Do sadd).1.Do rpush = _ :=
        Conn.Do_of_accepts _ rpush (by rw [Conn.Do_failing]; exact hs rpush)
      have h₁ : conn.Do sadd = _ := Conn.Do_of_accepts conn sadd (hs sadd)
      rw [e', h₂, h₁]
      refine ⟨?_, rfl, rfl⟩
      exact Conn.issuedSince_append _ _ _ (by simp)

theorem EnqueueMsg.completed_Get (now : Float64) (rand : List Byte) (msg : Msg) (key : String) :
    (EnqueueMsg.completed now rand msg).Get key =
      if key = "enqueued_at" then some now.toJson
      else if key = "at" ∧ msg.Get "at" = none then some now.toJson
      else if key = "jid" ∧ msg.Get "jid" = none then some (Json.str (generateJid rand))
      else msg.Get key := by
  unfold EnqueueMsg.completed
  by_cases h₁ : key = "enqueued_at"
  · simp [Msg.Get_Set, h₁]
  · by_cases ha : msg.Get "at" = none <;> by_cases hj : msg.Get "jid" = none <;>
      by_cases h₂ : key = "at" <;> by_cases h₃ : key = "jid" <;>
      simp_all [Msg.Get_Set]

theorem EnqueueMsg_accepted (cfg : Config) (clock : Time) (rand : List Byte) (conn : Conn)
    (msg : Msg) (q : String) (hq : msg.Get "queue" = some (Json.str q))
    (hj : msg.Get "jid" = none ∨ ∃ s, msg.Get "jid" = some (Json.str s))
    (ha : msg.Get "at" = none ∨ ∃ n, msg.Get "at" = some (Json.num n)) :
    let now := NowToSecondsWithNanoPrecision clock
    let m₃ := EnqueueMsg.completed now rand msg
    let bytes := Bytes.text (Json.obj m₃.fields)
    let at_ := ((m₃.Get "at").Float64).1
    let zadd := Command.zadd (cfg.Namespace ++ SCHEDULED_JOBS_KEY) at_ bytes
    let sadd := Command.sadd (cfg.Namespace ++ "queues") q
    let rpush := Command.rpush (cfg.Namespace ++ "queue:" ++ q) bytes
    let r := EnqueueMsg cfg clock rand conn msg
    r.2.1 = m₃ ∧
    (now < at_ → r.1.issuedSince conn = [zadd] ∧
      ((∀ c, conn.failing c = false) → r.2.2 = none ∧ r.1.store = conn.store.apply zadd)) ∧
    (¬ now < at_ →
      (r.1.issuedSince conn = [sadd] ∨ r.1.issuedSince conn = [sadd, rpush]) ∧
      ((∀ c, conn.failing c = false) → r.1.issuedSince conn = [sadd, rpush] ∧ r.2.2 = none ∧
        r.1.store = (conn.store.apply sadd).apply rpush)) := by
  obtain ⟨m₁, m₂, h₁, h₂, e₁, e₂⟩ :=
    EnqueueMsg.validated (NowToSecondsWithNanoPrecision clock) rand msg hj ha
  have hm : EnqueueMsg.completed (NowToSecondsWithNanoPrecision clock) rand msg =
      m₂.Set "enqueued_at" (NowToSecondsWithNanoPrecision clock).toJson := by
    rw [e₂, e₁]; rfl
  have hq₂ : m₂.Get "queue" = some (Json.str q) := by
    rw [e₂, e₁]
    by_cases ha' : msg.Get "at" = none <;> by_cases hj' : msg.Get "jid" = none <;>
      simp [ha', hj', Msg.Get_Set, hq]
  have key := EnqueueMsg_outcome cfg clock rand conn msg m₁ m₂ q hq h₁ h₂ hq₂
  intro now m₃ bytes at_ zadd sadd rpush r
  simp only [m₃, bytes, at_, zadd, rpush, now, hm]
  exact key

theorem EnqueueMsg_payloads (cfg : Config) (clock : Time) (rand : List Byte) (conn : Conn)
    (msg : Msg) (q : String) (hq : msg.Get "queue" = some (Json.str q))
    (hj : msg.Get "jid" = none ∨ ∃ s, msg.Get "jid" = some (Json.str s))
    (ha : msg.Get "at" = none ∨ ∃ n, msg.Get "at" = some (Json.num n)) :
    let r := EnqueueMsg cfg clock rand conn msg
    let bytes := Bytes.text (Json.obj
      (EnqueueMsg.completed (NowToSecondsWithNanoPrecision clock) rand msg).fields)
    (∀ b ∈ r.1.payloadsSince conn, b = bytes) ∧
    ((∀ c, conn.failing c = false) → r.2.2 = none ∧ r.1.payloadsSince conn = [bytes]) := by
  intro r bytes
  obtain ⟨-, hs, hi⟩ := EnqueueMsg_accepted cfg clock rand conn msg q hq hj ha
  by_cases h : NowToSecondsWithNanoPrecision clock <
      (((EnqueueMsg.completed (NowToSecondsWithNanoPrecision clock) rand msg).Get "at").Float64).1
  · obtain ⟨i, hh⟩ := hs h
    refine ⟨fun b hb => ?_, fun hst => ⟨(hh hst).1, ?_⟩⟩
    · simp only [Conn.payloadsSince, r, i] at hb
      simpa [Command.payload, bytes] using hb
    · simp only [Conn.payloadsSince, r, i]
      simp [Command.payload, bytes]
  · obtain ⟨i, hh⟩ := hi h
    refine ⟨fun b hb => ?_, fun hst => ⟨(hh hst).2.1, ?_⟩⟩
    · rcases i with i | i
      · simp only [Conn.payloadsSince, r, i] at hb
        simp [Command.payload] at hb
      · simp only [Conn.payloadsSince, r, i] at hb
        simpa [Command.payload, bytes] using hb
    · simp only [Conn.payloadsSince, r, (hh hst).1]
      simp [Command.payload, bytes]

/-! ## The commands each path issues -/

theorem Conn.Do_isSome (c : Conn) (cmd : Command) : (c.Do cmd).2.isSome = c.failing cmd := by
  unfold Conn.Do; split <;> simp_all


theorem EnqueueWithOptions_issued (cfg : Config) (clock : Time) (rand : List Byte)
    (conn : Conn) (queue class_ : String) (a : Json) (opts : EnqueueOptions)
    (hfin : opts.At.isFinite = true) :
    let now := NowToSecondsWithNanoPrecision clock
    let bytes := (json.Marshal (EnqueueWithOptions.data clock rand queue class_ (some a) opts)).1
    let zadd := Command.zadd (cfg.Namespace ++ SCHEDULED_JOBS_KEY) opts.At bytes
    let sadd := Command.sadd (cfg.Namespace ++ "queues") queue
    let rpush := Command.rpush (cfg.Namespace ++ "queue:" ++ queue) bytes
    (EnqueueWithOptions cfg clock rand conn queue class_ (some a) opts).1.issuedSince conn =
      if now < opts.At then [zadd]
      else if conn.failing sadd then [sadd] else [sadd, rpush] := by
  intro now bytes zadd sadd rpush
  by_cases h : now < opts.At
  · rw [if_pos h, EnqueueWithOptions_scheduled cfg clock rand conn queue class_ a opts hfin h]
    exact Conn.issuedSince_append _ _ _ (Conn.Do_issued conn zadd)
  · rw [if_neg h, EnqueueWithOptions_immediate cfg clock rand conn queue class_ a opts hfin h]
    simp only [Conn.Do_isSome, Conn.Do_failing]
    have i₁ : (conn.Do sadd).1.issuedSince conn = [sadd] :=
      Conn.issuedSince_append _ _ _ (Conn.Do_issued conn sadd)
    have i₂ : ((conn.Do sadd).1.Do rpush).1.issuedSince conn = [sadd, rpush] :=
      Conn.issuedSince_append _ _ _ (by rw [Conn.Do_issued, Conn.Do_issued]; simp)
    by_cases hf : conn.failing sadd = true
    · rw [if_pos hf, if_pos hf]; exact i₁
    · rw [if_neg hf, if_neg hf]
      split <;> exact i₂

theorem EnqueueMsg_issued (cfg : Config) (clock : Time) (rand : List Byte) (conn : Conn)
    (msg : Msg) (q : String) (hq : msg.Get "queue" = some (Json.str q))
    (hj : msg.Get "jid" = none ∨ ∃ s, msg.Get "jid" = some (Json.str s))
    (ha : msg.Get "at" = none ∨ ∃ n, msg.Get "at" = some (Json.num n)) :
    let now := NowToSecondsWithNanoPrecision clock
    let m₃ := EnqueueMsg.completed now rand msg
    let bytes := Bytes.text (Json.obj m₃.fields)
    let at_ := ((m₃.Get "at").Float64).1
    let zadd := Command.zadd (cfg.Namespace ++ SCHEDULED_JOBS_KEY) at_ bytes
    let sadd := Command.sadd (cfg.Namespace ++ "queues") q
    let rpush := Command.rpush (cfg.Namespace ++ "queue:" ++ q) bytes
    (EnqueueMsg cfg clock rand conn msg).1.issuedSince conn =
      if now < at_ then [zadd]
      else if conn.failing sadd then [sadd] else [sadd, rpush] := by
  intro now m₃ bytes at_ zadd sadd rpush
  obtain ⟨m₁, m₂, h₁, h₂, e₁, e₂⟩ := EnqueueMsg.validated now rand msg hj ha
  have hm : m₃ = m₂.Set "enqueued_at" now.toJson := by
    rw [e₂, e₁]; rfl
  have hq₂ : m₂.Get "queue" = some (Json.str q) := by
    rw [e₂, e₁]
    by_cases ha' : msg.Get "at" = none <;> by_cases hj' : msg.Get "jid" = none <;>
      simp [ha', hj', Msg.Get_Set, hq]
  have e := EnqueueMsg_valid cfg clock rand conn msg m₁ m₂ q hq h₁ h₂ hq₂
  rw [e]
  simp only [← hm]
  by_cases h : now < at_
  · have h' : NowToSecondsWithNanoPrecision clock < ((m₃.Get "at").Float64).1 := h
    rw [if_pos h, if_pos h']
    exact Conn.issuedSince_append _ _ _ (Conn.Do_issued conn zadd)
  · have h' : ¬ NowToSecondsWithNanoPrecision clock < ((m₃.Get "at").Float64).1 := h
    rw [if_neg h, if_neg h']
    simp only [Conn.Do_isSome, Conn.Do_failing]
    have i₁ : (conn.Do sadd).1.issuedSince conn = [sadd] :=
      Conn.issuedSince_append _ _ _ (Conn.Do_issued conn sadd)
    have i₂ : ((conn.Do sadd).1.Do rpush).1.issuedSince conn = [sadd, rpush] :=
      Conn.issuedSince_append _ _ _ (by rw [Conn.Do_issued, Conn.Do_issued]; simp)
    by_cases hf : conn.failing sadd = true
    · rw [if_pos hf, if_pos hf]; exact i₁
    · rw [if_neg hf, if_neg hf]
      split <;> exact i₂

theorem EnqueueWithOptions_scheduled_accepted (cfg : Config) (clock : Time)
    (rand : List Byte) (conn : Conn) (queue class_ : String) (a : Json) (opts : EnqueueOptions)
    (hfin : opts.At.isFinite = true)
    (h : NowToSecondsWithNanoPrecision clock < opts.At) (hstore : ∀ c, conn.failing c = false) :
    let bytes := (json.Marshal (EnqueueWithOptions.data clock rand queue class_ (some a) opts)).1
    let zadd := Command.zadd (cfg.Namespace ++ SCHEDULED_JOBS_KEY) opts.At bytes
    EnqueueWithOptions cfg clock rand conn queue class_ (some a) opts =
      ({ conn with store := conn.store.apply zadd, issued := conn.issued ++ [zadd] },
        generateJid rand, none) := by
  intro bytes zadd
  rw [EnqueueWithOptions_scheduled cfg clock rand conn queue class_ a opts hfin h]
  simp only []
  rw [Conn.Do_of_accepts conn _ (hstore _)]

theorem EnqueueWithOptions_immediate_accepted (cfg : Config) (clock : Time)
    (rand : List Byte) (conn : Conn) (queue class_ : String) (a : Json) (opts : EnqueueOptions)
    (hfin : opts.At.isFinite = true)
    (h : ¬ NowToSecondsWithNanoPrecision clock < opts.At)
    (hstore : ∀ c, conn.failing c = false) :
    let bytes := (json.Marshal (EnqueueWithOptions.data clock rand queue class_ (some a) opts)).1
    let sadd := Command.sadd (cfg.Namespace ++ "queues") queue
    let rpush := Command.rpush (cfg.Namespace ++ "queue:" ++ queue) bytes
    EnqueueWithOptions cfg clock rand conn queue class_ (some a) opts =
      ({ conn with store := (conn.store.apply sadd).apply rpush,
                   issued := conn.issued ++ [sadd, rpush] },
        generateJid rand, none) := by
  intro bytes sadd rpush
  rw [EnqueueWithOptions_immediate cfg clock rand conn queue class_ a opts hfin h]
  have h₁ : conn.Do sadd = _ := Conn.Do_of_accepts conn sadd (hstore sadd)
  have h₂ : (conn.Do sadd).1.Do rpush = _ :=
    Conn.Do_of_accepts _ rpush (by rw [Conn.Do_failing]; exact hstore rpush)
  simp only []
  rw [h₂, h₁]
  simp

theorem lookupField_append (key : String) (l₁ l₂ : List (String × Json)) :
    lookupField key (l₁ ++ l₂) =
      match lookupField key l₁ with
      | some v => some v
      | none => lookupField key l₂ := by
  induction l₁ with
  | nil => simp [lookupField]
  | cons p rest ih =>
    obtain ⟨k, x⟩ := p
    by_cases hk : k = key <;> simp [lookupField, hk, ih]

theorem lookupField_omitempty (key key' : String) (isZero : Bool) (v : Json) :
    lookupField key' (omitempty key isZero v) =
      if isZero = false ∧ key = key' then some v else none := by
  cases isZero <;> by_cases hk : key = key' <;> simp [omitempty, lookupField, hk]

theorem json.Marshal_field_queue (d : EnqueueData) (a : Json) (e t : ℚ) (h : d.Args = some a)
    (he : d.EnqueuedAt = Float64.fin e) (ht : d.At = Float64.fin t) :
    (json.Marshal d).1.field "queue" = if d.Queue = "" then none else some (Json.str d.Queue) := by
  by_cases hq : d.Queue = "" <;>
    simp [json.Marshal, h, he, ht, Bytes.field, lookupField_append, lookupField_omitempty,
      lookupField, hq]

theorem json.Marshal_field_at (d : EnqueueData) (a : Json) (e t : ℚ) (h : d.Args = some a)
    (he : d.EnqueuedAt = Float64.fin e) (ht : d.At = Float64.fin t) :
    (json.Marshal d).1.field "at" = if t = 0 then none else some (Json.num t) := by
  by_cases hq : t = 0 <;>
    simp [json.Marshal, h, he, ht, Bytes.field, lookupField_append, lookupField_omitempty,
      lookupField, hq]

theorem Float64.le_fin_or_isFinite (x : Float64) (q : ℚ) :
    (x ≤ Float64.fin q ∨ x.isFinite = true) ↔ x ≠ Float64.posInf ∧ x ≠ Float64.nan := by
  cases x <;> simp [Float64.isFinite, LE.le, Float64.le]

theorem PrepareEnqueuMsg.data_serialisable (clock : Time) (rand : List Byte) (queue class_ : String)
    (args : Option Json) (opts : EnqueueOptions)
    (hat : opts.At ≤ Float64.fin 0 ∨ opts.At.isFinite = true) :
    ∃ e t, (PrepareEnqueuMsg.data clock rand queue class_ args opts).EnqueuedAt = Float64.fin e ∧
      (PrepareEnqueuMsg.data clock rand queue class_ args opts).At = Float64.fin t ∧
      NowToSecondsWithNanoPrecision clock = Float64.fin e ∧
      (opts.At ≤ Float64.fin 0 → t = e) ∧ (¬ opts.At ≤ Float64.fin 0 → opts.At = Float64.fin t) := by
  obtain ⟨e, he⟩ := NowToSecondsWithNanoPrecision_finite clock
  by_cases h : opts.At ≤ Float64.fin 0
  · exact ⟨e, e, he, by simp [PrepareEnqueuMsg.data, h, he], he, fun _ => rfl,
      fun h' => absurd h h'⟩
  · obtain ⟨t, ht⟩ := (Float64.isFinite_iff _).mp (hat.resolve_left h)
    exact ⟨e, t, he, by simp only [PrepareEnqueuMsg.data, if_neg h]; exact ht, he,
      fun h' => absurd h' h, fun _ => ht⟩

theorem PrepareEnqueuMsg_eq (clock : Time) (rand : List Byte) (queue class_ : String)
    (args : Option Json) (opts : EnqueueOptions) :
    PrepareEnqueuMsg clock rand queue class_ args opts =
      (NewMsg (json.Marshal (PrepareEnqueuMsg.data clock rand queue class_ args opts)).1).1 := by
  unfold PrepareEnqueuMsg PrepareEnqueuMsg.data
  by_cases h : opts.At ≤ Float64.fin 0 <;> simp [h]

theorem PrepareEnqueuMsg_some (clock : Time) (rand : List Byte) (queue class_ : String)
    (a : Json) (opts : EnqueueOptions)
    (hat : opts.At ≤ Float64.fin 0 ∨ opts.At.isFinite = true) :
    ∃ m, PrepareEnqueuMsg clock rand queue class_ (some a) opts = some m ∧
      ∀ key, m.Get key =
        (json.Marshal (PrepareEnqueuMsg.data clock rand queue class_ (some a) opts)).1.field
          key := by
  obtain ⟨e, t, he, ht, -⟩ := PrepareEnqueuMsg.data_serialisable clock rand queue class_ (some a) opts hat
  obtain ⟨-, kvs, hk⟩ := json.Marshal_ok
    (PrepareEnqueuMsg.data clock rand queue class_ (some a) opts) a e t rfl he ht
  refine ⟨⟨kvs⟩, ?_, fun key => ?_⟩
  · rw [PrepareEnqueuMsg_eq, hk]; rfl
  · rw [hk]; rfl

theorem PrepareEnqueuMsg_none (clock : Time) (rand : List Byte) (queue class_ : String)
    (args : Option Json) (opts : EnqueueOptions)
    (h : args = none ∨ opts.At = Float64.posInf ∨ opts.At = Float64.nan) :
    PrepareEnqueuMsg clock rand queue class_ args opts = none := by
  have hd : (PrepareEnqueuMsg.data clock rand queue class_ args opts).Args = none ∨
      (PrepareEnqueuMsg.data clock rand queue class_ args opts).At.isFinite = false ∨
      (PrepareEnqueuMsg.data clock rand queue class_ args opts).EnqueuedAt.isFinite = false := by
    rcases h with h | h | h
    · exact Or.inl h
    · exact Or.inr (Or.inl (by simp [PrepareEnqueuMsg.data, h, LE.le, Float64.le, Float64.isFinite]))
    · exact Or.inr (Or.inl (by simp [PrepareEnqueuMsg.data, h, LE.le, Float64.le, Float64.isFinite]))
  obtain ⟨e, he⟩ := json.Marshal_fails _ hd
  rw [PrepareEnqueuMsg_eq, he]; rfl

theorem Conn.Do_zadd_frame (c : Conn) (key : String) (score : Float64) (b : Bytes) :
    (c.Do (Command.zadd key score b)).1.store.sets = c.store.sets ∧
    (c.Do (Command.zadd key score b)).1.store.lists = c.store.lists ∧
    ∀ k, k ≠ key → (c.Do (Command.zadd key score b)).1.store.zsets k = c.store.zsets k := by
  unfold Conn.Do
  split
  · exact ⟨rfl, rfl, fun _ _ => rfl⟩
  · refine ⟨rfl, rfl, fun k hk => ?_⟩
    simp [Store.apply, hk]


/-! ## Dispatch at a present-day clock reading -/

/-- A job for 1257894000 s, enqueued 100 ns earlier, is already due: the clock sample rounds
to 1257894000 s, so `EnqueueWithOptions` issues no `zadd`. -/
theorem EnqueueWithOptions_rounded_sample_is_due (cfg : Config) (rand : List Byte)
    (conn : Conn) (queue class_ : String) (a : Json) :
    ∀ key score b, Command.zadd key score b ∉
      (EnqueueWithOptions cfg ⟨1257893999999999900, by decide⟩ rand conn queue class_ (some a)
        { At := Float64.fin 1257894000 }).1.issuedSince conn := by
  intro key score b hmem
  have hi := EnqueueWithOptions_issued cfg ⟨1257893999999999900, by decide⟩ rand conn queue
    class_ a { At := Float64.fin 1257894000 } rfl
  simp only [] at hi
  have hdue : ¬ NowToSecondsWithNanoPrecision ⟨1257893999999999900, by decide⟩ <
      Float64.fin 1257894000 := by
    have e : NowToSecondsWithNanoPrecision ⟨1257893999999999900, by decide⟩ =
        Float64.fin 1257894000 := timeToSecondsWithNanoPrecision_rounds
    rw [e]
    exact Float64.lt_irrefl _
  rw [if_neg hdue] at hi
  rw [hi] at hmem
  split at hmem <;> simp at hmem

/-- A delay of one nanosecond asked for at 1257894000 s is absorbed by the addition:
`EnqueueIn` issues no `zadd`. -/
theorem EnqueueIn_absorbed_delay_is_due (cfg : Config) (rand : List Byte)
    (conn : Conn) (queue class_ : String) (a : Json) :
    ∀ key score b, Command.zadd key score b ∉
      (EnqueueIn cfg ⟨1257894000000000000, by decide⟩ ⟨1257894000000000000, by decide⟩ rand
        conn queue class_ (Float64.fin (1 / 1000000000)) (some a)).1.issuedSince conn := by
  intro key score b hmem
  have e : NowToSecondsWithNanoPrecision ⟨1257894000000000000, by decide⟩ =
      Float64.fin 1257894000 := timeToSecondsWithNanoPrecision_exact
  have hat : NowToSecondsWithNanoPrecision ⟨1257894000000000000, by decide⟩ +
      Float64.fin (1 / 1000000000) = Float64.fin 1257894000 := by
    rw [e]; exact Float64.add_absorbs
  unfold EnqueueIn at hmem
  rw [hat] at hmem
  have hi := EnqueueWithOptions_issued cfg ⟨1257894000000000000, by decide⟩ rand conn queue
    class_ a { At := Float64.fin 1257894000 } rfl
  simp only [] at hi
  have hdue : ¬ NowToSecondsWithNanoPrecision ⟨1257894000000000000, by decide⟩ <
      Float64.fin 1257894000 := by
    rw [e]
    exact Float64.lt_irrefl _
  rw [if_neg hdue] at hi
  rw [hi] at hmem
  split at hmem <;> simp at hmem

/-! ## Immediate vs. scheduled partition -/

/-- C1, as the code has it: with a store that accepts every command and serialisable args.
For a finite `opts.At`, `EnqueueWithOptions` issues exactly one `zadd` of the serialised
record into the scheduled set with score `opts.At` when `now < opts.At` (registry and queue
lists untouched), and otherwise adds the queue name to the registry and appends the
serialised record at the tail of the queue list (scheduled set untouched); the record goes
to the scheduled set iff `now < opts.At`. For an `opts.At` that is infinite or not a number
the record cannot be serialised: an error is returned and no store command is issued. -/
theorem EnqueueWithOptions_partition (cfg : Config) (clock : Time) (rand : List Byte)
    (conn : Conn) (queue class_ : String) (a : Json) (opts : EnqueueOptions)
    (hstore : ∀ c, conn.failing c = false) :
    let now := NowToSecondsWithNanoPrecision clock
    let bytes := (json.Marshal (EnqueueWithOptions.data clock rand queue class_ (some a) opts)).1
    let zadd := Command.zadd (cfg.Namespace ++ SCHEDULED_JOBS_KEY) opts.At bytes
    let sadd := Command.sadd (cfg.Namespace ++ "queues") queue
    let rpush := Command.rpush (cfg.Namespace ++ "queue:" ++ queue) bytes
    let r := EnqueueWithOptions cfg clock rand conn queue class_ (some a) opts
    (opts.At.isFinite = true →
      (now < opts.At →
        r.1.issued = conn.issued ++ [zadd] ∧
        r.1.store = conn.store.apply zadd ∧
        (opts.At, bytes) ∈ r.1.store.zsets (cfg.Namespace ++ SCHEDULED_JOBS_KEY) ∧
        r.1.store.sets = conn.store.sets ∧
        r.1.store.lists = conn.store.lists ∧
        r.2.2 = none) ∧
      (¬ now < opts.At →
        r.1.issued = conn.issued ++ [sadd, rpush] ∧
        r.1.store = (conn.store.apply sadd).apply rpush ∧
        queue ∈ r.1.store.sets (cfg.Namespace ++ "queues") ∧
        r.1.store.lists (cfg.Namespace ++ "queue:" ++ queue) =
          conn.store.lists (cfg.Namespace ++ "queue:" ++ queue) ++ [bytes] ∧
        r.1.store.zsets = conn.store.zsets ∧
        r.2.2 = none) ∧
      ((∃ key score, Command.zadd key score bytes ∈ r.1.issuedSince conn) ↔
        now < opts.At)) ∧
    (opts.At.isFinite = false → r.1 = conn ∧ r.2.1 = "" ∧ r.2.2 ≠ none) := by
  intro now bytes zadd sadd rpush r
  refine ⟨fun hfin => ?_, fun hinf => ?_⟩
  · have hsched : now < opts.At →
        r = ((conn.Do zadd).1, generateJid rand, (conn.Do zadd).2) :=
      fun h => EnqueueWithOptions_scheduled cfg clock rand conn queue class_ a opts hfin h
    have himm : ¬ now < opts.At →
        r = (((conn.Do sadd).1.Do rpush).1, generateJid rand, none) := by
      intro h
      have e := EnqueueWithOptions_immediate cfg clock rand conn queue class_ a opts hfin h
      have h₁ : conn.Do sadd = _ := Conn.Do_of_accepts conn sadd (hstore sadd)
      have h₂ : (conn.Do sadd).1.Do rpush = _ :=
        Conn.Do_of_accepts _ rpush (by rw [Conn.Do_failing]; exact hstore rpush)
      simp only [r, e]
      rw [h₂, h₁]
      rfl
    have hz : conn.Do zadd = _ := Conn.Do_of_accepts conn zadd (hstore zadd)
    refine ⟨fun h => ?_, fun h => ?_, ⟨fun h => ?_, fun h => ?_⟩⟩
    · rw [hsched h, hz]
      refine ⟨rfl, rfl, ?_, rfl, rfl, rfl⟩
      simp [Store.apply, zadd]
    · rw [himm h, Conn.Do_of_accepts _ rpush (by rw [Conn.Do_failing]; exact hstore rpush),
        Conn.Do_of_accepts conn sadd (hstore sadd)]
      refine ⟨by simp, rfl, ?_, ?_, rfl, rfl⟩
      · simp only [Store.apply, sadd, rpush]
        by_cases hq : queue ∈ conn.store.sets (cfg.Namespace ++ "queues") <;> simp [hq]
      · simp [Store.apply, rpush]
    · by_contra hn
      obtain ⟨key, score, hmem⟩ := h
      rw [himm hn] at hmem
      simp [Conn.issuedSince, Conn.Do_issued, sadd, rpush] at hmem
    · refine ⟨cfg.Namespace ++ SCHEDULED_JOBS_KEY, opts.At, ?_⟩
      rw [hsched h]
      simp [Conn.issuedSince, Conn.Do_issued, zadd]
  · obtain ⟨e, he⟩ := EnqueueWithOptions_rejected cfg clock rand conn queue class_ (some a)
      opts (Or.inr hinf)
    simp [r, he]

/-- C1 (as the code has it) at a concrete input: a job for 30 s after the epoch, dispatched at the epoch on a
fresh store, gives a single `zadd`. -/
theorem EnqueueWithOptions_partition_witness :
    (∀ c, (Conn.healthy Store.empty).failing c = false) ∧
    (EnqueueWithOptions ⟨"prod:"⟩ Time.epoch [] (Conn.healthy Store.empty) "emails" "Send"
        (some Json.null) { At := Float64.fin 30 }).1.issued =
      (Conn.healthy Store.empty).issued ++
        [Command.zadd ("prod:" ++ SCHEDULED_JOBS_KEY) (Float64.fin 30)
          (json.Marshal (EnqueueWithOptions.data Time.epoch [] "emails" "Send" (some Json.null)
            { At := Float64.fin 30 })).1] :=
  ⟨fun _ => rfl,
   (((EnqueueWithOptions_partition ⟨"prod:"⟩ Time.epoch [] (Conn.healthy Store.empty) "emails"
      "Send" Json.null { At := Float64.fin 30 } (fun _ => rfl)).1 rfl).1
      (by rw [NowToSecondsWithNanoPrecision_epoch, Float64.fin_lt_fin]; norm_num)).1⟩

/-- C1 fails for an infinite `opts.At`: at the epoch `now < +Inf` holds and the store accepts
every command, yet `EnqueueWithOptions` issues no `zadd` (no command at all) and returns the
serialisation error with the empty identifier. -/
theorem EnqueueWithOptions_infinite_at_not_scheduled :
    NowToSecondsWithNanoPrecision Time.epoch < Float64.posInf ∧
    (∀ c, (Conn.healthy Store.empty).failing c = false) ∧
    EnqueueWithOptions ⟨"prod:"⟩ Time.epoch [] (Conn.healthy Store.empty) "emails" "Send"
        (some Json.null) { At := Float64.posInf } =
      (Conn.healthy Store.empty, "", some "json: unsupported value: +Inf") := by
  refine ⟨by rw [NowToSecondsWithNanoPrecision_epoch]; decide, fun _ => rfl, ?_⟩
  rw [EnqueueWithOptions_eq]
  simp [json.Marshal, EnqueueWithOptions.data, NowToSecondsWithNanoPrecision_epoch,
    json.UnsupportedValueError]

/-! ## Validation and completion on the raw path -/

/-- C2: a record whose `queue` is absent or not a string is rejected by `EnqueueMsg` with an
error; no store command is issued, the store is unchanged, and the caller's record is
unchanged, whatever its other fields are. -/
theorem EnqueueMsg_rejects_bad_queue (cfg : Config) (clock : Time) (rand : List Byte)
    (conn : Conn) (msg : Msg) (hq : ∀ s, msg.Get "queue" ≠ some (Json.str s)) :
    let r := EnqueueMsg cfg clock rand conn msg
    r.2.2 ≠ none ∧ r.1.issued = conn.issued ∧ r.1.store = conn.store ∧ r.1 = conn ∧
      r.2.1 = msg := by
  obtain ⟨e, he⟩ := EnqueueMsg_bad_queue cfg clock rand conn msg hq
  intro r
  simp [r, he]

/-- C2 at the record `{"jid":"7"}` of the test suite. -/
theorem EnqueueMsg_rejects_bad_queue_witness :
    (∀ s, (Msg.mk [("jid", Json.str "7")]).Get "queue" ≠ some (Json.str s)) ∧
    (EnqueueMsg ⟨"prod:"⟩ Time.epoch [] (Conn.healthy Store.empty) ⟨[("jid", Json.str "7")]⟩).2.2
      ≠ none :=
  ⟨fun _ h => by simp [Msg.Get, lookupField] at h,
   (EnqueueMsg_rejects_bad_queue ⟨"prod:"⟩ Time.epoch [] (Conn.healthy Store.empty)
      ⟨[("jid", Json.str "7")]⟩ (fun _ h => by simp [Msg.Get, lookupField] at h)).1⟩

/-- C3: for a record with a string `queue`: a `jid` that is present but not a string makes
`EnqueueMsg` return an error without issuing a store command (and without touching the
record); an absent `jid` (with `at` absent or numeric) is replaced by the generated
identifier in the caller's record, every payload sent to the store carries that identifier,
and with a store that accepts the commands the call returns no error and sends exactly one
payload; a `jid` that is a string is kept. -/
theorem EnqueueMsg_jid_default (cfg : Config) (clock : Time) (rand : List Byte)
    (conn : Conn) (msg : Msg) (q : String) (hq : msg.Get "queue" = some (Json.str q)) :
    let r := EnqueueMsg cfg clock rand conn msg
    let jid := generateJid rand
    (∀ v, msg.Get "jid" = some v → (∀ s, v ≠ Json.str s) →
      r.2.2 ≠ none ∧ r.1.issued = conn.issued ∧ r.1.store = conn.store ∧ r.2.1 = msg) ∧
    (msg.Get "jid" = none →
      (msg.Get "at" = none ∨ ∃ n, msg.Get "at" = some (Json.num n)) →
      r.2.1.Get "jid" = some (Json.str jid) ∧
      (∀ b ∈ r.1.payloadsSince conn, b.field "jid" = some (Json.str jid)) ∧
      ((∀ c, conn.failing c = false) →
        r.2.2 = none ∧ r.1.payloadsSince conn = [r.2.1.Encode.1])) ∧
    (∀ s, msg.Get "jid" = some (Json.str s) → r.2.1.Get "jid" = some (Json.str s)) := by
  intro r jid
  refine ⟨fun v hv hns => ?_, fun hj ha => ?_, fun s hs => ?_⟩
  · obtain ⟨e, he⟩ := EnqueueMsg.jidStep_of_malformed rand msg v hv hns
    have := EnqueueMsg_bad_jid cfg clock rand conn msg q hq e he
    simp [r, this]
  · obtain ⟨hm, -, -⟩ := EnqueueMsg_accepted cfg clock rand conn msg q hq (Or.inl hj) ha
    obtain ⟨hp, hh⟩ := EnqueueMsg_payloads cfg clock rand conn msg q hq (Or.inl hj) ha
    have hg : (EnqueueMsg.completed (NowToSecondsWithNanoPrecision clock) rand msg).Get "jid"
        = some (Json.str jid) := by
      rw [EnqueueMsg.completed_Get]; simp [hj, jid]
    refine ⟨by simp only [r, hm]; exact hg, fun b hb => ?_, fun hst => ?_⟩
    · rw [hp b hb]; exact hg
    · refine ⟨(hh hst).1, ?_⟩
      rw [(hh hst).2]
      simp only [r, hm, Msg.Encode]
  · rcases Classical.em (msg.Get "at" = none ∨ ∃ n, msg.Get "at" = some (Json.num n)) with ha | ha
    · obtain ⟨hm, -, -⟩ :=
        EnqueueMsg_accepted cfg clock rand conn msg q hq (Or.inr ⟨s, hs⟩) ha
      simp only [r, hm]
      rw [EnqueueMsg.completed_Get]; simp [hs]
    · cases hat : msg.Get "at" with
      | none => exact absurd (Or.inl hat) ha
      | some v =>
        have hv : ∀ n, v ≠ Json.num n := fun n hn => ha (Or.inr ⟨n, by rw [hat, hn]⟩)
        obtain ⟨e, he⟩ := EnqueueMsg.atStep_of_malformed
          (NowToSecondsWithNanoPrecision clock) msg v hat hv
        have := EnqueueMsg_bad_at cfg clock rand conn msg msg q hq
          (EnqueueMsg.jidStep_of_string rand msg s hs) e he
        simp only [r, this]
        exact hs

/-- C3 at a record without `jid`: the caller's record receives the generated one. -/
theorem EnqueueMsg_jid_default_witness :
    (Msg.mk [("queue", Json.str "enqueue5"), ("at", Json.num 1)]).Get "queue"
      = some (Json.str "enqueue5") ∧
    (EnqueueMsg ⟨"prod:"⟩ Time.epoch (List.replicate 12 171) (Conn.healthy Store.empty)
        ⟨[("queue", Json.str "enqueue5"), ("at", Json.num 1)]⟩).2.1.Get "jid"
      = some (Json.str (generateJid (List.replicate 12 171))) :=
  ⟨rfl,
   ((EnqueueMsg_jid_default ⟨"prod:"⟩ Time.epoch (List.replicate 12 171) (Conn.healthy Store.empty)
      ⟨[("queue", Json.str "enqueue5"), ("at", Json.num 1)]⟩ "enqueue5" rfl).2.1 rfl
      (Or.inr ⟨1, rfl⟩)).1⟩

/-- C4: for a record with a string `queue` and a string or absent `jid`: an `at` that is
present but not a number makes `EnqueueMsg` return an error without issuing a store
command; an absent `at` is set to the clock sample `now`, the value also written to
`enqueued_at`, and the record is dispatched immediately, never to the scheduled set: the
first command is the registry add, no `zadd` is issued, and with a store that accepts the
commands the registry add is followed by the append to the queue list, without error. The
clock sample is a finite number. -/
theorem EnqueueMsg_at_default (cfg : Config) (clock : Time) (rand : List Byte)
    (conn : Conn) (msg : Msg) (q : String) (hq : msg.Get "queue" = some (Json.str q))
    (hj : msg.Get "jid" = none ∨ ∃ s, msg.Get "jid" = some (Json.str s)) :
    let now := NowToSecondsWithNanoPrecision clock
    let r := EnqueueMsg cfg clock rand conn msg
    let sadd := Command.sadd (cfg.Namespace ++ "queues") q
    let rpush := Command.rpush (cfg.Namespace ++ "queue:" ++ q) r.2.1.Encode.1
    now.isFinite = true ∧
    (∀ v, msg.Get "at" = some v → (∀ n, v ≠ Json.num n) →
      r.2.2 ≠ none ∧ r.1.issued = conn.issued ∧ r.1.store = conn.store) ∧
    (msg.Get "at" = none →
      r.2.1.Get "at" = some now.toJson ∧
      r.2.1.Get "enqueued_at" = some now.toJson ∧
      (r.1.issuedSince conn = [sadd] ∨ r.1.issuedSince conn = [sadd, rpush]) ∧
      (∀ key score b, Command.zadd key score b ∉ r.1.issuedSince conn) ∧
      ((∀ c, conn.failing c = false) →
        r.1.issuedSince conn = [sadd, rpush] ∧ r.2.2 = none ∧
        r.1.store = (conn.store.apply sadd).apply rpush ∧
        r.1.store.zsets = conn.store.zsets)) := by
  intro now r sadd rpush
  refine ⟨(Float64.isFinite_iff _).mpr (NowToSecondsWithNanoPrecision_finite clock),
    fun v hv hnn => ?_, fun ha => ?_⟩
  · have h₁ := EnqueueMsg.jidStep_validated rand msg hj
    have hat : (if msg.Get "jid" = none then msg.Set "jid" (Json.str (generateJid rand))
        else msg).Get "at" = some v := by
      split
      · rw [Msg.Get_Set, if_neg (by decide), hv]
      · exact hv
    obtain ⟨e, he⟩ := EnqueueMsg.atStep_of_malformed now _ v hat hnn
    have := EnqueueMsg_bad_at cfg clock rand conn msg _ q hq h₁ e he
    simp [r, this]
  · obtain ⟨hm, hs, hi⟩ := EnqueueMsg_accepted cfg clock rand conn msg q hq hj (Or.inl ha)
    have hg : (EnqueueMsg.completed now rand msg).Get "at" = some now.toJson := by
      rw [EnqueueMsg.completed_Get]; simp [ha]
    have hlt : ¬ now < (((EnqueueMsg.completed now rand msg).Get "at").Float64).1 := by
      obtain ⟨w, hw⟩ := NowToSecondsWithNanoPrecision_finite clock
      have hw' : now = Float64.fin w := hw
      rw [hg, hw']
      exact Float64.lt_irrefl _
    obtain ⟨hor, hh⟩ := hi hlt
    have hr : r.2.1 = EnqueueMsg.completed now rand msg := hm
    have hrp : rpush = Command.rpush (cfg.Namespace ++ "queue:" ++ q)
        (Bytes.text (Json.obj (EnqueueMsg.completed now rand msg).fields)) := by
      simp only [rpush, hr, Msg.Encode]
    refine ⟨by rw [hr]; exact hg, ?_, ?_, ?_, fun hst => ?_⟩
    · rw [hr, EnqueueMsg.completed_Get]; simp
    · rw [hrp]; exact hor
    · intro key score b hmem
      rcases hor with h | h <;> rw [h] at hmem <;> simp at hmem
    · obtain ⟨h₁, h₂, h₃⟩ := hh hst
      rw [hrp]
      refine ⟨h₁, h₂, h₃, ?_⟩
      rw [h₃]; rfl

/-- C4 at the record `{"jid":"6","queue":"enqueue6"}` of the test suite, the clock reading
the epoch. -/
theorem EnqueueMsg_at_default_witness :
    (Msg.mk [("jid", Json.str "6"), ("queue", Json.str "enqueue6")]).Get "queue"
      = some (Json.str "enqueue6") ∧
    ((Msg.mk [("jid", Json.str "6"), ("queue", Json.str "enqueue6")]).Get "jid" = none ∨
      ∃ s, (Msg.mk [("jid", Json.str "6"), ("queue", Json.str "enqueue6")]).Get "jid"
        = some (Json.str s)) ∧
    (EnqueueMsg ⟨"prod:"⟩ Time.epoch [] (Conn.healthy Store.empty)
        ⟨[("jid", Json.str "6"), ("queue", Json.str "enqueue6")]⟩).2.1.Get "at"
      = some (Json.num 0) := by
  have h := ((EnqueueMsg_at_default ⟨"prod:"⟩ Time.epoch [] (Conn.healthy Store.empty)
    ⟨[("jid", Json.str "6"), ("queue", Json.str "enqueue6")]⟩ "enqueue6" rfl
    (Or.inr ⟨"6", rfl⟩)).2.2 rfl).1
  rw [NowToSecondsWithNanoPrecision_epoch] at h
  exact ⟨rfl, Or.inr ⟨"6", rfl⟩, h⟩


/-! ## Frame of the raw path -/

/-- C5: for a record with a string `queue`, a string `jid` and a numeric `at`, every payload
`EnqueueMsg` sends to the store is the input document with `enqueued_at` set to `now` and
nothing else changed: each other key of the input, known to the engine or not, has its
original value, and no other key is added; with a store that accepts the commands exactly
one such payload is sent and no error is returned. The clock sample is a finite number. -/
theorem EnqueueMsg_frame (cfg : Config) (clock : Time) (rand : List Byte)
    (conn : Conn) (msg : Msg) (q s : String) (n : ℚ)
    (hq : msg.Get "queue" = some (Json.str q)) (hj : msg.Get "jid" = some (Json.str s))
    (ha : msg.Get "at" = some (Json.num n)) :
    let now := NowToSecondsWithNanoPrecision clock
    let r := EnqueueMsg cfg clock rand conn msg
    let payload := Bytes.text (Json.obj (setField "enqueued_at" now.toJson msg.fields))
    now.isFinite = true ∧
    (∀ b ∈ r.1.payloadsSince conn, b = payload) ∧
    (∀ key, payload.field key =
      if key = "enqueued_at" then some now.toJson else msg.Get key) ∧
    ((∀ c, conn.failing c = false) → r.2.2 = none ∧ r.1.payloadsSince conn = [payload]) := by
  intro now r payload
  have hc : EnqueueMsg.completed now rand msg = msg.Set "enqueued_at" now.toJson := by
    simp [EnqueueMsg.completed, hj, ha]
  obtain ⟨hp, hh⟩ := EnqueueMsg_payloads cfg clock rand conn msg q hq
    (Or.inr ⟨s, hj⟩) (Or.inr ⟨n, ha⟩)
  have hb : Bytes.text (Json.obj (EnqueueMsg.completed now rand msg).fields) = payload := by
    rw [hc]; rfl
  refine ⟨(Float64.isFinite_iff _).mpr (NowToSecondsWithNanoPrecision_finite clock),
    fun b hmem => (hp b hmem).trans hb, fun key => ?_, fun hst => ?_⟩
  · exact lookupField_setField "enqueued_at" key now.toJson msg.fields
  · exact ⟨(hh hst).1, (hh hst).2.trans (by rw [hb])⟩

/-- C5 at the record with unknown fields of the test suite, the clock reading the epoch. -/
theorem EnqueueMsg_frame_witness :
    (Msg.mk [("jid", Json.str "3"), ("vava", Json.bool true), ("queue", Json.str "enqueue3"),
        ("at", Json.num 1),
        ("x-field", Json.obj [("one", Json.str "1"), ("two", Json.str "_2_")])]).Get "queue"
      = some (Json.str "enqueue3") ∧
    (Msg.mk [("jid", Json.str "3"), ("vava", Json.bool true), ("queue", Json.str "enqueue3"),
        ("at", Json.num 1),
        ("x-field", Json.obj [("one", Json.str "1"), ("two", Json.str "_2_")])]).Get "jid"
      = some (Json.str "3") ∧
    (Msg.mk [("jid", Json.str "3"), ("vava", Json.bool true), ("queue", Json.str "enqueue3"),
        ("at", Json.num 1),
        ("x-field", Json.obj [("one", Json.str "1"), ("two", Json.str "_2_")])]).Get "at"
      = some (Json.num 1) ∧
    ∀ b ∈ (EnqueueMsg ⟨"prod:"⟩ Time.epoch [] (Conn.healthy Store.empty)
        ⟨[("jid", Json.str "3"), ("vava", Json.bool true), ("queue", Json.str "enqueue3"),
          ("at", Json.num 1),
          ("x-field", Json.obj [("one", Json.str "1"), ("two", Json.str "_2_")])]⟩).1.payloadsSince
        (Conn.healthy Store.empty),
      b = Bytes.text (Json.obj (setField "enqueued_at" (Json.num 0)
        [("jid", Json.str "3"), ("vava", Json.bool true), ("queue", Json.str "enqueue3"),
          ("at", Json.num 1),
          ("x-field", Json.obj [("one", Json.str "1"), ("two", Json.str "_2_")])])) := by
  have h := (EnqueueMsg_frame ⟨"prod:"⟩ Time.epoch [] (Conn.healthy Store.empty)
    ⟨[("jid", Json.str "3"), ("vava", Json.bool true), ("queue", Json.str "enqueue3"),
      ("at", Json.num 1),
      ("x-field", Json.obj [("one", Json.str "1"), ("two", Json.str "_2_")])]⟩
    "enqueue3" "3" 1 rfl rfl rfl).2.1
  rw [NowToSecondsWithNanoPrecision_epoch] at h
  exact ⟨rfl, rfl, rfl, h⟩

/-- C6: for a record that passes the checks of `EnqueueMsg` (string `queue`, `jid` absent or
a string, `at` absent or a number), whatever `enqueued_at` held, the caller's record after
the call has `enqueued_at` equal to `now`, every payload sent to the store is the encoding
of that record and so has the same `enqueued_at`, and with a store that accepts the commands
exactly one such payload is sent and no error is returned. The clock sample is a finite
number. -/
theorem EnqueueMsg_enqueued_at (cfg : Config) (clock : Time) (rand : List Byte)
    (conn : Conn) (msg : Msg) (q : String) (hq : msg.Get "queue" = some (Json.str q))
    (hj : msg.Get "jid" = none ∨ ∃ s, msg.Get "jid" = some (Json.str s))
    (ha : msg.Get "at" = none ∨ ∃ n, msg.Get "at" = some (Json.num n)) :
    let now := NowToSecondsWithNanoPrecision clock
    let r := EnqueueMsg cfg clock rand conn msg
    now.isFinite = true ∧
    r.2.1.Get "enqueued_at" = some now.toJson ∧
    (∀ b ∈ r.1.payloadsSince conn,
      b = r.2.1.Encode.1 ∧ b.field "enqueued_at" = some now.toJson) ∧
    ((∀ c, conn.failing c = false) →
      r.2.2 = none ∧ r.1.payloadsSince conn = [r.2.1.Encode.1]) := by
  intro now r
  obtain ⟨hm, -, -⟩ := EnqueueMsg_accepted cfg clock rand conn msg q hq hj ha
  obtain ⟨hp, hh⟩ := EnqueueMsg_payloads cfg clock rand conn msg q hq hj ha
  have hr : r.2.1 = EnqueueMsg.completed now rand msg := hm
  have hg : (EnqueueMsg.completed now rand msg).Get "enqueued_at" = some now.toJson := by
    rw [EnqueueMsg.completed_Get]; simp
  refine ⟨(Float64.isFinite_iff _).mpr (NowToSecondsWithNanoPrecision_finite clock),
    by rw [hr]; exact hg, fun b hb => ?_, fun hst => ?_⟩
  · rw [hp b hb, hr]
    exact ⟨rfl, hg⟩
  · refine ⟨(hh hst).1, ?_⟩
    rw [(hh hst).2, hr]; rfl

/-- C6 at a record whose `enqueued_at` held a string, the clock reading the epoch. -/
theorem EnqueueMsg_enqueued_at_witness :
    (Msg.mk [("jid", Json.str "4"), ("queue", Json.str "enqueue4"), ("at", Json.num 1),
        ("enqueued_at", Json.str "yesterday")]).Get "queue" = some (Json.str "enqueue4") ∧
    ((Msg.mk [("jid", Json.str "4"), ("queue", Json.str "enqueue4"), ("at", Json.num 1),
        ("enqueued_at", Json.str "yesterday")]).Get "jid" = none ∨
      ∃ s, (Msg.mk [("jid", Json.str "4"), ("queue", Json.str "enqueue4"), ("at", Json.num 1),
        ("enqueued_at", Json.str "yesterday")]).Get "jid" = some (Json.str s)) ∧
    ((Msg.mk [("jid", Json.str "4"), ("queue", Json.str "enqueue4"), ("at", Json.num 1),
        ("enqueued_at", Json.str "yesterday")]).Get "at" = none ∨
      ∃ n, (Msg.mk [("jid", Json.str "4"), ("queue", Json.str "enqueue4"), ("at", Json.num 1),
        ("enqueued_at", Json.str "yesterday")]).Get "at" = some (Json.num n)) ∧
    (EnqueueMsg ⟨"prod:"⟩ Time.epoch [] (Conn.healthy Store.empty)
        ⟨[("jid", Json.str "4"), ("queue", Json.str "enqueue4"), ("at", Json.num 1),
          ("enqueued_at", Json.str "yesterday")]⟩).2.1.Get "enqueued_at"
      = some (Json.num 0) := by
  have h := (EnqueueMsg_enqueued_at ⟨"prod:"⟩ Time.epoch [] (Conn.healthy Store.empty)
    ⟨[("jid", Json.str "4"), ("queue", Json.str "enqueue4"), ("at", Json.num 1),
      ("enqueued_at", Json.str "yesterday")]⟩ "enqueue4" rfl
    (Or.inr ⟨"4", rfl⟩) (Or.inr ⟨1, rfl⟩)).2.1
  rw [NowToSecondsWithNanoPrecision_epoch] at h
  exact ⟨rfl, Or.inr ⟨"4", rfl⟩, Or.inr ⟨1, rfl⟩, h⟩

/-! ## The two paths take the same dispatch decision -/

/-- C7: for a record that passes the checks of `EnqueueMsg` with `queue = q` and `at = a`,
and for `EnqueueWithOptions` called with queue `q`, serialisable args and `opts.At = a`
under the same clock sample on the same connection, the two calls issue the same sequence
of store commands on the same keys, differing only in the payload: a `zadd` on the scheduled
set with score `a` when `now < a`, otherwise the `sadd` of `q` into the registry followed
by the `rpush` onto the queue list (the `rpush` being left out by both when the store
answers the `sadd` with an error). -/
theorem EnqueueMsg_EnqueueWithOptions_same_dispatch (cfg : Config) (clock : Time)
    (rand rand' : List Byte) (conn : Conn) (msg : Msg) (q class_ : String) (a : ℚ) (j : Json)
    (opts : EnqueueOptions)
    (hq : msg.Get "queue" = some (Json.str q))
    (hj : msg.Get "jid" = none ∨ ∃ s, msg.Get "jid" = some (Json.str s))
    (ha : msg.Get "at" = some (Json.num a)) (hopts : opts.At = Float64.fin a) :
    let now := NowToSecondsWithNanoPrecision clock
    let raw := (EnqueueMsg cfg clock rand conn msg).1.issuedSince conn
    let typed := (EnqueueWithOptions cfg clock rand' conn q class_ (some j) opts).1.issuedSince conn
    raw.map Command.shape = typed.map Command.shape ∧
    raw.map Command.shape =
      (if now < Float64.fin a then
         [Shape.zadd (cfg.Namespace ++ SCHEDULED_JOBS_KEY) (Float64.fin a)]
       else if conn.failing (Command.sadd (cfg.Namespace ++ "queues") q) then
         [Shape.sadd (cfg.Namespace ++ "queues") q]
       else [Shape.sadd (cfg.Namespace ++ "queues") q,
             Shape.rpush (cfg.Namespace ++ "queue:" ++ q)]) := by
  intro now raw typed
  have hat : (((EnqueueMsg.completed now rand msg).Get "at").Float64).1 = Float64.fin a := by
    rw [EnqueueMsg.completed_Get]; simp [ha, Accessor.Float64]
  have hraw := EnqueueMsg_issued cfg clock rand conn msg q hq hj (Or.inr ⟨a, ha⟩)
  have htyped := EnqueueWithOptions_issued cfg clock rand' conn q class_ j opts
    (by rw [hopts]; rfl)
  simp only [hat] at hraw
  simp only [hopts] at htyped
  simp only [raw, typed, hraw, htyped]
  by_cases h : now < Float64.fin a
  · have h' : NowToSecondsWithNanoPrecision clock < Float64.fin a := h
    simp [h, h', Command.shape]
  · have h' : ¬ NowToSecondsWithNanoPrecision clock < Float64.fin a := h
    by_cases hf : conn.failing (Command.sadd (cfg.Namespace ++ "queues") q) = true
    · simp [h, h', hf, Command.shape]
    · simp [h, h', hf, Command.shape]

/-- C7 at the record `{"jid":"1","queue":"enqueue1","at":1}` with the clock at the epoch,
where both paths schedule. -/
theorem EnqueueMsg_EnqueueWithOptions_same_dispatch_witness :
    (Msg.mk [("jid", Json.str "1"), ("queue", Json.str "enqueue1"), ("at", Json.num 1)]).Get
      "queue" = some (Json.str "enqueue1") ∧
    ((Msg.mk [("jid", Json.str "1"), ("queue", Json.str "enqueue1"), ("at", Json.num 1)]).Get
        "jid" = none ∨
      ∃ s, (Msg.mk [("jid", Json.str "1"), ("queue", Json.str "enqueue1"),
        ("at", Json.num 1)]).Get "jid" = some (Json.str s)) ∧
    (Msg.mk [("jid", Json.str "1"), ("queue", Json.str "enqueue1"), ("at", Json.num 1)]).Get
      "at" = some (Json.num 1) ∧
    ({ At := Float64.fin 1 } : EnqueueOptions).At = Float64.fin 1 ∧
    ((EnqueueMsg ⟨"prod:"⟩ Time.epoch [] (Conn.healthy Store.empty)
        ⟨[("jid", Json.str "1"), ("queue", Json.str "enqueue1"),
          ("at", Json.num 1)]⟩).1.issuedSince (Conn.healthy Store.empty)).map Command.shape =
      ((EnqueueWithOptions ⟨"prod:"⟩ Time.epoch [] (Conn.healthy Store.empty) "enqueue1" "Add"
        (some Json.null) { At := Float64.fin 1 }).1.issuedSince (Conn.healthy Store.empty)).map
        Command.shape :=
  ⟨rfl, Or.inr ⟨"1", rfl⟩, rfl, rfl,
   (EnqueueMsg_EnqueueWithOptions_same_dispatch ⟨"prod:"⟩ Time.epoch [] [] (Conn.healthy Store.empty)
      ⟨[("jid", Json.str "1"), ("queue", Json.str "enqueue1"), ("at", Json.num 1)]⟩
      "enqueue1" "Add" 1 Json.null { At := Float64.fin 1 } rfl (Or.inr ⟨"1", rfl⟩) rfl rfl).1⟩

/-! ## The typed entry points -/

/-- C8: `Enqueue` dispatches now. With serialisable args, a store that accepts the commands
and a clock that has not gone back between the sample `Enqueue` takes for `At` and the one
taken inside `EnqueueWithOptions` (equal samples included: an `at` equal to `now` is due),
the call returns no error, issues no `zadd` and leaves the scheduled set alone, makes the
queue name a member of the registry, and lengthens the queue list by exactly one. -/
theorem Enqueue_dispatches_now (cfg : Config) (clock₁ clock₂ : Time) (rand : List Byte)
    (conn : Conn) (queue class_ : String) (a : Json)
    (hclock : clock₁ ≤ clock₂) (hstore : ∀ c, conn.failing c = false) :
    let r := Enqueue cfg clock₁ clock₂ rand conn queue class_ (some a)
    r.2.2 = none ∧
    (∀ key score b, Command.zadd key score b ∉ r.1.issuedSince conn) ∧
    r.1.store.zsets = conn.store.zsets ∧
    queue ∈ r.1.store.sets (cfg.Namespace ++ "queues") ∧
    (r.1.store.lists (cfg.Namespace ++ "queue:" ++ queue)).length =
      (conn.store.lists (cfg.Namespace ++ "queue:" ++ queue)).length + 1 := by
  intro r
  have hdue : ¬ NowToSecondsWithNanoPrecision clock₂ <
      ({ At := NowToSecondsWithNanoPrecision clock₁ } : EnqueueOptions).At :=
    (NowToSecondsWithNanoPrecision_mono clock₁ clock₂ hclock).2
  have hfin : ({ At := NowToSecondsWithNanoPrecision clock₁ } : EnqueueOptions).At.isFinite
      = true :=
    (Float64.isFinite_iff _).mpr (NowToSecondsWithNanoPrecision_finite clock₁)
  have e : r = _ := EnqueueWithOptions_immediate_accepted cfg clock₂ rand conn queue class_ a
    { At := NowToSecondsWithNanoPrecision clock₁ } hfin hdue hstore
  rw [e]
  refine ⟨rfl, ?_, rfl, ?_, ?_⟩
  · intro key score b hmem
    rw [Conn.issuedSince_append _ conn _ rfl] at hmem
    simp at hmem
  · simp only [Store.apply]
    by_cases hq : queue ∈ conn.store.sets (cfg.Namespace ++ "queues") <;> simp [hq]
  · simp [Store.apply]

/-- C8 with both samples at the same instant, on a fresh store. -/
theorem Enqueue_dispatches_now_witness :
    (Time.epoch ≤ Time.epoch) ∧ (∀ c, (Conn.healthy Store.empty).failing c = false) ∧
    (Enqueue ⟨"prod:"⟩ Time.epoch Time.epoch [] (Conn.healthy Store.empty) "enqueue2" "Add"
      (some (Json.arr [Json.num 1, Json.num 2]))).2.2 = none :=
  ⟨Int.le_refl _, fun _ => rfl,
   (Enqueue_dispatches_now ⟨"prod:"⟩ Time.epoch Time.epoch [] (Conn.healthy Store.empty) "enqueue2" "Add"
      (Json.arr [Json.num 1, Json.num 2]) (Int.le_refl _) (fun _ => rfl)).1⟩


theorem EnqueueWithOptions.data_finite (clock : Time) (rand : List Byte) (queue class_ : String)
    (args : Option Json) (opts : EnqueueOptions) (hfin : opts.At.isFinite = true) :
    ∃ e t, (EnqueueWithOptions.data clock rand queue class_ args opts).EnqueuedAt
        = Float64.fin e ∧
      (EnqueueWithOptions.data clock rand queue class_ args opts).At = Float64.fin t ∧
      NowToSecondsWithNanoPrecision clock = Float64.fin e ∧ opts.At = Float64.fin t := by
  obtain ⟨e, he⟩ := NowToSecondsWithNanoPrecision_finite clock
  obtain ⟨t, ht⟩ := (Float64.isFinite_iff _).mp hfin
  exact ⟨e, t, he, ht, he, ht⟩

theorem Float64.zero_add_fin_pos (q : ℚ) (h₁ : 1 ≤ q) (h₂ : q < 2 ^ ((63 : ℤ) + 1)) :
    ∃ w, Float64.fin 0 + Float64.fin q = Float64.fin w ∧ 0 < w := by
  have hq : |q| < 2 ^ ((63 : ℤ) + 1) := by
    rw [abs_of_nonneg (by linarith)]; exact h₂
  obtain ⟨hr, -⟩ := Float64.round_of_abs_lt q 63 (by norm_num) (by norm_num) hq
  have hsmall : (2 : ℚ) ^ (-1022 : ℤ) ≤ 1 := zpow_le_one_of_nonpos₀ (by norm_num) (by norm_num)
  have hn : Float64.nearestSigned q = Float64.nearest q := by
    unfold Float64.nearestSigned
    rw [if_neg (by linarith)]
  have hpos : (0 : ℚ) < Float64.nearest q :=
    lt_of_lt_of_le (by positivity) (Float64.zpow_le_nearest q (le_trans hsmall h₁))
  refine ⟨Float64.nearest q, ?_, hpos⟩
  show Float64.round (0 + q) = _
  rw [zero_add, hr, hn]

/-- C9, as the code has it: `EnqueueIn` schedules. With serialisable args, whenever
`now₂ < now₁ + in`: if the sum `now₁ + in` is finite, the call issues one `zadd` of the record
with score `now₁ + in` and no other command, leaves the registry and every queue list
untouched, and the stored document carries the plain queue name, without the namespace; the
store accepting the command, the call returns no error and the payload is a member of the
scheduled set with that score (one member more unless that very payload was a member
already), the other members being untouched. If the sum is not finite (an infinite delay, or
one so large that the sum overflows), the record cannot be serialised: the call returns an
error and the empty identifier, and issues no command. -/
theorem EnqueueIn_schedules (cfg : Config) (clock₁ clock₂ : Time) (rand : List Byte)
    (conn : Conn) (queue class_ : String) (in_ : Float64) (a : Json)
    (hlt : NowToSecondsWithNanoPrecision clock₂ < NowToSecondsWithNanoPrecision clock₁ + in_) :
    let score := NowToSecondsWithNanoPrecision clock₁ + in_
    let bytes := (json.Marshal
      (EnqueueWithOptions.data clock₂ rand queue class_ (some a) { At := score })).1
    let key := cfg.Namespace ++ SCHEDULED_JOBS_KEY
    let r := EnqueueIn cfg clock₁ clock₂ rand conn queue class_ in_ (some a)
    (score.isFinite = true →
      r.1.issuedSince conn = [Command.zadd key score bytes] ∧
      r.1.store.sets = conn.store.sets ∧
      r.1.store.lists = conn.store.lists ∧
      (∀ k, k ≠ key → r.1.store.zsets k = conn.store.zsets k) ∧
      decodedQueue bytes = queue ∧
      (queue ≠ "" → bytes.field "queue" = some (Json.str queue)) ∧
      ((∀ c, conn.failing c = false) →
        r.2.2 = none ∧
        r.1.store.zsets key =
          (conn.store.zsets key).filter (fun e => e.2 ≠ bytes) ++ [(score, bytes)] ∧
        ((∀ e ∈ conn.store.zsets key, e.2 ≠ bytes) →
          (r.1.store.zsets key).length = (conn.store.zsets key).length + 1))) ∧
    (score.isFinite = false → r.1 = conn ∧ r.2.1 = "" ∧ r.2.2 ≠ none) := by
  intro score bytes key r
  refine ⟨fun hfin => ?_, fun hinf => ?_⟩
  · have e : r = ((conn.Do (Command.zadd key score bytes)).1, generateJid rand,
        (conn.Do (Command.zadd key score bytes)).2) :=
      EnqueueWithOptions_scheduled cfg clock₂ rand conn queue class_ a { At := score } hfin hlt
    obtain ⟨e', t, he', ht, -⟩ := EnqueueWithOptions.data_finite clock₂ rand queue class_
      (some a) { At := score } hfin
    have hf : bytes.field "queue" = if queue = "" then none else some (Json.str queue) :=
      json.Marshal_field_queue _ a e' t rfl he' ht
    have hframe := Conn.Do_zadd_frame conn key score bytes
    have hz : (conn.store.apply (Command.zadd key score bytes)).zsets key =
        (conn.store.zsets key).filter (fun e => e.2 ≠ bytes) ++ [(score, bytes)] := by
      simp [Store.apply]
    rw [e]
    refine ⟨Conn.issuedSince_append _ conn _ (Conn.Do_issued conn _), hframe.1, hframe.2.1,
      hframe.2.2, ?_, ?_, fun hstore => ?_⟩
    · unfold decodedQueue
      rw [hf]
      by_cases hq : queue = "" <;> simp [hq]
    · intro hq
      rw [hf, if_neg hq]
    · rw [Conn.Do_of_accepts conn _ (hstore _)]
      refine ⟨rfl, hz, fun hnew => ?_⟩
      have hfil : (conn.store.zsets key).filter (fun e => e.2 ≠ bytes) = conn.store.zsets key :=
        List.filter_eq_self.mpr (fun e he => by simpa using hnew e he)
      have hz' := hz
      rw [hfil] at hz'
      have hl := congrArg List.length hz'
      simpa using hl
  · obtain ⟨e, he⟩ := EnqueueWithOptions_rejected cfg clock₂ rand conn queue class_ (some a)
      { At := score } (Or.inr hinf)
    have hr : r = (conn, "", some e) := he
    simp [hr]

/-- C9 (as the code has it) at the call of the test suite, 10 s ahead on a fresh store, both
clock readings at the epoch. -/
theorem EnqueueIn_schedules_witness :
    NowToSecondsWithNanoPrecision Time.epoch <
      NowToSecondsWithNanoPrecision Time.epoch + Float64.fin 10 ∧
    (NowToSecondsWithNanoPrecision Time.epoch + Float64.fin 10).isFinite = true ∧
    (EnqueueIn ⟨"prod:"⟩ Time.epoch Time.epoch [] (Conn.healthy Store.empty) "enqueuein1"
        "Compare" (Float64.fin 10)
        (some (Json.obj [("foo", Json.str "bar")]))).1.issuedSince (Conn.healthy Store.empty) =
      [Command.zadd ("prod:" ++ SCHEDULED_JOBS_KEY)
        (NowToSecondsWithNanoPrecision Time.epoch + Float64.fin 10)
        (json.Marshal (EnqueueWithOptions.data Time.epoch [] "enqueuein1" "Compare"
          (some (Json.obj [("foo", Json.str "bar")]))
          { At := NowToSecondsWithNanoPrecision Time.epoch + Float64.fin 10 })).1] :=
  have hsum : ∃ w, NowToSecondsWithNanoPrecision Time.epoch + Float64.fin 10 = Float64.fin w ∧
      0 < w := by
    rw [NowToSecondsWithNanoPrecision_epoch]
    exact Float64.zero_add_fin_pos 10 (by norm_num) (by norm_num)
  have hlt : NowToSecondsWithNanoPrecision Time.epoch <
      NowToSecondsWithNanoPrecision Time.epoch + Float64.fin 10 := by
    obtain ⟨w, hw, hpos⟩ := hsum
    rw [hw, NowToSecondsWithNanoPrecision_epoch, Float64.fin_lt_fin]
    exact hpos
  have hfin : (NowToSecondsWithNanoPrecision Time.epoch + Float64.fin 10).isFinite = true :=
    (Float64.isFinite_iff _).mpr (hsum.imp fun _ h => h.1)
  ⟨hlt, hfin,
   ((EnqueueIn_schedules ⟨"prod:"⟩ Time.epoch Time.epoch [] (Conn.healthy Store.empty)
      "enqueuein1" "Compare" (Float64.fin 10) (Json.obj [("foo", Json.str "bar")]) hlt).1
      hfin).1⟩

/-- C9 fails for an infinite delay: with both clock readings at the epoch and `in = +Inf`,
`now₂ < now₁ + in` holds and the store accepts every command, yet `EnqueueIn` returns the
serialisation error and adds nothing to the scheduled set: no command is issued. -/
theorem EnqueueIn_infinite_delay_not_scheduled :
    NowToSecondsWithNanoPrecision Time.epoch <
      NowToSecondsWithNanoPrecision Time.epoch + Float64.posInf ∧
    (∀ c, (Conn.healthy Store.empty).failing c = false) ∧
    EnqueueIn ⟨"prod:"⟩ Time.epoch Time.epoch [] (Conn.healthy Store.empty) "enqueuein1"
        "Compare" Float64.posInf (some (Json.obj [("foo", Json.str "bar")])) =
      (Conn.healthy Store.empty, "", some "json: unsupported value: +Inf") := by
  have hsum : NowToSecondsWithNanoPrecision Time.epoch + Float64.posInf = Float64.posInf := by
    rw [NowToSecondsWithNanoPrecision_epoch]; rfl
  refine ⟨by rw [hsum, NowToSecondsWithNanoPrecision_epoch]; decide, fun _ => rfl, ?_⟩
  unfold EnqueueIn
  rw [EnqueueWithOptions_eq, hsum]
  simp [json.Marshal, EnqueueWithOptions.data, NowToSecondsWithNanoPrecision_epoch,
    json.UnsupportedValueError]

theorem hexDigit_eq (d : Fin 16) : lowerHexDigits[d.val]? = some (hexDigit d.val) := by
  revert d; decide

theorem hexDigit_inj (d e : Fin 16) (h : hexDigit d.val = hexDigit e.val) : d = e := by
  revert d e; decide

theorem hexDigit_mem (d : Nat) (h : d < 16) : hexDigit d ∈ lowerHexDigits := by
  have := hexDigit_eq ⟨d, h⟩
  exact List.getElem?_mem this

theorem hexPair_inj (x y : Byte) (hhi : hexDigit (x.val / 16) = hexDigit (y.val / 16))
    (hlo : hexDigit (x.val % 16) = hexDigit (y.val % 16)) : x = y := by
  have h₁ := hexDigit_inj ⟨x.val / 16, by omega⟩ ⟨y.val / 16, by omega⟩ hhi
  have h₂ := hexDigit_inj ⟨x.val % 16, by omega⟩ ⟨y.val % 16, by omega⟩ hlo
  have e₁ : x.val / 16 = y.val / 16 := congrArg Fin.val h₁
  have e₂ : x.val % 16 = y.val % 16 := congrArg Fin.val h₂
  apply Fin.ext
  omega

theorem sprintfHex_toList (b : List Byte) :
    (sprintfHex b).toList = b.flatMap fun x => [hexDigit (x.val / 16), hexDigit (x.val % 16)] :=
  rfl

theorem sprintfHex_length (b : List Byte) : (sprintfHex b).length = 2 * b.length := by
  unfold sprintfHex
  rw [String.length_mk]
  induction b with
  | nil => rfl
  | cons x rest ih => simp [List.flatMap_cons, ih]; omega

theorem sprintfHex_mem (b : List Byte) (c : Char) (h : c ∈ (sprintfHex b).toList) :
    c ∈ lowerHexDigits := by
  rw [sprintfHex_toList, List.mem_flatMap] at h
  obtain ⟨x, -, hc⟩ := h
  simp only [List.mem_cons, List.mem_singleton, List.not_mem_nil, or_false] at hc
  rcases hc with hc | hc
  · rw [hc]; exact hexDigit_mem _ (by omega)
  · rw [hc]; exact hexDigit_mem _ (Nat.mod_lt _ (by norm_num))

theorem sprintfHex_getElem? (b : List Byte) (i : Nat) (x : Byte) (h : b[i]? = some x) :
    (sprintfHex b).toList[2 * i]? = some (hexDigit (x.val / 16)) ∧
    (sprintfHex b).toList[2 * i + 1]? = some (hexDigit (x.val % 16)) := by
  rw [sprintfHex_toList]
  induction b generalizing i with
  | nil => simp at h
  | cons y rest ih =>
    cases i with
    | zero =>
      simp only [List.getElem?_cons_zero, Option.some.injEq] at h
      simp [List.flatMap_cons, h]
    | succ n =>
      simp only [List.getElem?_cons_succ] at h
      have := ih n h
      have e₁ : 2 * (n + 1) = (2 * n) + 1 + 1 := by ring
      rw [e₁]
      simpa [List.flatMap_cons] using this

theorem sprintfHex_inj (b₁ b₂ : List Byte) (h : sprintfHex b₁ = sprintfHex b₂) : b₁ = b₂ := by
  have h' : (sprintfHex b₁).toList = (sprintfHex b₂).toList := by rw [h]
  rw [sprintfHex_toList, sprintfHex_toList] at h'
  induction b₁ generalizing b₂ with
  | nil =>
    cases b₂ with
    | nil => rfl
    | cons y rest => simp [List.flatMap_cons] at h'
  | cons x rest ih =>
    cases b₂ with
    | nil => simp [List.flatMap_cons] at h'
    | cons y rest₂ =>
      simp only [List.flatMap_cons, List.cons_append, List.nil_append, List.cons.injEq] at h'
      obtain ⟨hhi, hlo, ht⟩ := h'
      have hxy := hexPair_inj x y hhi hlo
      have hr := ih rest₂ (by rw [sprintfHex, sprintfHex, ht]) ht
      rw [hxy, hr]

theorem generateJid_of_read (rand : List Byte) (h : 12 ≤ rand.length) :
    generateJid rand = sprintfHex (rand.take 12) := by
  simp [generateJid, ReadFull, h]

theorem generateJid_isJid (rand : List Byte) (h : 12 ≤ rand.length) :
    isJid (generateJid rand) = true := by
  rw [generateJid_of_read rand h]
  have hl : (sprintfHex (rand.take 12)).length = 24 := by
    rw [sprintfHex_length, List.length_take, Nat.min_eq_left h]
  simp only [isJid, hl, beq_self_eq_true, Bool.true_and, List.all_eq_true]
  intro c hc
  simpa using sprintfHex_mem _ c hc

/-- C13: `generateJid` returns the lowercase hexadecimal encoding of the 12 bytes it reads:
when the source delivers them the result has exactly 24 characters, each one of
`0123456789abcdef`, the characters at positions `2i` and `2i+1` being the digits of the high
and of the low half of byte `i`, so that different byte sequences give different
identifiers; when the read fails the result is the empty string. -/
theorem generateJid_hex :
    (∀ rand : List Byte, 12 ≤ rand.length →
      (generateJid rand).length = 24 ∧
      (∀ c ∈ (generateJid rand).toList, c ∈ lowerHexDigits) ∧
      (∀ i x, (rand.take 12)[i]? = some x →
        (generateJid rand).toList[2 * i]? = lowerHexDigits[x.val / 16]? ∧
        (generateJid rand).toList[2 * i + 1]? = lowerHexDigits[x.val % 16]?)) ∧
    (∀ rand₁ rand₂ : List Byte, 12 ≤ rand₁.length → 12 ≤ rand₂.length →
      generateJid rand₁ = generateJid rand₂ → rand₁.take 12 = rand₂.take 12) ∧
    (∀ rand : List Byte, rand.length < 12 → generateJid rand = "") := by
  refine ⟨fun rand h => ?_, fun rand₁ rand₂ h₁ h₂ he => ?_, fun rand h => ?_⟩
  · rw [generateJid_of_read rand h]
    refine ⟨?_, sprintfHex_mem _, fun i x hx => ?_⟩
    · rw [sprintfHex_length, List.length_take, Nat.min_eq_left h]
    · obtain ⟨e₁, e₂⟩ := sprintfHex_getElem? _ i x hx
      rw [e₁, e₂]
      exact ⟨(hexDigit_eq ⟨x.val / 16, by omega⟩).symm,
        (hexDigit_eq ⟨x.val % 16, Nat.mod_lt _ (by norm_num)⟩).symm⟩
  · rw [generateJid_of_read rand₁ h₁, generateJid_of_read rand₂ h₂] at he
    exact sprintfHex_inj _ _ he
  · have hn : ¬ 12 ≤ rand.length := by omega
    simp [generateJid, ReadFull, hn]

/-- C13 at twelve bytes `0xab`, and at a source that delivers nothing. -/
theorem generateJid_hex_witness :
    12 ≤ (List.replicate 12 (171 : Byte)).length ∧
    (generateJid (List.replicate 12 (171 : Byte))).length = 24 ∧
    ([] : List Byte).length < 12 ∧ generateJid [] = "" :=
  ⟨by decide, (generateJid_hex.1 (List.replicate 12 171) (by decide)).1, by decide,
   generateJid_hex.2.2 [] (by decide)⟩

/-! ## The members of a serialised `EnqueueData` -/

theorem json.Marshal_field_class (d : EnqueueData) (a : Json) (e t : ℚ) (h : d.Args = some a)
    (he : d.EnqueuedAt = Float64.fin e) (ht : d.At = Float64.fin t) :
    (json.Marshal d).1.field "class" = some (Json.str d.Class) := by
  by_cases hq : d.Queue = "" <;>
    simp [json.Marshal, h, he, ht, Bytes.field, lookupField_append, lookupField_omitempty, lookupField,
      hq]

theorem json.Marshal_field_args (d : EnqueueData) (a : Json) (e t : ℚ) (h : d.Args = some a)
    (he : d.EnqueuedAt = Float64.fin e) (ht : d.At = Float64.fin t) :
    (json.Marshal d).1.field "args" = some a := by
  by_cases hq : d.Queue = "" <;>
    simp [json.Marshal, h, he, ht, Bytes.field, lookupField_append, lookupField_omitempty, lookupField,
      hq]

theorem json.Marshal_field_jid (d : EnqueueData) (a : Json) (e t : ℚ) (h : d.Args = some a)
    (he : d.EnqueuedAt = Float64.fin e) (ht : d.At = Float64.fin t) :
    (json.Marshal d).1.field "jid" = some (Json.str d.Jid) := by
  by_cases hq : d.Queue = "" <;>
    simp [json.Marshal, h, he, ht, Bytes.field, lookupField_append, lookupField_omitempty, lookupField,
      hq]

theorem json.Marshal_field_retry (d : EnqueueData) (a : Json) (e t : ℚ) (h : d.Args = some a)
    (he : d.EnqueuedAt = Float64.fin e) (ht : d.At = Float64.fin t) :
    (json.Marshal d).1.field "retry" = if d.Retry = true then some (Json.bool true) else none := by
  by_cases hq : d.Queue = "" <;> cases hr : d.Retry <;>
    simp [json.Marshal, h, he, ht, Bytes.field, lookupField_append, lookupField_omitempty, lookupField,
      hq, hr]

theorem json.Marshal_field_retry_count (d : EnqueueData) (a : Json) (e t : ℚ) (h : d.Args = some a)
    (he : d.EnqueuedAt = Float64.fin e) (ht : d.At = Float64.fin t) :
    (json.Marshal d).1.field "retry_count" =
      if d.RetryCount = 0 then none else some (Json.num d.RetryCount) := by
  by_cases hq : d.Queue = "" <;> by_cases hr : d.RetryCount = 0 <;>
    simp [json.Marshal, h, he, ht, Bytes.field, lookupField_append, lookupField_omitempty, lookupField,
      hq, hr]

theorem json.Marshal_field_max_attempts (d : EnqueueData) (a : Json) (e t : ℚ) (h : d.Args = some a)
    (he : d.EnqueuedAt = Float64.fin e) (ht : d.At = Float64.fin t) :
    (json.Marshal d).1.field "max_attempts" =
      if d.MaxAttempts = 0 then none else some (Json.num d.MaxAttempts) := by
  by_cases hq : d.Queue = "" <;> by_cases hr : d.MaxAttempts = 0 <;>
    simp [json.Marshal, h, he, ht, Bytes.field, lookupField_append, lookupField_omitempty, lookupField,
      hq, hr]

theorem PrepareEnqueuMsg.data_options (clock : Time) (rand : List Byte) (queue class_ : String)
    (args : Option Json) (opts : EnqueueOptions) :
    (PrepareEnqueuMsg.data clock rand queue class_ args opts).Retry = opts.Retry ∧
    (PrepareEnqueuMsg.data clock rand queue class_ args opts).RetryCount = opts.RetryCount ∧
    (PrepareEnqueuMsg.data clock rand queue class_ args opts).MaxAttempts = opts.MaxAttempts := by
  by_cases h : opts.At ≤ Float64.fin 0 <;> simp [PrepareEnqueuMsg.data, h]

theorem Conn.issuedSince_self (c : Conn) : c.issuedSince c = [] := by
  simp [Conn.issuedSince]

theorem EnqueueWithOptions_immediate_cases (cfg : Config) (clock : Time) (rand : List Byte)
    (conn : Conn) (queue class_ : String) (a : Json) (opts : EnqueueOptions)
    (hfin : opts.At.isFinite = true) (h : ¬ NowToSecondsWithNanoPrecision clock < opts.At) :
    let bytes := (json.Marshal (EnqueueWithOptions.data clock rand queue class_ (some a) opts)).1
    let sadd := Command.sadd (cfg.Namespace ++ "queues") queue
    let rpush := Command.rpush (cfg.Namespace ++ "queue:" ++ queue) bytes
    let r := EnqueueWithOptions cfg clock rand conn queue class_ (some a) opts
    (conn.failing sadd = true →
      r = ({ conn with issued := conn.issued ++ [sadd] }, "", some "store error")) ∧
    (conn.failing sadd = false → conn.failing rpush = true →
      r = ({ conn with store := conn.store.apply sadd, issued := conn.issued ++ [sadd, rpush] },
        "", some "store error")) ∧
    (conn.failing sadd = false → conn.failing rpush = false →
      r = ({ conn with store := (conn.store.apply sadd).apply rpush,
                       issued := conn.issued ++ [sadd, rpush] }, generateJid rand, none)) := by
  intro bytes sadd rpush r
  have e : r = _ := EnqueueWithOptions_immediate cfg clock rand conn queue class_ a opts hfin h
  refine ⟨fun h₁ => ?_, fun h₁ h₂ => ?_, fun h₁ h₂ => ?_⟩
  · rw [e]
    simp only []
    rw [Conn.Do_of_fails conn _ h₁]
    rfl
  · have d₁ : conn.Do sadd = _ := Conn.Do_of_accepts conn sadd h₁
    have d₂ : (conn.Do sadd).1.Do rpush = _ :=
      Conn.Do_of_fails _ rpush (by rw [Conn.Do_failing]; exact h₂)
    rw [e]
    simp only []
    rw [d₂, d₁]
    simp
  · have d₁ : conn.Do sadd = _ := Conn.Do_of_accepts conn sadd h₁
    have d₂ : (conn.Do sadd).1.Do rpush = _ :=
      Conn.Do_of_accepts _ rpush (by rw [Conn.Do_failing]; exact h₂)
    rw [e]
    simp only []
    rw [d₂, d₁]
    simp

theorem EnqueueWithOptions_scheduled_cases (cfg : Config) (clock : Time) (rand : List Byte)
    (conn : Conn) (queue class_ : String) (a : Json) (opts : EnqueueOptions)
    (hfin : opts.At.isFinite = true) (h : NowToSecondsWithNanoPrecision clock < opts.At) :
    let bytes := (json.Marshal (EnqueueWithOptions.data clock rand queue class_ (some a) opts)).1
    let zadd := Command.zadd (cfg.Namespace ++ SCHEDULED_JOBS_KEY) opts.At bytes
    let r := EnqueueWithOptions cfg clock rand conn queue class_ (some a) opts
    (conn.failing zadd = true →
      r = ({ conn with issued := conn.issued ++ [zadd] }, generateJid rand,
        some "store error")) ∧
    (conn.failing zadd = false →
      r = ({ conn with store := conn.store.apply zadd, issued := conn.issued ++ [zadd] },
        generateJid rand, none)) := by
  intro bytes zadd r
  have e : r = _ := EnqueueWithOptions_scheduled cfg clock rand conn queue class_ a opts hfin h
  refine ⟨fun h₁ => ?_, fun h₁ => ?_⟩
  · rw [e]
    simp only []
    rw [Conn.Do_of_fails conn _ h₁]
  · rw [e]
    simp only []
    rw [Conn.Do_of_accepts conn _ h₁]

theorem EnqueueWithOptions_payloads (cfg : Config) (clock : Time) (rand : List Byte)
    (conn : Conn) (queue class_ : String) (args : Option Json) (opts : EnqueueOptions) :
    let r := EnqueueWithOptions cfg clock rand conn queue class_ args opts
    let bytes := (json.Marshal (EnqueueWithOptions.data clock rand queue class_ args opts)).1
    (∀ b ∈ r.1.payloadsSince conn,
      b = bytes ∧ args.isSome = true ∧ opts.At.isFinite = true) ∧
    (r.2.2 = none → r.1.payloadsSince conn = [bytes] ∧ args.isSome = true ∧
      opts.At.isFinite = true ∧ r.2.1 = generateJid rand) := by
  intro r bytes
  by_cases hrej : args = none ∨ opts.At.isFinite = false
  · obtain ⟨e, he⟩ := EnqueueWithOptions_rejected cfg clock rand conn queue class_ args opts hrej
    have hr : r = (conn, "", some e) := he
    rw [hr]
    simp [Conn.payloadsSince, Conn.issuedSince_self]
  · have hfin : opts.At.isFinite = true := by
      cases hf : opts.At.isFinite
      · exact absurd (Or.inr hf) hrej
      · rfl
    cases args with
    | none => exact absurd (Or.inl rfl) hrej
    | some a =>
      have hi := EnqueueWithOptions_issued cfg clock rand conn queue class_ a opts hfin
      simp only [] at hi
      by_cases h : NowToSecondsWithNanoPrecision clock < opts.At
      · rw [if_pos h] at hi
        have e : r = _ :=
          EnqueueWithOptions_scheduled cfg clock rand conn queue class_ a opts hfin h
        refine ⟨fun b hb => ?_, fun _ => ⟨?_, rfl, hfin, ?_⟩⟩
        · simp only [Conn.payloadsSince, r, hi] at hb
          refine ⟨?_, rfl, hfin⟩
          simpa [Command.payload, bytes] using hb
        · simp only [Conn.payloadsSince, r, hi]
          simp [Command.payload, bytes]
        · rw [e]
      · rw [if_neg h] at hi
        obtain ⟨c₁, c₂, c₃⟩ :=
          EnqueueWithOptions_immediate_cases cfg clock rand conn queue class_ a opts hfin h
        refine ⟨fun b hb => ?_, fun hnil => ?_⟩
        · simp only [Conn.payloadsSince, r] at hb
          rw [hi] at hb
          refine ⟨?_, rfl, hfin⟩
          split at hb
          · simp [Command.payload] at hb
          · simpa [Command.payload, bytes] using hb
        · cases h₁ : conn.failing (Command.sadd (cfg.Namespace ++ "queues") queue) with
          | true =>
            have := c₁ h₁
            simp only [r, this] at hnil
            exact absurd hnil (by simp)
          | false =>
            cases h₂ : conn.failing
                (Command.rpush (cfg.Namespace ++ "queue:" ++ queue) bytes) with
            | true =>
              have := c₂ h₁ h₂
              simp only [r, this] at hnil
              exact absurd hnil (by simp)
            | false =>
              have := c₃ h₁ h₂
              refine ⟨?_, rfl, hfin, by simp only [r, this]⟩
              simp only [Conn.payloadsSince, r]
              rw [hi]
              simp [h₁, Command.payload, bytes]


/-! ## Job Descriptor construction (typed path) -/

/-- C11, as the code has it. For serialisable args and an `opts.At` that is neither `+Inf`
nor NaN, the record `PrepareEnqueuMsg` builds has `class` set to the given class name and
`args` to the given payload; its `queue` is the given queue name when that name is not
empty, and is left out of the record when the name is empty. For `opts.At = +Inf` and for
NaN no record is built. -/
theorem PrepareEnqueuMsg_fields (clock : Time) (rand : List Byte) (queue class_ : String)
    (a : Json) (opts : EnqueueOptions) :
    (opts.At ≠ Float64.posInf ∧ opts.At ≠ Float64.nan →
      ∃ m, PrepareEnqueuMsg clock rand queue class_ (some a) opts = some m ∧
        m.Get "class" = some (Json.str class_) ∧
        m.Get "args" = some a ∧
        (queue ≠ "" → m.Get "queue" = some (Json.str queue)) ∧
        (queue = "" → m.Get "queue" = none)) ∧
    (opts.At = Float64.posInf ∨ opts.At = Float64.nan →
      PrepareEnqueuMsg clock rand queue class_ (some a) opts = none) := by
  refine ⟨fun hne => ?_, fun hinf => PrepareEnqueuMsg_none clock rand queue class_ _ opts
    (Or.inr hinf)⟩
  have hat : opts.At ≤ Float64.fin 0 ∨ opts.At.isFinite = true :=
    (Float64.le_fin_or_isFinite opts.At 0).mpr hne
  obtain ⟨m, hm, hget⟩ := PrepareEnqueuMsg_some clock rand queue class_ a opts hat
  obtain ⟨e, t, he, ht, -⟩ :=
    PrepareEnqueuMsg.data_serialisable clock rand queue class_ (some a) opts hat
  have hq := json.Marshal_field_queue
    (PrepareEnqueuMsg.data clock rand queue class_ (some a) opts) a e t rfl he ht
  have hdq : (PrepareEnqueuMsg.data clock rand queue class_ (some a) opts).Queue = queue := rfl
  rw [hdq] at hq
  refine ⟨m, hm, ?_, ?_, fun h => ?_, fun h => ?_⟩
  · rw [hget]; exact json.Marshal_field_class _ a e t rfl he ht
  · rw [hget]; exact json.Marshal_field_args _ a e t rfl he ht
  · rw [hget, hq, if_neg h]
  · rw [hget, hq, if_pos h]

/-- C11 (as the code has it) at the call of the test suite. -/
theorem PrepareEnqueuMsg_fields_witness :
    (({} : EnqueueOptions).At ≠ Float64.posInf ∧ ({} : EnqueueOptions).At ≠ Float64.nan) ∧
    "ququ-queue" ≠ "" ∧
    ∃ m, PrepareEnqueuMsg Time.epoch [] "ququ-queue" "QuquClass"
        (some (Json.obj [("foo", Json.str "bar"), ("baz", Json.bool true)])) {} = some m ∧
      m.Get "class" = some (Json.str "QuquClass") ∧
      m.Get "args" = some (Json.obj [("foo", Json.str "bar"), ("baz", Json.bool true)]) ∧
      m.Get "queue" = some (Json.str "ququ-queue") :=
  ⟨⟨by decide, by decide⟩, by decide,
   ((PrepareEnqueuMsg_fields Time.epoch [] "ququ-queue" "QuquClass"
     (Json.obj [("foo", Json.str "bar"), ("baz", Json.bool true)]) {}).1
     ⟨by decide, by decide⟩).elim
     (fun m h => ⟨m, h.1, h.2.1, h.2.2.1, h.2.2.2.1 (by decide)⟩)⟩

/-- C11 fails as stated for the empty queue name: the `omitempty` tag of `Queue` leaves the
member out, so the record has no `queue` at all. -/
theorem PrepareEnqueuMsg_queue_absent_when_empty :
    (PrepareEnqueuMsg Time.epoch [] "" "QuquClass"
      (some (Json.obj [("foo", Json.str "bar"), ("baz", Json.bool true)])) {}).map
        (fun m => (m.Get "queue", ((m.Get "queue").String).2)) =
      some (none, some AccessError.keyNotFound) := by
  have hat : ({} : EnqueueOptions).At ≤ Float64.fin 0 ∨
      ({} : EnqueueOptions).At.isFinite = true := Or.inr rfl
  obtain ⟨m, hm, hget⟩ := PrepareEnqueuMsg_some Time.epoch [] "" "QuquClass"
    (Json.obj [("foo", Json.str "bar"), ("baz", Json.bool true)]) {} hat
  obtain ⟨e, t, he, ht, -⟩ := PrepareEnqueuMsg.data_serialisable Time.epoch [] "" "QuquClass"
    (some (Json.obj [("foo", Json.str "bar"), ("baz", Json.bool true)])) {} hat
  have hq : m.Get "queue" = none := by
    rw [hget, json.Marshal_field_queue _ _ e t rfl he ht]
    rfl
  rw [hm]
  simp [hq, Accessor.String]

/-- C12, as the code has it. On the typed path a serialised record has the member `retry`
iff `opts.Retry` is true (with value `true`), `retry_count` iff `opts.RetryCount` is not
zero (with that value) and `max_attempts` iff `opts.MaxAttempts` is not zero (with that
value). So it is for the record `PrepareEnqueuMsg` returns, which exists when `opts.At` is
neither `+Inf` nor NaN, and for every payload `EnqueueWithOptions` sends to the store, which
is the record it serialised; for a finite `opts.At` a nil error means that this record was
sent, once, and a store that accepts the commands gives a nil error. When `opts.At` is
`+Inf` or NaN `PrepareEnqueuMsg` returns no record, and when it is not finite
`EnqueueWithOptions` returns an error and sends nothing. -/
theorem typed_path_retry_members (cfg : Config) (clock : Time) (rand : List Byte)
    (conn : Conn) (queue class_ : String) (a : Json) (opts : EnqueueOptions) :
    let retry := if opts.Retry = true then some (Json.bool true) else none
    let retryCount := if opts.RetryCount = 0 then none else some (Json.num opts.RetryCount)
    let maxAttempts := if opts.MaxAttempts = 0 then none else some (Json.num opts.MaxAttempts)
    let bytes := (json.Marshal (EnqueueWithOptions.data clock rand queue class_ (some a) opts)).1
    let r := EnqueueWithOptions cfg clock rand conn queue class_ (some a) opts
    (opts.At ≠ Float64.posInf ∧ opts.At ≠ Float64.nan →
      ∃ m, PrepareEnqueuMsg clock rand queue class_ (some a) opts = some m ∧
        m.Get "retry" = retry ∧ m.Get "retry_count" = retryCount ∧
        m.Get "max_attempts" = maxAttempts) ∧
    (∀ b ∈ r.1.payloadsSince conn,
      b = bytes ∧ b.field "retry" = retry ∧ b.field "retry_count" = retryCount ∧
        b.field "max_attempts" = maxAttempts) ∧
    (opts.At.isFinite = true →
      (bytes.field "retry" = retry ∧ bytes.field "retry_count" = retryCount ∧
        bytes.field "max_attempts" = maxAttempts) ∧
      (r.2.2 = none → r.1.payloadsSince conn = [bytes]) ∧
      ((∀ c, conn.failing c = false) → r.2.2 = none ∧ r.1.payloadsSince conn = [bytes])) ∧
    (opts.At = Float64.posInf ∨ opts.At = Float64.nan →
      PrepareEnqueuMsg clock rand queue class_ (some a) opts = none) ∧
    (opts.At.isFinite = false → r.1.payloadsSince conn = [] ∧ r.2.2 ≠ none) := by
  intro retry retryCount maxAttempts bytes r
  have hbytes : opts.At.isFinite = true →
      bytes.field "retry" = retry ∧ bytes.field "retry_count" = retryCount ∧
        bytes.field "max_attempts" = maxAttempts := by
    intro hfin
    obtain ⟨e, t, he, ht, -⟩ := EnqueueWithOptions.data_finite clock rand queue class_
      (some a) opts hfin
    exact ⟨json.Marshal_field_retry _ a e t rfl he ht,
      json.Marshal_field_retry_count _ a e t rfl he ht,
      json.Marshal_field_max_attempts _ a e t rfl he ht⟩
  obtain ⟨hsent, hnil⟩ := EnqueueWithOptions_payloads cfg clock rand conn queue class_ (some a)
    opts
  refine ⟨fun hne => ?_, fun b hb => ?_, fun hfin => ⟨hbytes hfin, fun h => (hnil h).1,
    fun hstore => ?_⟩, fun hinf => PrepareEnqueuMsg_none clock rand queue class_ _ opts
      (Or.inr hinf), fun hinf => ?_⟩
  · have hat : opts.At ≤ Float64.fin 0 ∨ opts.At.isFinite = true :=
      (Float64.le_fin_or_isFinite opts.At 0).mpr hne
    obtain ⟨m, hm, hget⟩ := PrepareEnqueuMsg_some clock rand queue class_ a opts hat
    obtain ⟨e, t, he, ht, -⟩ :=
      PrepareEnqueuMsg.data_serialisable clock rand queue class_ (some a) opts hat
    obtain ⟨o₁, o₂, o₃⟩ := PrepareEnqueuMsg.data_options clock rand queue class_ (some a) opts
    refine ⟨m, hm, ?_, ?_, ?_⟩
    · rw [hget, json.Marshal_field_retry _ a e t rfl he ht, o₁]
    · rw [hget, json.Marshal_field_retry_count _ a e t rfl he ht, o₂]
    · rw [hget, json.Marshal_field_max_attempts _ a e t rfl he ht, o₃]
  · obtain ⟨hb₁, -, hfin⟩ := hsent b hb
    rw [hb₁]
    exact ⟨rfl, hbytes hfin⟩
  · have hr : r.2.2 = none := by
      by_cases h : NowToSecondsWithNanoPrecision clock < opts.At
      · have e : r = _ := EnqueueWithOptions_scheduled_accepted cfg clock rand conn queue
          class_ a opts hfin h hstore
        rw [e]
      · have e : r = _ := EnqueueWithOptions_immediate_accepted cfg clock rand conn queue
          class_ a opts hfin h hstore
        rw [e]
    exact ⟨hr, (hnil hr).1⟩
  · obtain ⟨e, he⟩ := EnqueueWithOptions_rejected cfg clock rand conn queue class_ (some a)
      opts (Or.inr hinf)
    have hr : r = (conn, "", some e) := he
    rw [hr]
    simp [Conn.payloadsSince, Conn.issuedSince_self]

/-- C12 (as the code has it) at the retry options of the test suite, on a fresh store that
accepts the commands: `PrepareEnqueuMsg` returns a record with the three members, and
`EnqueueWithOptions` sends one payload, which has them too. -/
theorem typed_path_retry_members_witness :
    (({ RetryCount := 13, Retry := true, MaxAttempts := 98 } : EnqueueOptions).At
        ≠ Float64.posInf ∧
      ({ RetryCount := 13, Retry := true, MaxAttempts := 98 } : EnqueueOptions).At
        ≠ Float64.nan) ∧
    ({ RetryCount := 13, Retry := true, MaxAttempts := 98 } : EnqueueOptions).At.isFinite
      = true ∧
    (∀ c, (Conn.healthy Store.empty).failing c = false) ∧
    (∃ m, PrepareEnqueuMsg Time.epoch [] "ququ-queue" "QuquClass" (some Json.null)
        { RetryCount := 13, Retry := true, MaxAttempts := 98 } = some m ∧
      m.Get "retry" = some (Json.bool true) ∧ m.Get "retry_count" = some (Json.num 13) ∧
      m.Get "max_attempts" = some (Json.num 98)) ∧
    (EnqueueWithOptions ⟨"prod:"⟩ Time.epoch [] (Conn.healthy Store.empty) "enqueue6" "Compare"
        (some Json.null) { RetryCount := 13, Retry := true, MaxAttempts := 98 }).1.payloadsSince
        (Conn.healthy Store.empty) =
      [(json.Marshal (EnqueueWithOptions.data Time.epoch [] "enqueue6" "Compare"
        (some Json.null) { RetryCount := 13, Retry := true, MaxAttempts := 98 })).1] ∧
    (json.Marshal (EnqueueWithOptions.data Time.epoch [] "enqueue6" "Compare"
        (some Json.null) { RetryCount := 13, Retry := true, MaxAttempts := 98 })).1.field
      "retry_count" = some (Json.num 13) :=
  ⟨⟨by decide, by decide⟩, rfl, fun _ => rfl,
   by simpa using (typed_path_retry_members ⟨"prod:"⟩ Time.epoch [] (Conn.healthy Store.empty)
      "ququ-queue" "QuquClass" Json.null
      { RetryCount := 13, Retry := true, MaxAttempts := 98 }).1 ⟨by decide, by decide⟩,
   (((typed_path_retry_members ⟨"prod:"⟩ Time.epoch [] (Conn.healthy Store.empty) "enqueue6"
      "Compare" Json.null { RetryCount := 13, Retry := true, MaxAttempts := 98 }).2.2.1
      rfl).2.2 (fun _ => rfl)).2,
   by simpa using ((typed_path_retry_members ⟨"prod:"⟩ Time.epoch []
      (Conn.healthy Store.empty) "enqueue6" "Compare" Json.null
      { RetryCount := 13, Retry := true, MaxAttempts := 98 }).2.2.1 rfl).1.2.1⟩

/-- C12 fails for an infinite `opts.At`: with `opts.Retry` true no record with a `retry`
member is serialised, because none is serialised at all: `PrepareEnqueuMsg` returns no
record, and `EnqueueWithOptions`, on a store that accepts every command, returns the
serialisation error and sends nothing. -/
theorem typed_path_infinite_at_no_record :
    ({ Retry := true, At := Float64.posInf } : EnqueueOptions).Retry = true ∧
    PrepareEnqueuMsg Time.epoch [] "ququ-queue" "QuquClass" (some Json.null)
      { Retry := true, At := Float64.posInf } = none ∧
    (∀ c, (Conn.healthy Store.empty).failing c = false) ∧
    EnqueueWithOptions ⟨"prod:"⟩ Time.epoch [] (Conn.healthy Store.empty) "enqueue6" "Compare"
        (some Json.null) { Retry := true, At := Float64.posInf } =
      (Conn.healthy Store.empty, "", some "json: unsupported value: +Inf") := by
  refine ⟨rfl, ?_, fun _ => rfl, ?_⟩
  · simp [PrepareEnqueuMsg, json.Marshal, NowToSecondsWithNanoPrecision_epoch, NewMsg,
      LE.le, Float64.le]
  · rw [EnqueueWithOptions_eq]
    simp [json.Marshal, EnqueueWithOptions.data, NowToSecondsWithNanoPrecision_epoch,
    json.UnsupportedValueError]


/-! ## Identifier shape of dispatched records -/

theorem EnqueueMsg_rejected_or_valid (cfg : Config) (clock : Time) (rand : List Byte)
    (conn : Conn) (msg : Msg) :
    (EnqueueMsg cfg clock rand conn msg).1 = conn ∨
    ∃ q, msg.Get "queue" = some (Json.str q) ∧
      (msg.Get "jid" = none ∨ ∃ s, msg.Get "jid" = some (Json.str s)) ∧
      (msg.Get "at" = none ∨ ∃ n, msg.Get "at" = some (Json.num n)) := by
  by_cases hq : ∃ q, msg.Get "queue" = some (Json.str q)
  · obtain ⟨q, hq⟩ := hq
    by_cases hj : msg.Get "jid" = none ∨ ∃ s, msg.Get "jid" = some (Json.str s)
    · by_cases ha : msg.Get "at" = none ∨ ∃ n, msg.Get "at" = some (Json.num n)
      · exact Or.inr ⟨q, hq, hj, ha⟩
      · left
        cases hat : msg.Get "at" with
        | none => exact absurd (Or.inl hat) ha
        | some v =>
          have hv : ∀ n, v ≠ Json.num n := fun n hn => ha (Or.inr ⟨n, by rw [hat, hn]⟩)
          have h₁ := EnqueueMsg.jidStep_validated rand msg hj
          have hat' : (if msg.Get "jid" = none then
              msg.Set "jid" (Json.str (generateJid rand)) else msg).Get "at" = some v := by
            split
            · rw [Msg.Get_Set, if_neg (by decide), hat]
            · exact hat
          obtain ⟨e, he⟩ := EnqueueMsg.atStep_of_malformed
            (NowToSecondsWithNanoPrecision clock) _ v hat' hv
          rw [EnqueueMsg_bad_at cfg clock rand conn msg _ q hq h₁ e he]
    · left
      cases hjid : msg.Get "jid" with
      | none => exact absurd (Or.inl hjid) hj
      | some v =>
        have hv : ∀ s, v ≠ Json.str s := fun s hs => hj (Or.inr ⟨s, by rw [hjid, hs]⟩)
        obtain ⟨e, he⟩ := EnqueueMsg.jidStep_of_malformed rand msg v hjid hv
        rw [EnqueueMsg_bad_jid cfg clock rand conn msg q hq e he]
  · left
    obtain ⟨e, he⟩ := EnqueueMsg_bad_queue cfg clock rand conn msg
      (fun s hs => hq ⟨s, hs⟩)
    rw [he]

theorem EnqueueMsg_payloads_jid (cfg : Config) (clock : Time) (rand : List Byte)
    (conn : Conn) (msg : Msg) :
    ∀ b ∈ (EnqueueMsg cfg clock rand conn msg).1.payloadsSince conn,
      b.field "jid" =
        if msg.Get "jid" = none then some (Json.str (generateJid rand)) else msg.Get "jid" := by
  intro b hb
  rcases EnqueueMsg_rejected_or_valid cfg clock rand conn msg with h | ⟨q, hq, hj, ha⟩
  · rw [h] at hb
    simp [Conn.payloadsSince, Conn.issuedSince_self] at hb
  · rw [(EnqueueMsg_payloads cfg clock rand conn msg q hq hj ha).1 b hb]
    have := EnqueueMsg.completed_Get (NowToSecondsWithNanoPrecision clock) rand msg "jid"
    simp only [Msg.Get] at this
    simp only [Bytes.field, Msg.Get]
    rw [this]
    by_cases hjn : lookupField "jid" msg.fields = none <;> simp [hjn]

theorem EnqueueWithOptions_payloads_jid (cfg : Config) (clock : Time) (rand : List Byte)
    (conn : Conn) (queue class_ : String) (args : Option Json) (opts : EnqueueOptions) :
    ∀ b ∈ (EnqueueWithOptions cfg clock rand conn queue class_ args opts).1.payloadsSince conn,
      b.field "jid" = some (Json.str (generateJid rand)) := by
  intro b hb
  obtain ⟨hbytes, hsome, hfin⟩ :=
    (EnqueueWithOptions_payloads cfg clock rand conn queue class_ args opts).1 b hb
  cases args with
  | none => simp at hsome
  | some a =>
    obtain ⟨e, t, he, ht, -⟩ := EnqueueWithOptions.data_finite clock rand queue class_
      (some a) opts hfin
    rw [hbytes]
    exact json.Marshal_field_jid _ a e t rfl he ht

/-- C14, as the code has it: when the randomness source delivers its 12 bytes, every payload
that `Enqueue`, `EnqueueIn`, `EnqueueAt` or `EnqueueWithOptions` sends to the store has a
`jid` of exactly 24 lowercase hexadecimal characters, and so has every payload `EnqueueMsg`
sends for a record that came without `jid`; for a record that came with a string `jid`,
`EnqueueMsg` sends that `jid` unchanged, whatever its shape. -/
theorem dispatched_jid_shape (cfg : Config) (clock₁ clock₂ : Time) (rand : List Byte)
    (conn : Conn) (queue class_ : String) (args : Option Json) (opts : EnqueueOptions)
    (in_ : Float64) (at_ : Time) (msg : Msg) (hrand : 12 ≤ rand.length) :
    (∀ b ∈ (EnqueueWithOptions cfg clock₂ rand conn queue class_ args opts).1.payloadsSince conn,
      ∃ s, b.field "jid" = some (Json.str s) ∧ isJid s = true) ∧
    (∀ b ∈ (Enqueue cfg clock₁ clock₂ rand conn queue class_ args).1.payloadsSince conn,
      ∃ s, b.field "jid" = some (Json.str s) ∧ isJid s = true) ∧
    (∀ b ∈ (EnqueueIn cfg clock₁ clock₂ rand conn queue class_ in_ args).1.payloadsSince conn,
      ∃ s, b.field "jid" = some (Json.str s) ∧ isJid s = true) ∧
    (∀ b ∈ (EnqueueAt cfg clock₂ rand conn queue class_ at_ args).1.payloadsSince conn,
      ∃ s, b.field "jid" = some (Json.str s) ∧ isJid s = true) ∧
    (∀ b ∈ (EnqueueMsg cfg clock₂ rand conn msg).1.payloadsSince conn,
      (msg.Get "jid" = none → ∃ s, b.field "jid" = some (Json.str s) ∧ isJid s = true) ∧
      (∀ s, msg.Get "jid" = some (Json.str s) → b.field "jid" = some (Json.str s))) := by
  have hjid := generateJid_isJid rand hrand
  refine ⟨fun b hb => ?_, fun b hb => ?_, fun b hb => ?_, fun b hb => ?_, fun b hb => ?_⟩
  · exact ⟨_, EnqueueWithOptions_payloads_jid cfg clock₂ rand conn queue class_ args opts b hb,
      hjid⟩
  · exact ⟨_, EnqueueWithOptions_payloads_jid cfg clock₂ rand conn queue class_ args _ b hb,
      hjid⟩
  · exact ⟨_, EnqueueWithOptions_payloads_jid cfg clock₂ rand conn queue class_ args _ b hb,
      hjid⟩
  · exact ⟨_, EnqueueWithOptions_payloads_jid cfg clock₂ rand conn queue class_ args _ b hb,
      hjid⟩
  · have h := EnqueueMsg_payloads_jid cfg clock₂ rand conn msg b hb
    refine ⟨fun hn => ⟨_, by rw [h, if_pos hn], hjid⟩, fun s hs => ?_⟩
    rw [h, if_neg (by rw [hs]; simp), hs]

/-- C14 (as the code has it) for a call of `Enqueue` with a working randomness source. -/
theorem dispatched_jid_shape_witness :
    12 ≤ (List.replicate 12 (171 : Byte)).length ∧
    ∀ b ∈ (Enqueue ⟨"prod:"⟩ Time.epoch Time.epoch (List.replicate 12 171) (Conn.healthy Store.empty) "enqueue4"
        "Compare" (some (Json.arr [Json.str "foo", Json.str "bar"]))).1.payloadsSince
        (Conn.healthy Store.empty),
      ∃ s, b.field "jid" = some (Json.str s) ∧ isJid s = true :=
  ⟨by decide,
   (dispatched_jid_shape ⟨"prod:"⟩ Time.epoch Time.epoch (List.replicate 12 171) (Conn.healthy Store.empty)
      "enqueue4" "Compare" (some (Json.arr [Json.str "foo", Json.str "bar"])) {}
      (Float64.fin 0) Time.epoch ⟨[]⟩ (by decide)).2.1⟩

/-- C14 fails as stated on the raw path: for the record `{"jid":"1","queue":"enqueue1"}` of
the test suite, with a working randomness source and store, `EnqueueMsg` returns no error
and the one payload it sends carries the caller's `jid`, `"1"`, which is not 24 hexadecimal
characters. -/
theorem EnqueueMsg_keeps_short_jid :
    (EnqueueMsg ⟨"prod:"⟩ Time.epoch (List.replicate 12 171) (Conn.healthy Store.empty)
      ⟨[("jid", Json.str "1"), ("queue", Json.str "enqueue1")]⟩).2.2 = none ∧
    (∃ b, (EnqueueMsg ⟨"prod:"⟩ Time.epoch (List.replicate 12 171) (Conn.healthy Store.empty)
        ⟨[("jid", Json.str "1"), ("queue", Json.str "enqueue1")]⟩).1.payloadsSince
        (Conn.healthy Store.empty) = [b] ∧
      b.field "jid" = some (Json.str "1")) ∧
    isJid "1" = false := by
  obtain ⟨-, hh⟩ := EnqueueMsg_payloads ⟨"prod:"⟩ Time.epoch (List.replicate 12 171)
    (Conn.healthy Store.empty) ⟨[("jid", Json.str "1"), ("queue", Json.str "enqueue1")]⟩
    "enqueue1" rfl (Or.inr ⟨"1", rfl⟩) (Or.inl rfl)
  obtain ⟨hnil, hp⟩ := hh (fun _ => rfl)
  refine ⟨hnil, ⟨_, hp, ?_⟩, by decide⟩
  have h := EnqueueMsg_payloads_jid ⟨"prod:"⟩ Time.epoch (List.replicate 12 171)
    (Conn.healthy Store.empty) ⟨[("jid", Json.str "1"), ("queue", Json.str "enqueue1")]⟩ _
    (by rw [hp]; exact List.mem_singleton.mpr rfl)
  rw [h]
  rfl

/-! ## What a successful typed dispatch returns and writes -/

/-- C15: whenever `EnqueueWithOptions` returns a nil error, exactly one payload was sent to
the store, it was written (it is in the scheduled set or in the queue list of the store
after the call), and the string returned is the `jid` member of that payload. -/
theorem EnqueueWithOptions_returns_written_jid (cfg : Config) (clock : Time)
    (rand : List Byte) (conn : Conn) (queue class_ : String) (args : Option Json)
    (opts : EnqueueOptions)
    (hnil : (EnqueueWithOptions cfg clock rand conn queue class_ args opts).2.2 = none) :
    let r := EnqueueWithOptions cfg clock rand conn queue class_ args opts
    ∃ b, r.1.payloadsSince conn = [b] ∧
      b.field "jid" = some (Json.str r.2.1) ∧
      ((∃ score, (score, b) ∈ r.1.store.zsets (cfg.Namespace ++ SCHEDULED_JOBS_KEY)) ∨
        b ∈ r.1.store.lists (cfg.Namespace ++ "queue:" ++ queue)) := by
  intro r
  obtain ⟨hp, hsome, hfin, hjid⟩ :=
    (EnqueueWithOptions_payloads cfg clock rand conn queue class_ args opts).2 hnil
  cases args with
  | none => simp at hsome
  | some a =>
    obtain ⟨e, t, he, ht, -⟩ := EnqueueWithOptions.data_finite clock rand queue class_
      (some a) opts hfin
    refine ⟨_, hp, ?_, ?_⟩
    · simp only [r, hjid]
      exact json.Marshal_field_jid _ a e t rfl he ht
    · by_cases h : NowToSecondsWithNanoPrecision clock < opts.At
      · left
        obtain ⟨c₁, c₂⟩ :=
          EnqueueWithOptions_scheduled_cases cfg clock rand conn queue class_ a opts hfin h
        cases hf : conn.failing (Command.zadd (cfg.Namespace ++ SCHEDULED_JOBS_KEY) opts.At
            (json.Marshal (EnqueueWithOptions.data clock rand queue class_ (some a) opts)).1) with
        | true =>
          rw [c₁ hf] at hnil
          exact absurd hnil (by simp)
        | false =>
          refine ⟨opts.At, ?_⟩
          simp only [r, c₂ hf]
          simp [Store.apply]
      · right
        obtain ⟨c₁, c₂, c₃⟩ :=
          EnqueueWithOptions_immediate_cases cfg clock rand conn queue class_ a opts hfin h
        cases h₁ : conn.failing (Command.sadd (cfg.Namespace ++ "queues") queue) with
        | true =>
          rw [c₁ h₁] at hnil
          exact absurd hnil (by simp)
        | false =>
          cases h₂ : conn.failing (Command.rpush (cfg.Namespace ++ "queue:" ++ queue)
              (json.Marshal (EnqueueWithOptions.data clock rand queue class_ (some a) opts)).1) with
          | true =>
            rw [c₂ h₁ h₂] at hnil
            exact absurd hnil (by simp)
          | false =>
            simp only [r, c₃ h₁ h₂]
            simp [Store.apply]

/-- C15 at a scheduled job on a fresh store: the call returns nil, and with it the `jid`
of the one payload it wrote. -/
theorem EnqueueWithOptions_returns_written_jid_witness :
    (EnqueueWithOptions ⟨"prod:"⟩ Time.epoch (List.replicate 12 171) (Conn.healthy Store.empty)
      "emails" "Send" (some Json.null) { At := Float64.fin 30 }).2.2 = none ∧
    ∃ b, (EnqueueWithOptions ⟨"prod:"⟩ Time.epoch (List.replicate 12 171) (Conn.healthy Store.empty)
        "emails" "Send" (some Json.null) { At := Float64.fin 30 }).1.payloadsSince
        (Conn.healthy Store.empty) = [b] ∧
      b.field "jid" = some (Json.str (EnqueueWithOptions ⟨"prod:"⟩ Time.epoch (List.replicate 12 171)
        (Conn.healthy Store.empty) "emails" "Send" (some Json.null) { At := Float64.fin 30 }).2.1) :=
  have hnil : (EnqueueWithOptions ⟨"prod:"⟩ Time.epoch (List.replicate 12 171)
      (Conn.healthy Store.empty) "emails" "Send" (some Json.null) { At := Float64.fin 30 }).2.2 = none := by
    rw [EnqueueWithOptions_scheduled_accepted ⟨"prod:"⟩ Time.epoch (List.replicate 12 171)
      (Conn.healthy Store.empty) "emails" "Send" Json.null { At := Float64.fin 30 }
      rfl (by rw [NowToSecondsWithNanoPrecision_epoch, Float64.fin_lt_fin]; norm_num)
      (fun _ => rfl)]
  ⟨hnil,
   (EnqueueWithOptions_returns_written_jid ⟨"prod:"⟩ Time.epoch (List.replicate 12 171)
      (Conn.healthy Store.empty) "emails" "Send" (some Json.null) { At := Float64.fin 30 } hnil).elim
      (fun b h => ⟨b, h.1, h.2.1⟩)⟩

/-- C16, as the code has it: every payload `EnqueueWithOptions` sends to the store is the
serialised record, and `opts.At` is then finite; the `at` of the serialised record is
`opts.At` whenever `opts.At` is not zero (so whenever `opts.At > 0`, and also when it is
negative); when `opts.At` is zero the record has no `at`. No default is applied. -/
theorem EnqueueWithOptions_at_member (cfg : Config) (clock : Time) (rand : List Byte)
    (conn : Conn) (queue class_ : String) (a : Json) (opts : EnqueueOptions) :
    let bytes := (json.Marshal (EnqueueWithOptions.data clock rand queue class_ (some a) opts)).1
    (∀ b ∈ (EnqueueWithOptions cfg clock rand conn queue class_ (some a) opts).1.payloadsSince
      conn, b = bytes ∧ opts.At.isFinite = true) ∧
    (∀ t, opts.At = Float64.fin t →
      (0 < t → bytes.field "at" = some (Json.num t)) ∧
      (t ≠ 0 → bytes.field "at" = some (Json.num t)) ∧
      (t = 0 → bytes.field "at" = none)) := by
  intro bytes
  refine ⟨fun b hb => ?_, fun t ht => ?_⟩
  · obtain ⟨h₁, -, h₂⟩ :=
      (EnqueueWithOptions_payloads cfg clock rand conn queue class_ (some a) opts).1 b hb
    exact ⟨h₁, h₂⟩
  · obtain ⟨e, he⟩ := NowToSecondsWithNanoPrecision_finite clock
    have hat : bytes.field "at" = if t = 0 then none else some (Json.num t) :=
      json.Marshal_field_at _ a e t rfl he ht
    refine ⟨fun h => ?_, fun h => ?_, fun h => ?_⟩
    · rw [hat, if_neg (ne_of_gt h)]
    · rw [hat, if_neg h]
    · rw [hat, if_pos h]

/-- C16 (as the code has it) at a job for 30 s after the epoch. -/
theorem EnqueueWithOptions_at_member_witness :
    ({ At := Float64.fin 30 } : EnqueueOptions).At = Float64.fin 30 ∧ (0 : ℚ) < 30 ∧
    (json.Marshal (EnqueueWithOptions.data Time.epoch [] "emails" "Send" (some Json.null)
      { At := Float64.fin 30 })).1.field "at" = some (Json.num 30) :=
  ⟨rfl, by norm_num,
   ((EnqueueWithOptions_at_member ⟨"prod:"⟩ Time.epoch [] (Conn.healthy Store.empty) "emails"
      "Send" Json.null { At := Float64.fin 30 }).2 30 rfl).1 (by norm_num)⟩

/-- C16 fails as stated for options that leave `At` unset: at the call of the test suite
(`RetryCount: 13, Retry: true, MaxAttempts: 98`, no `At`), 5 ns after the epoch with a
working store, the call returns no error and the one payload it writes has no `at`, although
`now` is not zero; nothing defaults it to `now`. -/
theorem EnqueueWithOptions_no_at_default :
    ({ RetryCount := 13, Retry := true, MaxAttempts := 98 } : EnqueueOptions).At
      ≤ Float64.fin 0 ∧
    NowToSecondsWithNanoPrecision (Time.mk 5 (by decide)) ≠ Float64.fin 0 ∧
    (EnqueueWithOptions ⟨"prod:"⟩ (Time.mk 5 (by decide)) [] (Conn.healthy Store.empty)
      "enqueue6" "Compare" (some (Json.arr [Json.str "foo", Json.str "bar"]))
      { RetryCount := 13, Retry := true, MaxAttempts := 98 }).2.2 = none ∧
    ∃ b, (EnqueueWithOptions ⟨"prod:"⟩ (Time.mk 5 (by decide)) [] (Conn.healthy Store.empty)
        "enqueue6" "Compare" (some (Json.arr [Json.str "foo", Json.str "bar"]))
        { RetryCount := 13, Retry := true, MaxAttempts := 98 }).1.payloadsSince
        (Conn.healthy Store.empty) = [b] ∧
      b.field "at" = none := by
  obtain ⟨q, hq, hqpos⟩ := NowToSecondsWithNanoPrecision_pos (Time.mk 5 (by decide))
    (by decide)
  have hdue : ¬ NowToSecondsWithNanoPrecision (Time.mk 5 (by decide)) <
      ({ RetryCount := 13, Retry := true, MaxAttempts := 98 } : EnqueueOptions).At := by
    rw [hq]
    show ¬ Float64.fin q < Float64.fin 0
    rw [Float64.fin_lt_fin]
    exact not_lt.mpr (le_of_lt hqpos)
  have e := EnqueueWithOptions_immediate_accepted ⟨"prod:"⟩ (Time.mk 5 (by decide)) []
    (Conn.healthy Store.empty) "enqueue6" "Compare"
    (Json.arr [Json.str "foo", Json.str "bar"])
    { RetryCount := 13, Retry := true, MaxAttempts := 98 } rfl hdue (fun _ => rfl)
  simp only [] at e
  have hnil : (EnqueueWithOptions ⟨"prod:"⟩ (Time.mk 5 (by decide)) []
      (Conn.healthy Store.empty) "enqueue6" "Compare"
      (some (Json.arr [Json.str "foo", Json.str "bar"]))
      { RetryCount := 13, Retry := true, MaxAttempts := 98 }).2.2 = none := by rw [e]
  refine ⟨by decide, ?_, hnil, _, ((EnqueueWithOptions_payloads ⟨"prod:"⟩
    (Time.mk 5 (by decide)) [] (Conn.healthy Store.empty) "enqueue6" "Compare"
    (some (Json.arr [Json.str "foo", Json.str "bar"]))
    { RetryCount := 13, Retry := true, MaxAttempts := 98 }).2 hnil).1, ?_⟩
  · rw [hq]
    intro h
    exact absurd (Float64.fin.inj h) (ne_of_gt hqpos)
  · rw [json.Marshal_field_at _ _ q 0 rfl hq rfl]
    rfl


/-! ## Partial failure on the immediate branch -/

theorem EnqueueMsg_immediate_cases (cfg : Config) (clock : Time) (rand : List Byte)
    (conn : Conn) (msg : Msg) (q : String) (hq : msg.Get "queue" = some (Json.str q))
    (hj : msg.Get "jid" = none ∨ ∃ s, msg.Get "jid" = some (Json.str s))
    (ha : msg.Get "at" = none ∨ ∃ n, msg.Get "at" = some (Json.num n))
    (h : ¬ NowToSecondsWithNanoPrecision clock <
      (((EnqueueMsg.completed (NowToSecondsWithNanoPrecision clock) rand msg).Get
        "at").Float64).1) :
    let m₃ := EnqueueMsg.completed (NowToSecondsWithNanoPrecision clock) rand msg
    let bytes := Bytes.text (Json.obj m₃.fields)
    let sadd := Command.sadd (cfg.Namespace ++ "queues") q
    let rpush := Command.rpush (cfg.Namespace ++ "queue:" ++ q) bytes
    let r := EnqueueMsg cfg clock rand conn msg
    (conn.failing sadd = true →
      r = ({ conn with issued := conn.issued ++ [sadd] }, m₃, some "store error")) ∧
    (conn.failing sadd = false → conn.failing rpush = true →
      r = ({ conn with store := conn.store.apply sadd, issued := conn.issued ++ [sadd, rpush] },
        m₃, some "store error")) ∧
    (conn.failing sadd = false → conn.failing rpush = false →
      r = ({ conn with store := (conn.store.apply sadd).apply rpush,
                       issued := conn.issued ++ [sadd, rpush] }, m₃, none)) := by
  intro m₃ bytes sadd rpush r
  obtain ⟨m₁, m₂, h₁, h₂, e₁, e₂⟩ :=
    EnqueueMsg.validated (NowToSecondsWithNanoPrecision clock) rand msg hj ha
  have hm : m₃ = m₂.Set "enqueued_at" (NowToSecondsWithNanoPrecision clock).toJson := by
    rw [e₂, e₁]; rfl
  have hq₂ : m₂.Get "queue" = some (Json.str q) := by
    rw [e₂, e₁]
    by_cases ha' : msg.Get "at" = none <;> by_cases hj' : msg.Get "jid" = none <;>
      simp [ha', hj', Msg.Get_Set, hq]
  have e : r = _ := EnqueueMsg_valid cfg clock rand conn msg m₁ m₂ q hq h₁ h₂ hq₂
  simp only [← hm] at e
  have h' : ¬ NowToSecondsWithNanoPrecision clock < ((m₃.Get "at").Float64).1 := h
  rw [if_neg h'] at e
  refine ⟨fun f₁ => ?_, fun f₁ f₂ => ?_, fun f₁ f₂ => ?_⟩
  · rw [e, Conn.Do_of_fails conn _ f₁]
    rfl
  · have d₁ : conn.Do sadd = _ := Conn.Do_of_accepts conn sadd f₁
    have d₂ : (conn.Do sadd).1.Do rpush = _ :=
      Conn.Do_of_fails _ rpush (by rw [Conn.Do_failing]; exact f₂)
    rw [e, d₂, d₁]
    simp
  · have d₁ : conn.Do sadd = _ := Conn.Do_of_accepts conn sadd f₁
    have d₂ : (conn.Do sadd).1.Do rpush = _ :=
      Conn.Do_of_accepts _ rpush (by rw [Conn.Do_failing]; exact f₂)
    rw [e, d₂, d₁]
    simp

theorem Store.apply_sadd_mem (s : Store) (key member : String) :
    member ∈ (s.apply (Command.sadd key member)).sets key := by
  simp only [Store.apply]
  by_cases h : member ∈ s.sets key <;> simp [h]

/-- C17: on the immediate branch of `EnqueueWithOptions` and of `EnqueueMsg` the registry
add is issued before the queue append. If the store answers the `sadd` with an error, the
error is returned, the `sadd` is the only command issued and the store (so the queue list)
is unchanged; if it accepts the `sadd` and answers the `rpush` with an error, the error is
returned, the commands issued are the `sadd` and the `rpush` and nothing after them, and the
store is the one the `sadd` left: the queue name is in the registry. `EnqueueWithOptions`
reaches the branch when the record serialised, that is for a finite `opts.At`. -/
theorem immediate_branch_partial_failure (cfg : Config) (clock : Time) (rand : List Byte)
    (conn : Conn) (queue class_ : String) (a : Json) (opts : EnqueueOptions)
    (msg : Msg) (q : String) :
    (opts.At.isFinite = true → ¬ NowToSecondsWithNanoPrecision clock < opts.At →
      let bytes := (json.Marshal
        (EnqueueWithOptions.data clock rand queue class_ (some a) opts)).1
      let sadd := Command.sadd (cfg.Namespace ++ "queues") queue
      let rpush := Command.rpush (cfg.Namespace ++ "queue:" ++ queue) bytes
      let r := EnqueueWithOptions cfg clock rand conn queue class_ (some a) opts
      (conn.failing sadd = true →
        r.2.2 ≠ none ∧ r.1.issuedSince conn = [sadd] ∧ r.1.store = conn.store ∧
        r.1.store.lists = conn.store.lists) ∧
      (conn.failing sadd = false → conn.failing rpush = true →
        r.2.2 ≠ none ∧ r.1.issuedSince conn = [sadd, rpush] ∧
        r.1.store = conn.store.apply sadd ∧
        queue ∈ r.1.store.sets (cfg.Namespace ++ "queues") ∧
        r.1.store.lists = conn.store.lists)) ∧
    (msg.Get "queue" = some (Json.str q) →
      (msg.Get "jid" = none ∨ ∃ s, msg.Get "jid" = some (Json.str s)) →
      (msg.Get "at" = none ∨ ∃ n, msg.Get "at" = some (Json.num n)) →
      ¬ NowToSecondsWithNanoPrecision clock <
        (((EnqueueMsg.completed (NowToSecondsWithNanoPrecision clock) rand msg).Get
          "at").Float64).1 →
      let bytes := Bytes.text (Json.obj
        (EnqueueMsg.completed (NowToSecondsWithNanoPrecision clock) rand msg).fields)
      let sadd := Command.sadd (cfg.Namespace ++ "queues") q
      let rpush := Command.rpush (cfg.Namespace ++ "queue:" ++ q) bytes
      let r := EnqueueMsg cfg clock rand conn msg
      (conn.failing sadd = true →
        r.2.2 ≠ none ∧ r.1.issuedSince conn = [sadd] ∧ r.1.store = conn.store ∧
        r.1.store.lists = conn.store.lists) ∧
      (conn.failing sadd = false → conn.failing rpush = true →
        r.2.2 ≠ none ∧ r.1.issuedSince conn = [sadd, rpush] ∧
        r.1.store = conn.store.apply sadd ∧
        q ∈ r.1.store.sets (cfg.Namespace ++ "queues") ∧
        r.1.store.lists = conn.store.lists)) := by
  refine ⟨fun hfin h => ?_, fun hq hj ha h => ?_⟩
  · obtain ⟨c₁, c₂, -⟩ :=
      EnqueueWithOptions_immediate_cases cfg clock rand conn queue class_ a opts hfin h
    intro bytes sadd rpush r
    refine ⟨fun f₁ => ?_, fun f₁ f₂ => ?_⟩
    · have e : r = _ := c₁ f₁
      rw [e]
      exact ⟨by simp, Conn.issuedSince_append _ conn _ rfl, rfl, rfl⟩
    · have e : r = _ := c₂ f₁ f₂
      rw [e]
      exact ⟨by simp, Conn.issuedSince_append _ conn _ rfl, rfl,
        Store.apply_sadd_mem conn.store _ queue, rfl⟩
  · obtain ⟨c₁, c₂, -⟩ := EnqueueMsg_immediate_cases cfg clock rand conn msg q hq hj ha h
    intro bytes sadd rpush r
    refine ⟨fun f₁ => ?_, fun f₁ f₂ => ?_⟩
    · have e : r = _ := c₁ f₁
      rw [e]
      exact ⟨by simp, Conn.issuedSince_append _ conn _ rfl, rfl, rfl⟩
    · have e : r = _ := c₂ f₁ f₂
      rw [e]
      exact ⟨by simp, Conn.issuedSince_append _ conn _ rfl, rfl,
        Store.apply_sadd_mem conn.store _ q, rfl⟩

/-- C17 on a store that rejects every command: `EnqueueWithOptions` with default options
stops after the `sadd` and returns the error. -/
theorem immediate_branch_partial_failure_witness :
    ({} : EnqueueOptions).At.isFinite = true ∧
    (¬ NowToSecondsWithNanoPrecision Time.epoch < ({} : EnqueueOptions).At) ∧
    (Conn.mk Store.empty [] (fun _ => true)).failing (Command.sadd ("prod:" ++ "queues")
      "enqueue1") = true ∧
    (EnqueueWithOptions ⟨"prod:"⟩ Time.epoch [] (Conn.mk Store.empty [] (fun _ => true)) "enqueue1" "Add"
      (some Json.null) {}).2.2 ≠ none :=
  have hdue : ¬ NowToSecondsWithNanoPrecision Time.epoch < ({} : EnqueueOptions).At := by
    rw [NowToSecondsWithNanoPrecision_epoch]; exact Float64.lt_irrefl _
  ⟨rfl, hdue, rfl,
   (((immediate_branch_partial_failure ⟨"prod:"⟩ Time.epoch [] (Conn.mk Store.empty [] (fun _ => true))
      "enqueue1" "Add" Json.null {} ⟨[]⟩ "").1 rfl hdue).1 rfl).1⟩

/-! ## Atomicity of the raw path on the caller's record -/

/-- C18: `EnqueueMsg` leaves the caller's record unchanged when it rejects it for a bad
`queue` or for a bad `jid`; when it rejects a record that has no `jid` for an `at` that is
present but not a number, the record has already received a generated `jid` (so it differs
from the input), its `at` and `enqueued_at` are as they were, and no command was issued. -/
theorem EnqueueMsg_record_atomicity (cfg : Config) (clock : Time) (rand : List Byte)
    (conn : Conn) (msg : Msg) :
    let r := EnqueueMsg cfg clock rand conn msg
    ((∀ s, msg.Get "queue" ≠ some (Json.str s)) → r.2.2 ≠ none ∧ r.2.1 = msg) ∧
    (∀ q v, msg.Get "queue" = some (Json.str q) → msg.Get "jid" = some v →
      (∀ s, v ≠ Json.str s) → r.2.2 ≠ none ∧ r.2.1 = msg) ∧
    (∀ q v, msg.Get "queue" = some (Json.str q) → msg.Get "jid" = none →
      msg.Get "at" = some v → (∀ n, v ≠ Json.num n) →
      r.2.2 ≠ none ∧
      r.2.1 = msg.Set "jid" (Json.str (generateJid rand)) ∧
      r.2.1 ≠ msg ∧
      r.2.1.Get "jid" = some (Json.str (generateJid rand)) ∧
      r.2.1.Get "at" = msg.Get "at" ∧
      r.2.1.Get "enqueued_at" = msg.Get "enqueued_at" ∧
      r.1 = conn) := by
  intro r
  refine ⟨fun hq => ?_, fun q v hq hv hns => ?_, fun q v hq hj hv hnn => ?_⟩
  · obtain ⟨e, he⟩ := EnqueueMsg_bad_queue cfg clock rand conn msg hq
    simp [r, he]
  · obtain ⟨e, he⟩ := EnqueueMsg.jidStep_of_malformed rand msg v hv hns
    have := EnqueueMsg_bad_jid cfg clock rand conn msg q hq e he
    simp [r, this]
  · have h₁ := EnqueueMsg.jidStep_of_absent rand msg hj
    have hat : (msg.Set "jid" (Json.str (generateJid rand))).Get "at" = some v := by
      rw [Msg.Get_Set, if_neg (by decide), hv]
    obtain ⟨e, he⟩ := EnqueueMsg.atStep_of_malformed
      (NowToSecondsWithNanoPrecision clock) _ v hat hnn
    have hr : r = _ := EnqueueMsg_bad_at cfg clock rand conn msg _ q hq h₁ e he
    have hg : (msg.Set "jid" (Json.str (generateJid rand))).Get "jid"
        = some (Json.str (generateJid rand)) := by
      rw [Msg.Get_Set, if_pos rfl]
    rw [hr]
    refine ⟨by simp, rfl, ?_, hg, ?_, ?_, rfl⟩
    · intro hcontra
      have : (msg.Set "jid" (Json.str (generateJid rand))).Get "jid" = msg.Get "jid" := by
        simp only [] at hcontra
        rw [hcontra]
      rw [hg, hj] at this
      exact absurd this (by simp)
    · simp only []
      rw [Msg.Get_Set, if_neg (by decide)]
    · simp only []
      rw [Msg.Get_Set, if_neg (by decide)]

/-- C18 at the record `{"queue":"q","at":"soon"}`: rejected for its `at`, it comes back with
a `jid`. -/
theorem EnqueueMsg_record_atomicity_witness :
    (Msg.mk [("queue", Json.str "q"), ("at", Json.str "soon")]).Get "queue"
      = some (Json.str "q") ∧
    (Msg.mk [("queue", Json.str "q"), ("at", Json.str "soon")]).Get "jid" = none ∧
    (Msg.mk [("queue", Json.str "q"), ("at", Json.str "soon")]).Get "at"
      = some (Json.str "soon") ∧
    (∀ n, Json.str "soon" ≠ Json.num n) ∧
    (EnqueueMsg ⟨"prod:"⟩ Time.epoch (List.replicate 12 171) (Conn.healthy Store.empty)
        ⟨[("queue", Json.str "q"), ("at", Json.str "soon")]⟩).2.1 ≠
      ⟨[("queue", Json.str "q"), ("at", Json.str "soon")]⟩ :=
  ⟨rfl, rfl, rfl, fun _ h => Json.noConfusion h,
   ((EnqueueMsg_record_atomicity ⟨"prod:"⟩ Time.epoch (List.replicate 12 171) (Conn.healthy Store.empty)
      ⟨[("queue", Json.str "q"), ("at", Json.str "soon")]⟩).2.2 "q" (Json.str "soon") rfl rfl rfl
      (fun _ h => Json.noConfusion h)).2.2.1⟩

/-! ## The identifier returned alongside an error -/

end Workers
